import Mathlib

/-!
# route-chain: the per-packet reply engine

A shallow embedding of `route-chain.c`.  The worker's scratch buffer (`struct pkt`,
lines 44-63) is byte-addressed memory; offsets are counted from the start of the
struct, so the incoming packet starts at offset 48 and the synthesised headers are
written in the 48 bytes before it.  The host is little-endian (the `struct iphdr`
bit-field order the code relies on, and the byte order in which it reads 16-bit checksum
words), so `ntohl`, `htonl`, `ntohs` and `htons` are byte swaps.  Unsigned 32-bit
arithmetic is written with an explicit reduction modulo `2^32`; a shift count outside
`0..31`, which C leaves undefined, is answered by a parameter `wide`: a theorem
quantifies over it or names the platform it evaluates.  A handler returns the buffer it leaves behind together with the bytes
it hands to `write` (taken to succeed, the code aborts otherwise), or `none` when it
returns without writing.
-/

namespace RouteChain

/-! ## Machine model -/

abbrev Byte := Fin 256

/-- Byte-addressed memory. -/
abbrev Mem := Nat → Byte

/-- Two to the power 32: the modulus of `uint32_t`. -/
abbrev U32 : Nat := 4294967296

/-- Narrowing store of a value into one byte. -/
def toByte (v : Nat) : Byte := ⟨v % 256, Nat.mod_lt v (by decide)⟩

def rd8 (m : Mem) (a : Nat) : Nat := (m a).val

/-- A `uint16_t` load on the little-endian host. -/
def rd16 (m : Mem) (a : Nat) : Nat := rd8 m a + 256 * rd8 m (a + 1)

/-- A `uint32_t` load on the little-endian host. -/
def rd32 (m : Mem) (a : Nat) : Nat := rd16 m a + 65536 * rd16 m (a + 2)

def wr8 (m : Mem) (a v : Nat) : Mem := fun i => if i = a then toByte v else m i

/-- A `uint16_t` store (the value is narrowed to 16 bits). -/
def wr16 (m : Mem) (a v : Nat) : Mem := wr8 (wr8 m a v) (a + 1) (v / 256)

/-- A `uint32_t` store (the value is narrowed to 32 bits). -/
def wr32 (m : Mem) (a v : Nat) : Mem := wr16 (wr16 m a v) (a + 2) (v / 65536)

/-- The call `memset(m + a, c, n)`. -/
def memset (m : Mem) (a c n : Nat) : Mem :=
  fun i => if a ≤ i ∧ i < a + n then toByte c else m i

/-- The call `memcpy(m + dst, src + s, n)` for regions that do not overlap. -/
def memcpy (m : Mem) (dst : Nat) (src : Mem) (s n : Nat) : Mem :=
  fun i => if dst ≤ i ∧ i < dst + n then src (s + (i - dst)) else m i

/-- The `n` bytes of `m` that start at offset `a`. -/
def bytesAt (m : Mem) : Nat → Nat → List Byte
  | _, 0 => []
  | a, n + 1 => m a :: bytesAt m (a + 1) n

/-- A byte string seen as memory, its first byte at offset 0. -/
def memOf (l : List Byte) : Mem := fun i => l.getD i 0

def bswap16 (x : Nat) : Nat := (x % 256) * 256 + (x / 256) % 256

def bswap32 (x : Nat) : Nat :=
  (x % 256) * 16777216 + (x / 256 % 256) * 65536 + (x / 65536 % 256) * 256
    + (x / 16777216) % 256

def ntohl (x : Nat) : Nat := bswap32 x
def htonl (x : Nat) : Nat := bswap32 x
def htons (x : Nat) : Nat := bswap16 x
def ntohs (x : Nat) : Nat := bswap16 x

/-- Conversion of an `int` expression to `uint32_t`. -/
def toU32 (i : Int) : Nat := (i % 4294967296).toNat

/-- Subtraction `a - b` of `uint32_t` operands. -/
def sub32 (a b : Nat) : Nat := (a + U32 - b % U32) % U32

/-- The shift `x << n` of a `uint32_t`.  C defines it for `n < 32` only; for a wider
shift the result is whatever the platform gives, here the parameter `wide`. -/
def shl32 (wide : Nat → Nat → Nat) (x n : Nat) : Nat :=
  if n < 32 then (x <<< n) % U32 else wide x n % U32

/-! ## Constants of the system headers and of the source -/

@[simp] abbrev AF_INET : Nat := 2
@[simp] abbrev AF_INET6 : Nat := 10
@[simp] abbrev IPPROTO_ICMP : Nat := 1
@[simp] abbrev IPPROTO_TCP : Nat := 6
@[simp] abbrev IPPROTO_ICMPV6 : Nat := 58
@[simp] abbrev ICMP_ECHOREPLY : Nat := 0
@[simp] abbrev ICMP_DEST_UNREACH : Nat := 3
@[simp] abbrev ICMP_PORT_UNREACH : Nat := 3
@[simp] abbrev ICMP_ECHO : Nat := 8
@[simp] abbrev ICMP_TIME_EXCEEDED : Nat := 11
@[simp] abbrev ICMP6_DST_UNREACH : Nat := 1
@[simp] abbrev ICMP6_DST_UNREACH_NOPORT : Nat := 4
@[simp] abbrev ICMP6_TIME_EXCEEDED : Nat := 3
@[simp] abbrev ICMP6_ECHO_REQUEST : Nat := 128
@[simp] abbrev ICMP6_ECHO_REPLY : Nat := 129
@[simp] abbrev IPV6_ADDR_LEN : Nat := 16
@[simp] abbrev REPLY_TTL : Nat := 233

/-! ### Layout of `struct pkt` and of the headers it overlays -/

@[simp] abbrev pkt_ipv6_padding : Nat := 0
@[simp] abbrev pkt_ipv4_padding : Nat := 20
@[simp] abbrev pkt_icmp_padding : Nat := 40
@[simp] abbrev pkt_ipv4_hdr : Nat := 48
@[simp] abbrev pkt_icmp_hdr : Nat := 68
@[simp] abbrev pkt_ipv6_hdr : Nat := 48
@[simp] abbrev pkt_icmp6_hdr : Nat := 88

@[simp] abbrev iphdr_tos : Nat := 1
@[simp] abbrev iphdr_tot_len : Nat := 2
@[simp] abbrev iphdr_id : Nat := 4
@[simp] abbrev iphdr_frag_off : Nat := 6
@[simp] abbrev iphdr_ttl : Nat := 8
@[simp] abbrev iphdr_protocol : Nat := 9
@[simp] abbrev iphdr_check : Nat := 10
@[simp] abbrev iphdr_saddr : Nat := 12
@[simp] abbrev iphdr_daddr : Nat := 16

@[simp] abbrev ip6_flow : Nat := 0
@[simp] abbrev ip6_plen : Nat := 4
@[simp] abbrev ip6_nxt : Nat := 6
@[simp] abbrev ip6_hlim : Nat := 7
@[simp] abbrev ip6_src : Nat := 8
@[simp] abbrev ip6_dst : Nat := 24

@[simp] abbrev icmp_type : Nat := 0
@[simp] abbrev icmp_code : Nat := 1
@[simp] abbrev icmp_checksum : Nat := 2

/-- The bit-field `version` of `struct iphdr`: the high nibble of its first byte. -/
def rd_version (m : Mem) (h : Nat) : Nat := rd8 m h / 16

/-- The bit-field `ihl` of `struct iphdr`: the low nibble of its first byte. -/
def rd_ihl (m : Mem) (h : Nat) : Nat := rd8 m h % 16

def wr_version (m : Mem) (h v : Nat) : Mem := wr8 m h (rd8 m h % 16 + 16 * (v % 16))

def wr_ihl (m : Mem) (h v : Nat) : Mem := wr8 m h (rd8 m h / 16 * 16 + v % 16)

/-- One configured prefix block (`struct ip_blk`); `addr` holds the 16 bytes of the
union. -/
structure ip_blk where
  af : Nat
  prefix_len : Nat
  addr : Mem

def ip_blk.addr_v4 (b : ip_blk) : Nat := rd32 b.addr 0

def ip_blk.addr_v6 (b : ip_blk) (k : Nat) : Nat := rd32 b.addr (4 * k)

/-- The member `s6_addr32[k]` of the `struct in6_addr` at offset `a`. -/
def s6_addr32 (m : Mem) (a k : Nat) : Nat := rd32 m (a + 4 * k)

/-- The member `s6_addr16[k]` of the `struct in6_addr` at offset `a`. -/
def s6_addr16 (m : Mem) (a k : Nat) : Nat := rd16 m (a + 2 * k)

/-! ## Checksum primitives (lines 149-187) -/

def checksum_reduce (cksum : Nat) : Nat :=
  let cksum := (cksum / 65536 + cksum % 65536) % U32
  let cksum := (cksum / 65536 + cksum % 65536) % U32
  let cksum := sub32 0xffff cksum
  (if cksum = 0 then 0xffff else cksum) % 65536

/-- The loop `for (i = i0; i < i0 + k; i++) cksum += b[i];` over 16-bit words. -/
def checksum_loop (m : Mem) (b : Nat) : Nat → Nat → Nat → Nat
  | 0, _, cksum => cksum
  | k + 1, i, cksum => checksum_loop m b k (i + 1) ((cksum + rd16 m (b + 2 * i)) % U32)

def checksum_calc (m : Mem) (buf size : Nat) : Nat :=
  checksum_reduce (checksum_loop m buf (size / 2) 0 0)

/-- The loop over the eight words of both addresses of `checksum_calc_ipv6_phdr`. -/
def phdr_loop (m : Mem) (ip6 : Nat) : Nat → Nat → Nat → Nat
  | 0, _, cksum => cksum
  | k + 1, i, cksum =>
    phdr_loop m ip6 k (i + 1)
      ((((cksum + s6_addr16 m (ip6 + ip6_src) i) % U32)
        + s6_addr16 m (ip6 + ip6_dst) i) % U32)

def checksum_calc_ipv6_phdr (m : Mem) (ip6 buf size : Nat) : Nat :=
  let cksum := phdr_loop m ip6 8 0 0
  let cksum := (cksum + rd16 m (ip6 + ip6_plen)) % U32
  let cksum := (cksum + rd8 m (ip6 + ip6_nxt) * 256) % U32
  checksum_reduce (checksum_loop m buf (size / 2) 0 cksum)

def checksum_diff (m : Mem) (field diff : Nat) : Mem :=
  let cksum := sub32 (rd16 m field) diff
  let cksum := (cksum / 65536 + cksum % 65536) % U32
  wr16 m field (if cksum = 0 then 0xffff else cksum)

/-! ## Prefix table lookup (lines 190-256) -/

def find_matching_ipv4_block (wide : Nat → Nat → Nat) : List ip_blk → Mem → Nat
  | [], _ => 0
  | blk :: rest, m =>
    if blk.af ≠ AF_INET then find_matching_ipv4_block wide rest m
    else
      let masked_daddr :=
        ntohl (rd32 m (pkt_ipv4_hdr + iphdr_daddr))
          &&& shl32 wide 0xffffffff (sub32 32 blk.prefix_len)
      let masked_ipblk :=
        ntohl blk.addr_v4 &&& shl32 wide 0xffffffff (sub32 32 blk.prefix_len)
      if masked_daddr ≠ masked_ipblk then find_matching_ipv4_block wide rest m
      else blk.addr_v4

/-- The first test of the loop body of `find_matching_ipv6_block` (lines 211-219):
`true` when the body does not `continue`. -/
def ipv6_seg0_ok (wide : Nat → Nat → Nat) (blk : ip_blk) (m : Mem) : Bool :=
  if blk.prefix_len ≤ 32 then
    decide (ntohl (s6_addr32 m (pkt_ipv6_hdr + ip6_dst) 0)
        &&& shl32 wide 0xffffffff (sub32 32 blk.prefix_len)
      = ntohl (blk.addr_v6 0) &&& shl32 wide 0xffffffff (sub32 32 blk.prefix_len))
  else
    decide (s6_addr32 m (pkt_ipv6_hdr + ip6_dst) 0 = blk.addr_v6 0)

/-- The second test (lines 221-231). -/
def ipv6_seg1_ok (wide : Nat → Nat → Nat) (blk : ip_blk) (m : Mem) : Bool :=
  if blk.prefix_len > 32 then
    if blk.prefix_len ≤ 64 then
      decide (ntohl (s6_addr32 m (pkt_ipv6_hdr + ip6_dst) 1)
          &&& shl32 wide 0xffffffff (sub32 64 blk.prefix_len)
        = ntohl (blk.addr_v6 1) &&& shl32 wide 0xffffffff (sub32 64 blk.prefix_len))
    else
      decide (s6_addr32 m (pkt_ipv6_hdr + ip6_dst) 1 = blk.addr_v6 1)
  else true

/-- The third test (lines 233-249). -/
def ipv6_seg23_ok (wide : Nat → Nat → Nat) (blk : ip_blk) (m : Mem) : Bool :=
  if blk.prefix_len > 64 then
    if blk.prefix_len ≤ 96 then
      decide (ntohl (s6_addr32 m (pkt_ipv6_hdr + ip6_dst) 2)
          &&& shl32 wide 0xffffffff (sub32 96 blk.prefix_len)
        = ntohl (blk.addr_v6 2) &&& shl32 wide 0xffffffff (sub32 96 blk.prefix_len))
    else
      decide (ntohl (s6_addr32 m (pkt_ipv6_hdr + ip6_dst) 2) = ntohl (blk.addr_v6 2))
      && decide (ntohl (s6_addr32 m (pkt_ipv6_hdr + ip6_dst) 3)
          &&& shl32 wide 0xffffffff (sub32 128 blk.prefix_len)
        = ntohl (blk.addr_v6 3) &&& shl32 wide 0xffffffff (sub32 128 blk.prefix_len))
  else true

/-- Returns the 16 bytes copied to `*addr` when the C function returns `true`, and
`none` when it returns `false`. -/
def find_matching_ipv6_block (wide : Nat → Nat → Nat) : List ip_blk → Mem → Option Mem
  | [], _ => none
  | blk :: rest, m =>
    if blk.af ≠ AF_INET6 then find_matching_ipv6_block wide rest m
    else if !ipv6_seg0_ok wide blk m then find_matching_ipv6_block wide rest m
    else if !ipv6_seg1_ok wide blk m then find_matching_ipv6_block wide rest m
    else if !ipv6_seg23_ok wide blk m then find_matching_ipv6_block wide rest m
    else some (memcpy (fun _ => 0) 0 blk.addr 0 IPV6_ADDR_LEN)

/-- The tests of one turn of the loop of `find_matching_ipv4_block` (lines 192-196):
`true` when the turn reaches the `return` of line 198. -/
def ipv4_blk_matches (wide : Nat → Nat → Nat) (blk : ip_blk) (m : Mem) : Bool :=
  decide (blk.af = AF_INET)
    && decide (ntohl (rd32 m (pkt_ipv4_hdr + iphdr_daddr))
        &&& shl32 wide 0xffffffff (sub32 32 blk.prefix_len)
      = ntohl blk.addr_v4 &&& shl32 wide 0xffffffff (sub32 32 blk.prefix_len))

/-- The tests of one turn of the loop of `find_matching_ipv6_block` (lines 206-249):
`true` when the turn reaches the `memcpy` of line 252. -/
def ipv6_blk_matches (wide : Nat → Nat → Nat) (blk : ip_blk) (m : Mem) : Bool :=
  decide (blk.af = AF_INET6) && ipv6_seg0_ok wide blk m && ipv6_seg1_ok wide blk m
    && ipv6_seg23_ok wide blk m

/-! ## Reply synthesis (lines 258-399) -/

def reply_icmp_ping (m : Mem) (pkt_len : Nat) : Mem × Option (List Byte) :=
  /- swap src/dst address -/
  let tmp := rd32 m (pkt_ipv4_hdr + iphdr_daddr)
  let m := wr32 m (pkt_ipv4_hdr + iphdr_daddr) (rd32 m (pkt_ipv4_hdr + iphdr_saddr))
  let m := wr32 m (pkt_ipv4_hdr + iphdr_saddr) tmp
  /- set pkt ttl -/
  let m := checksum_diff m (pkt_ipv4_hdr + iphdr_check)
    (toU32 ((REPLY_TTL : Int) - (rd8 m (pkt_ipv4_hdr + iphdr_ttl) : Int)))
  let m := wr8 m (pkt_ipv4_hdr + iphdr_ttl) REPLY_TTL
  /- set pkt type -/
  let m := wr8 m (pkt_icmp_hdr + icmp_type) ICMP_ECHOREPLY
  /- update checksum -/
  let m := checksum_diff m (pkt_icmp_hdr + icmp_checksum)
    (toU32 ((ICMP_ECHOREPLY : Int) - (ICMP_ECHO : Int)))
  /- send pkt -/
  (m, some (bytesAt m pkt_ipv4_hdr pkt_len))

def reply_icmp_ttl_exceeded (m : Mem) (pkt_len : Nat) (base_addr : Nat) :
    Mem × Option (List Byte) :=
  /- populate icmp time exceed header -/
  let m := memset m pkt_ipv4_padding 0 28
  let m := wr_version m pkt_ipv4_padding 4
  let m := wr_ihl m pkt_ipv4_padding 5
  let m := wr16 m (pkt_ipv4_padding + iphdr_tot_len) (htons 56)
  let m := wr8 m (pkt_ipv4_padding + iphdr_ttl) REPLY_TTL
  let m := wr8 m (pkt_ipv4_padding + iphdr_protocol) IPPROTO_ICMP
  /- copy over source addr as dest addr -/
  let m := wr32 m (pkt_ipv4_padding + iphdr_daddr) (rd32 m (pkt_ipv4_hdr + iphdr_saddr))
  /- check if reached target, to end the traceroute -/
  let m :=
    if ntohl base_addr ≤ ntohl (rd32 m (pkt_ipv4_hdr + iphdr_daddr))
        ∧ (ntohl base_addr + rd8 m (pkt_ipv4_hdr + iphdr_ttl)) % U32
            ≥ ntohl (rd32 m (pkt_ipv4_hdr + iphdr_daddr)) then
      let m := wr32 m (pkt_ipv4_padding + iphdr_saddr) (rd32 m (pkt_ipv4_hdr + iphdr_daddr))
      let m := wr8 m (pkt_icmp_padding + icmp_type) ICMP_DEST_UNREACH
      wr8 m (pkt_icmp_padding + icmp_code) ICMP_PORT_UNREACH
    else
      let m := wr32 m (pkt_ipv4_padding + iphdr_saddr)
        (htonl ((ntohl base_addr + rd8 m (pkt_ipv4_hdr + iphdr_ttl)) % U32))
      let m := wr8 m (pkt_icmp_padding + icmp_type) ICMP_TIME_EXCEEDED
      wr8 m (pkt_icmp_padding + icmp_code) 0
  /- update checksum -/
  let m := wr16 m (pkt_ipv4_padding + iphdr_check) 0
  let m := wr16 m (pkt_ipv4_padding + iphdr_check) (checksum_calc m pkt_ipv4_padding 20)
  let m := wr16 m (pkt_icmp_padding + icmp_checksum) 0
  let m := wr16 m (pkt_icmp_padding + icmp_checksum) (checksum_calc m pkt_icmp_padding 36)
  /- send pkt -/
  let pkt_len := 56
  (m, some (bytesAt m pkt_ipv4_padding pkt_len))

def reply_icmp6_ping (m : Mem) (pkt_len : Nat) : Mem × Option (List Byte) :=
  /- swap src/dst address -/
  let tmp : Mem := memcpy (fun _ => 0) 0 m (pkt_ipv6_hdr + ip6_dst) IPV6_ADDR_LEN
  let m := memcpy m (pkt_ipv6_hdr + ip6_dst) m (pkt_ipv6_hdr + ip6_src) IPV6_ADDR_LEN
  let m := memcpy m (pkt_ipv6_hdr + ip6_src) tmp 0 IPV6_ADDR_LEN
  /- set pkt ttl -/
  let m := wr8 m (pkt_ipv6_hdr + ip6_hlim) REPLY_TTL
  /- set pkt type -/
  let m := wr8 m (pkt_icmp6_hdr + icmp_type) ICMP6_ECHO_REPLY
  /- update checksum -/
  let m := checksum_diff m (pkt_icmp6_hdr + icmp_checksum)
    (toU32 ((ICMP6_ECHO_REPLY : Int) - (ICMP6_ECHO_REQUEST : Int)))
  /- send pkt -/
  (m, some (bytesAt m pkt_ipv6_hdr pkt_len))

def reply_icmp6_ttl_exceeded (wide : Nat → Nat → Nat) (ip_blks : List ip_blk) (m : Mem)
    (pkt_len : Nat) : Mem × Option (List Byte) :=
  match find_matching_ipv6_block wide ip_blks m with
  | none => (m, none)
  | some base_addr =>
    /- populate icmp time exceed header -/
    let m := memset m pkt_ipv6_padding 0 48
    let m := wr32 m (pkt_ipv6_padding + ip6_flow) 0x60
    let m := wr16 m (pkt_ipv6_padding + ip6_plen) (htons 56)
    let m := wr8 m (pkt_ipv6_padding + ip6_nxt) IPPROTO_ICMPV6
    let m := wr8 m (pkt_ipv6_padding + ip6_hlim) REPLY_TTL
    /- copy over source addr as dest addr -/
    let m := memcpy m (pkt_ipv6_padding + ip6_dst) m (pkt_ipv6_hdr + ip6_src) IPV6_ADDR_LEN
    /- check if reached target, to end the traceroute -/
    let m :=
      if ntohl (s6_addr32 base_addr 0 3) ≤ ntohl (s6_addr32 m (pkt_ipv6_hdr + ip6_dst) 3)
          ∧ (ntohl (s6_addr32 base_addr 0 3) + rd8 m (pkt_ipv6_hdr + ip6_hlim)) % U32
              ≥ ntohl (s6_addr32 m (pkt_ipv6_hdr + ip6_dst) 3) then
        let m := memcpy m (pkt_ipv6_padding + ip6_src) m (pkt_ipv6_hdr + ip6_dst)
          IPV6_ADDR_LEN
        let m := wr8 m (pkt_icmp_padding + icmp_type) ICMP6_DST_UNREACH
        wr8 m (pkt_icmp_padding + icmp_code) ICMP6_DST_UNREACH_NOPORT
      else
        let m := memcpy m (pkt_ipv6_padding + ip6_src) base_addr 0 IPV6_ADDR_LEN
        let m := wr32 m (pkt_ipv6_padding + ip6_src + 12)
          (htonl ((ntohl (s6_addr32 m (pkt_ipv6_padding + ip6_src) 3)
            + rd8 m (pkt_ipv6_hdr + ip6_hlim)) % U32))
        let m := wr8 m (pkt_icmp_padding + icmp_type) ICMP6_TIME_EXCEEDED
        wr8 m (pkt_icmp_padding + icmp_code) 0
    /- update checksum -/
    let m := wr16 m (pkt_icmp_padding + icmp_checksum) 0
    let m := wr16 m (pkt_icmp_padding + icmp_checksum)
      (checksum_calc_ipv6_phdr m pkt_ipv6_padding pkt_icmp_padding 56)
    /- send pkt -/
    let pkt_len := 96
    (m, some (bytesAt m pkt_ipv6_padding pkt_len))

def handle_pkt (wide : Nat → Nat → Nat) (ip_blks : List ip_blk) (m : Mem) (pkt_len : Nat) :
    Mem × Option (List Byte) :=
  if rd_version m pkt_ipv4_hdr = 4 ∧ rd_ihl m pkt_ipv4_hdr = 5 then
    /- Only packets without IP options is supported -/
    if rd8 m (pkt_ipv4_hdr + iphdr_protocol) = IPPROTO_ICMP
        ∧ rd8 m (pkt_icmp_hdr + icmp_type) = ICMP_ECHO then
      reply_icmp_ping m pkt_len
    else if rd8 m (pkt_ipv4_hdr + iphdr_protocol) = IPPROTO_TCP then
      (m, none)
    else
      let saddr := find_matching_ipv4_block wide ip_blks m
      if 0 = saddr then
        /- No matching address found -/
        (m, none)
      else
        reply_icmp_ttl_exceeded m pkt_len saddr
  else if (rd32 m (pkt_ipv6_hdr + ip6_flow) &&& 0xf0) >>> 4 = 6 then
    /- Only packets without IP options is supported -/
    if rd8 m (pkt_ipv6_hdr + ip6_nxt) = IPPROTO_ICMPV6
        ∧ rd8 m (pkt_icmp6_hdr + icmp_type) = ICMP6_ECHO_REQUEST then
      reply_icmp6_ping m pkt_len
    else if rd8 m (pkt_ipv6_hdr + ip6_nxt) = IPPROTO_TCP then
      (m, none)
    else
      reply_icmp6_ttl_exceeded wide ip_blks m pkt_len
  else (m, none)

/-- The buffer after the call `read(fd, &pkt->ipv4_hdr, ...)` of the worker loop
(line 409) stored the received packet `p` at the offset of `ipv4_hdr`. -/
def recv (old : Mem) (p : List Byte) : Mem :=
  fun i => if pkt_ipv4_hdr ≤ i ∧ i < pkt_ipv4_hdr + p.length then p.getD (i - pkt_ipv4_hdr) 0
    else old i

/-- One turn of the `while` of `loop` after `poll` returned (lines 409-412): `r` is the
value `read` returned and `m` the buffer as `read` left it. The result is assigned to
the `uint32_t pkt_len`; `none` stands for `DIE()`. -/
def loop_body (wide : Nat → Nat → Nat) (ip_blks : List ip_blk) (m : Mem) (r : Int) :
    Option (Mem × Option (List Byte)) :=
  let pkt_len := toU32 r
  if pkt_len ≤ 0 then none
  else some (handle_pkt wide ip_blks m pkt_len)

/-! ## Concrete inputs

Packets and blocks of the scenarios of the specification, used to evaluate the
model. -/

/-- A platform on which an over-wide shift yields zero. -/
def wideZero : Nat → Nat → Nat := fun _ _ => 0

/-- The block `10.0.0.0/8`. -/
def blk_10 : ip_blk := ⟨AF_INET, 8, memOf [10, 0, 0, 0]⟩

/-- The block `10.0.0.5/8`: its base has bits below the prefix. -/
def blk_10_5 : ip_blk := ⟨AF_INET, 8, memOf [10, 0, 0, 5]⟩

/-- The block `2001:db8::/32`. -/
def blk_db8 : ip_blk :=
  ⟨AF_INET6, 32, memOf [0x20, 0x01, 0x0d, 0xb8, 0, 0, 0, 0, 0, 0, 0, 0, 0, 0, 0, 0]⟩

/-- The 16 bytes `find_matching_ipv6_block` copies out for `blk_db8`. -/
def base_db8 : Mem := memcpy (fun _ => 0) 0 blk_db8.addr 0 IPV6_ADDR_LEN

/-- UDP probe from `192.0.2.1` to `10.0.0.20` with TTL 3. -/
def udp_hop3 : List Byte :=
  [69, 0, 0, 28, 0, 0, 0, 0, 3, 17, 235, 188, 192, 0, 2, 1, 10, 0, 0, 20,
    128, 0, 130, 155, 0, 8, 0, 0]

/-- UDP probe from `192.0.2.1` to `10.0.0.3` with TTL 1. -/
def udp_low : List Byte :=
  [69, 0, 0, 28, 0, 0, 0, 0, 1, 17, 237, 205, 192, 0, 2, 1, 10, 0, 0, 3,
    128, 0, 130, 155, 0, 8, 0, 0]

/-- ICMP echo request from `192.0.2.1` to `10.1.2.3`, TTL 64, id 1, sequence 1, payload
`abcd`, both checksums valid. -/
def echo4 : List Byte :=
  [69, 0, 0, 32, 0, 0, 0, 0, 64, 1, 172, 216, 192, 0, 2, 1, 10, 1, 2, 3,
    8, 0, 51, 55, 0, 1, 0, 1, 97, 98, 99, 100]

/-- ICMPv6 echo request from `2001:db8:1::1` to `2001:db8::5`, hop limit 64, checksum
valid. -/
def echo6 : List Byte :=
  [96, 0, 0, 0, 0, 12, 58, 64,
    32, 1, 13, 184, 0, 1, 0, 0, 0, 0, 0, 0, 0, 0, 0, 1,
    32, 1, 13, 184, 0, 0, 0, 0, 0, 0, 0, 0, 0, 0, 0, 5,
    128, 0, 95, 119, 0, 1, 0, 1, 97, 98, 99, 100]

/-- UDP probe from `2001:db8:1::1` to `2001:db8::100` with hop limit 2. -/
def udp6_hop2 : List Byte :=
  [96, 0, 0, 0, 0, 8, 17, 2,
    32, 1, 13, 184, 0, 1, 0, 0, 0, 0, 0, 0, 0, 0, 0, 1,
    32, 1, 13, 184, 0, 0, 0, 0, 0, 0, 0, 0, 0, 0, 1, 0,
    128, 0, 130, 155, 0, 8, 0, 0]

/-- A buffer of zero bytes. -/
def zeroMem : Mem := fun _ => 0

/-- A four-byte region: the word 1 followed by its checksum `0xFFFE`. -/
def two_words : Mem := memOf [1, 0, 0xfe, 0xff]

/-- A platform whose shift instruction takes the count modulo 32, as the 32-bit `shl`
of x86 does. -/
def wideX86 : Nat → Nat → Nat := fun x n => x <<< (n % 32)

/-- The block `0.0.0.0/8`. -/
def blk_zero8 : ip_blk := ⟨AF_INET, 8, memOf [0, 0, 0, 0]⟩

/-- UDP probe from `192.0.2.1` to `0.0.0.5` with TTL 3. -/
def udp_zero : List Byte :=
  [69, 0, 0, 28, 0, 0, 0, 0, 3, 17, 245, 203, 192, 0, 2, 1, 0, 0, 0, 5,
    128, 0, 130, 155, 0, 8, 0, 0]

/-- The block `10.0.0.0/0`. -/
def blk_10_any : ip_blk := ⟨AF_INET, 0, memOf [10, 0, 0, 0]⟩

/-- The block `2001:db9::/0`. -/
def blk_db9_any : ip_blk :=
  ⟨AF_INET6, 0, memOf [0x20, 0x01, 0x0d, 0xb9, 0, 0, 0, 0, 0, 0, 0, 0, 0, 0, 0, 0]⟩

/-- UDP probe from `2001:db8:1::1` to `2001:db8::100` with hop limit 2, carried behind a
hop-by-hop options header (next header 0). -/
def hbh6 : List Byte :=
  [96, 0, 0, 0, 0, 16, 0, 2,
    32, 1, 13, 184, 0, 1, 0, 0, 0, 0, 0, 0, 0, 0, 0, 1,
    32, 1, 13, 184, 0, 0, 0, 0, 0, 0, 0, 0, 0, 0, 1, 0,
    17, 0, 1, 4, 0, 0, 0, 0,
    128, 0, 130, 155, 0, 8, 0, 0]

/-- The block `10.0.0.250/24`. -/
def blk_10_250 : ip_blk := ⟨AF_INET, 24, memOf [10, 0, 0, 250]⟩

/-- UDP probe from `192.0.2.1` to `10.0.0.5` with TTL 10. -/
def udp_below : List Byte :=
  [69, 0, 0, 28, 0, 0, 0, 0, 10, 17, 228, 203, 192, 0, 2, 1, 10, 0, 0, 5,
    128, 0, 130, 155, 0, 8, 0, 0]

/-- The block `255.255.255.250/24`. -/
def blk_top : ip_blk := ⟨AF_INET, 24, memOf [255, 255, 255, 250]⟩

/-- UDP probe from `192.0.2.1` to `255.255.255.255` with TTL 10. -/
def udp_top : List Byte :=
  [69, 0, 0, 28, 0, 0, 0, 0, 10, 17, 238, 208, 192, 0, 2, 1, 255, 255, 255, 255,
    128, 0, 130, 155, 0, 8, 0, 0]

/-- A bare IPv4 header of 20 bytes: protocol UDP, from `192.0.2.1` to `10.0.0.20`,
TTL 3, no payload. -/
def hdr_only : List Byte :=
  [69, 0, 0, 20, 0, 0, 0, 0, 3, 17, 235, 196, 192, 0, 2, 1, 10, 0, 0, 20]

/-- A packet of one byte: version 4, IHL 5. -/
def one_byte : List Byte := [69]

/-- A buffer in which an earlier packet, the echo request `echo4`, was received. -/
def staleMem : Mem := recv zeroMem echo4

/-! ## Reference notions used to state the properties -/

/-- The sum of the 16-bit words of a byte string, each word read in host
(little-endian) order; a trailing odd byte counts as a word padded with zero. -/
def ocSum : List Byte → Nat
  | [] => 0
  | [a] => a.val
  | a :: b :: rest => a.val + 256 * b.val + ocSum rest

/-- Folding with fuel: add the high part into the low 16 bits until none is left. -/
def ocFoldFuel : Nat → Nat → Nat
  | 0, s => s
  | fuel + 1, s => if s < 65536 then s else ocFoldFuel fuel (s / 65536 + s % 65536)

/-- The one-complement fold of a sum of 16-bit words (every step with a high part
lowers the sum, so fuel equal to the sum is enough). -/
def ocFold (s : Nat) : Nat := ocFoldFuel s s

/-- A byte string carries a valid Internet checksum: its words fold to `0xFFFF`. -/
def ocValid (l : List Byte) : Prop := ocFold (ocSum l) = 0xffff

instance (l : List Byte) : Decidable (ocValid l) := by
  unfold ocValid; infer_instance

/-- The IPv6 pseudo-header of an upper-layer message: source, destination, 32-bit
upper-layer length, three zero bytes, next header. -/
def pseudoHeader (src dst : List Byte) (len nxt : Nat) : List Byte :=
  src ++ dst
    ++ [toByte (len / 16777216), toByte (len / 65536), toByte (len / 256), toByte len]
    ++ [0, 0, 0, toByte nxt]

/-- The number a byte string stands for when read most significant byte first. -/
def beNat (l : List Byte) : Nat := l.foldl (fun acc b => acc * 256 + b.val) 0

/-- The 128-bit number of the IPv6 address stored at `a`, in network order. -/
def addr128 (m : Mem) (a : Nat) : Nat := beNat (bytesAt m a 16)

/-- The leading `p` bits of a number of `w` bits. -/
def leadingBits (w p x : Nat) : Nat := x / 2 ^ (w - p)

/-- Two buffers hold the same bytes at the addresses `lo ≤ i < hi`. -/
def agreeOn (lo hi : Nat) (m1 m2 : Mem) : Prop := ∀ i, lo ≤ i → i < hi → m1 i = m2 i

/-! ## Basic facts about the machine model -/

theorem rd8_lt (m : Mem) (a : Nat) : rd8 m a < 256 := (m a).isLt
theorem rd16_lt (m : Mem) (a : Nat) : rd16 m a < 65536 := by
  have h1 := rd8_lt m a; have h2 := rd8_lt m (a + 1); unfold rd16; omega
theorem rd32_lt (m : Mem) (a : Nat) : rd32 m a < U32 := by
  have h1 := rd16_lt m a; have h2 := rd16_lt m (a + 2); unfold rd32 U32; omega

theorem toByte_val (v : Nat) : (toByte v).val = v % 256 := rfl

theorem bswap32_lt (x : Nat) : bswap32 x < U32 := by unfold bswap32 U32; omega

theorem bswap32_bytes (a b c d : Nat) (ha : a < 256) (hb : b < 256) (hc : c < 256)
    (hd : d < 256) :
    bswap32 (a + 256 * b + 65536 * c + 16777216 * d)
      = d + 256 * c + 65536 * b + 16777216 * a := by
  unfold bswap32; omega

theorem bswap32_bswap32 (x : Nat) (h : x < U32) : bswap32 (bswap32 x) = x := by
  have hx : x = x % 256 + 256 * (x / 256 % 256) + 65536 * (x / 65536 % 256)
      + 16777216 * (x / 16777216) := by omega
  have h3 : x / 16777216 < 256 := by unfold U32 at h; omega
  rw [hx, bswap32_bytes _ _ _ _ (by omega) (by omega) (by omega) h3,
    bswap32_bytes _ _ _ _ h3 (by omega) (by omega) (by omega)]

/-! ### Folding -/

theorem ocFoldFuel_mod (fuel s : Nat) : ocFoldFuel fuel s % 65535 = s % 65535 := by
  induction fuel generalizing s with
  | zero => rfl
  | succ k ih =>
    unfold ocFoldFuel
    split
    · rfl
    · rw [ih]; omega

theorem ocFoldFuel_pos (fuel s : Nat) (h : 0 < s) : 0 < ocFoldFuel fuel s := by
  induction fuel generalizing s with
  | zero => exact h
  | succ k ih =>
    unfold ocFoldFuel
    split
    · exact h
    · apply ih; omega

theorem ocFoldFuel_lt (fuel s : Nat) (h : s ≤ fuel) : ocFoldFuel fuel s < 65536 := by
  induction fuel generalizing s with
  | zero => unfold ocFoldFuel; omega
  | succ k ih =>
    unfold ocFoldFuel
    split
    · assumption
    · apply ih; omega

theorem ocFold_eq_iff (s : Nat) : ocFold s = 0xffff ↔ 0 < s ∧ s % 65535 = 0 := by
  unfold ocFold
  constructor
  · intro h
    have h1 := ocFoldFuel_mod s s
    rw [h] at h1
    refine ⟨?_, by omega⟩
    rcases Nat.eq_zero_or_pos s with h0 | h0
    · subst h0; simp [ocFoldFuel] at h
    · exact h0
  · rintro ⟨h0, h1⟩
    have h2 := ocFoldFuel_mod s s
    have h3 := ocFoldFuel_pos s s h0
    have h4 := ocFoldFuel_lt s s (le_refl _)
    omega

/-! ### The reduction of the code -/

theorem checksum_reduce_eq (s : Nat) (h : s < U32) :
    ∃ f, f ≤ 65535 ∧ f % 65535 = s % 65535 ∧ (0 < s → 0 < f)
      ∧ checksum_reduce s = if f = 65535 then 65535 else 65535 - f := by
  unfold U32 at h
  have e1 : (s / 65536 + s % 65536) % 4294967296 = s / 65536 + s % 65536 :=
    Nat.mod_eq_of_lt (by omega)
  have c1 : (s / 65536 + s % 65536) % 65535 = s % 65535 := by omega
  have p1 : 0 < s → 0 < s / 65536 + s % 65536 := by omega
  have b1 : s / 65536 + s % 65536 < 131071 := by omega
  unfold checksum_reduce sub32 U32
  simp only [e1]
  generalize s / 65536 + s % 65536 = f1 at *
  have e2 : (f1 / 65536 + f1 % 65536) % 4294967296 = f1 / 65536 + f1 % 65536 :=
    Nat.mod_eq_of_lt (by omega)
  have c2 : (f1 / 65536 + f1 % 65536) % 65535 = f1 % 65535 := by omega
  have p2 : 0 < f1 → 0 < f1 / 65536 + f1 % 65536 := by omega
  have b2 : f1 / 65536 + f1 % 65536 ≤ 65535 := by omega
  simp only [e2]
  generalize f1 / 65536 + f1 % 65536 = f2 at *
  refine ⟨f2, b2, by omega, fun h0 => p2 (p1 h0), ?_⟩
  have e3 : (65535 + 4294967296 - f2) % 4294967296 = 65535 - f2 := by omega
  simp only [e3]
  split_ifs <;> omega

theorem checksum_reduce_spec (s : Nat) (h : s < U32) :
    1 ≤ checksum_reduce s ∧ checksum_reduce s ≤ 65535
      ∧ (s + checksum_reduce s) % 65535 = 0 := by
  obtain ⟨f, hf, hm, -, he⟩ := checksum_reduce_eq s h
  rw [he]
  split_ifs <;> omega

theorem checksum_reduce_valid (t : Nat) (h : t < U32) (h0 : 0 < t) (h1 : t % 65535 = 0) :
    checksum_reduce t = 0xffff := by
  obtain ⟨f, hf, hm, hp, he⟩ := checksum_reduce_eq t h
  have := hp h0
  rw [he]
  split_ifs <;> omega


/-! ### Byte strings of the buffer -/

theorem wr8_apply (m : Mem) (a v i : Nat) :
    wr8 m a v i = if i = a then toByte v else m i := rfl

theorem wr16_apply (m : Mem) (a v i : Nat) :
    wr16 m a v i
      = if i = a + 1 then toByte (v / 256) else if i = a then toByte v else m i := rfl

theorem wr32_apply (m : Mem) (a v i : Nat) :
    wr32 m a v i = if i = a + 2 + 1 then toByte (v / 65536 / 256)
      else if i = a + 2 then toByte (v / 65536)
      else if i = a + 1 then toByte (v / 256) else if i = a then toByte v else m i := rfl

theorem memset_apply (m : Mem) (a c n i : Nat) :
    memset m a c n i = if a ≤ i ∧ i < a + n then toByte c else m i := rfl

theorem memcpy_apply (m : Mem) (dst : Nat) (src : Mem) (s n i : Nat) :
    memcpy m dst src s n i = if dst ≤ i ∧ i < dst + n then src (s + (i - dst)) else m i :=
  rfl

theorem length_bytesAt (m : Mem) (n a : Nat) : (bytesAt m a n).length = n := by
  induction n generalizing a with
  | zero => rfl
  | succ n ih => simp [bytesAt, ih]

theorem getD_bytesAt (m : Mem) (n a i : Nat) (h : i < n) :
    (bytesAt m a n).getD i 0 = m (a + i) := by
  induction n generalizing a i with
  | zero => omega
  | succ n ih =>
    cases i with
    | zero => simp [bytesAt]
    | succ i =>
      simp only [bytesAt, List.getD_cons_succ]
      rw [ih (a + 1) i (by omega)]
      congr 1; omega

theorem memOf_bytesAt (m : Mem) (n a i : Nat) (h : i < n) :
    memOf (bytesAt m a n) i = m (a + i) := getD_bytesAt m n a i h

theorem bytesAt_congr (m m2 : Mem) (n a : Nat)
    (h : ∀ i, a ≤ i → i < a + n → m i = m2 i) : bytesAt m a n = bytesAt m2 a n := by
  induction n generalizing a with
  | zero => rfl
  | succ n ih =>
    simp only [bytesAt]
    rw [h a (le_refl _) (by omega), ih (a + 1) (fun i h1 h2 => h i (by omega) (by omega))]

theorem bytesAt_add (m : Mem) (j k a : Nat) :
    bytesAt m a (j + k) = bytesAt m a j ++ bytesAt m (a + j) k := by
  induction j generalizing a with
  | zero => simp [bytesAt]
  | succ j ih =>
    have e : j + 1 + k = (j + k) + 1 := by omega
    rw [e]
    simp only [bytesAt, List.cons_append]
    rw [ih (a + 1)]
    have e2 : a + 1 + j = a + (j + 1) := by omega
    rw [e2]

theorem take_bytesAt (m : Mem) (j k a : Nat) :
    (bytesAt m a (j + k)).take j = bytesAt m a j := by
  rw [bytesAt_add, List.take_left' (length_bytesAt m j a)]

theorem drop_bytesAt (m : Mem) (j k a : Nat) :
    (bytesAt m a (j + k)).drop j = bytesAt m (a + j) k := by
  rw [bytesAt_add, List.drop_left' (length_bytesAt m j a)]

/-! ### Word sums -/

theorem ocSum_bytesAt_two (m : Mem) (n a : Nat) :
    ocSum (bytesAt m a (n + 2)) = rd16 m a + ocSum (bytesAt m (a + 2) n) := by
  simp only [bytesAt, ocSum, rd16, rd8]

theorem ocSum_bytesAt_le (m : Mem) (k a : Nat) : ocSum (bytesAt m a (2 * k)) ≤ 65535 * k := by
  induction k generalizing a with
  | zero => simp [bytesAt, ocSum]
  | succ k ih =>
    have e : 2 * (k + 1) = 2 * k + 2 := by omega
    rw [e, ocSum_bytesAt_two]
    have h1 := ih (a + 2)
    have h2 := rd16_lt m a
    omega

theorem ocSum_append_even (l1 l2 : List Byte) (k : Nat) (h : l1.length = 2 * k) :
    ocSum (l1 ++ l2) = ocSum l1 + ocSum l2 := by
  induction k generalizing l1 with
  | zero =>
    have : l1 = [] := List.length_eq_zero.mp (by omega)
    subst this; simp [ocSum]
  | succ k ih =>
    match l1, h with
    | a :: b :: r, h =>
      have h2 := ih r (by simp at h; omega)
      show a.val + 256 * b.val + ocSum (r ++ l2) = a.val + 256 * b.val + ocSum r + ocSum l2
      omega

theorem checksum_loop_eq (m : Mem) (b k i c : Nat) (hc : c < U32) :
    checksum_loop m b k i c = (c + ocSum (bytesAt m (b + 2 * i) (2 * k))) % U32 := by
  induction k generalizing i c with
  | zero => simp [checksum_loop, bytesAt, ocSum, Nat.mod_eq_of_lt hc]
  | succ k ih =>
    have e : 2 * (k + 1) = 2 * k + 2 := by omega
    have e2 : b + 2 * i + 2 = b + 2 * (i + 1) := by omega
    rw [e, ocSum_bytesAt_two, e2]
    simp only [checksum_loop]
    rw [ih (i + 1) _ (Nat.mod_lt _ (by decide))]
    generalize ocSum (bytesAt m (b + 2 * (i + 1)) (2 * k)) = S
    generalize rd16 m (b + 2 * i) = w
    unfold U32
    omega

/-- Storing a word inside a summed region changes the sum by the difference of the
words. -/
theorem ocSum_wr16 (m : Mem) (j n a v : Nat) (h : a + 2 * j + 2 ≤ a + n) :
    ocSum (bytesAt (wr16 m (a + 2 * j) v) a n) + rd16 m (a + 2 * j)
      = ocSum (bytesAt m a n) + v % 65536 := by
  induction j generalizing a n with
  | zero =>
    obtain ⟨n, rfl⟩ : ∃ k, n = k + 2 := ⟨n - 2, by omega⟩
    rw [ocSum_bytesAt_two, ocSum_bytesAt_two]
    have hc : bytesAt (wr16 m (a + 2 * 0) v) (a + 2) n = bytesAt m (a + 2) n :=
      bytesAt_congr _ _ _ _ (fun i h1 _ => by
        simp only [wr16_apply]
        rw [if_neg (by omega), if_neg (by omega)])
    rw [hc]
    have hv : rd16 (wr16 m (a + 2 * 0) v) a = v % 65536 := by
      simp [rd16, rd8, wr16_apply, toByte_val]
      omega
    rw [hv]
    simp only [Nat.mul_zero, Nat.add_zero]
    omega
  | succ j ih =>
    obtain ⟨n, rfl⟩ : ∃ k, n = k + 2 := ⟨n - 2, by omega⟩
    rw [ocSum_bytesAt_two, ocSum_bytesAt_two]
    have e : a + 2 * (j + 1) = (a + 2) + 2 * j := by omega
    rw [e]
    have h1 := ih n (a + 2) (by omega)
    have hv : rd16 (wr16 m (a + 2 + 2 * j) v) a = rd16 m a := by
      simp only [rd16, rd8, wr16_apply]
      rw [if_neg (by omega), if_neg (by omega), if_neg (by omega), if_neg (by omega)]
    rw [hv]
    omega


/-! ### Checksums stored and updated -/

theorem rd16_wr16_same (m : Mem) (a v : Nat) : rd16 (wr16 m a v) a = v % 65536 := by
  simp [rd16, rd8, wr16_apply, toByte_val]
  omega

theorem rd16_wr16_disj (m : Mem) (a b v : Nat) (h : a + 2 ≤ b ∨ b + 2 ≤ a) :
    rd16 (wr16 m b v) a = rd16 m a := by
  simp only [rd16, rd8, wr16_apply]
  rw [if_neg (by omega), if_neg (by omega), if_neg (by omega), if_neg (by omega)]

theorem wr16_comm (m : Mem) (a b v w : Nat) (h : a + 2 ≤ b ∨ b + 2 ≤ a) :
    wr16 (wr16 m a v) b w = wr16 (wr16 m b w) a v := by
  funext i
  simp only [wr16_apply]
  split_ifs <;> first | rfl | omega

theorem checksum_calc_eq (m : Mem) (a k : Nat) (hk : k ≤ 65536) :
    checksum_calc m a (2 * k) = checksum_reduce (ocSum (bytesAt m a (2 * k))) := by
  unfold checksum_calc
  have e : 2 * k / 2 = k := by omega
  rw [e, checksum_loop_eq m a k 0 0 (by decide)]
  have h := ocSum_bytesAt_le m k a
  simp only [Nat.mul_zero, Nat.add_zero, Nat.zero_add]
  rw [Nat.mod_eq_of_lt (by unfold U32; omega)]

theorem ocSum_bytesAt_lt (m : Mem) (a k : Nat) (hk : k ≤ 65536) :
    ocSum (bytesAt m a (2 * k)) < U32 := by
  have h := ocSum_bytesAt_le m k a
  unfold U32; omega

/-- Storing the computed checksum into the zeroed field `j` of the region of `k` words
at `a` makes the words of the region sum to a positive multiple of `0xFFFF`. -/
theorem checksum_store (m : Mem) (a j k : Nat) (hj : j < k) (hk : k ≤ 65536)
    (h0 : rd16 m (a + 2 * j) = 0) :
    1 ≤ checksum_calc m a (2 * k) ∧ checksum_calc m a (2 * k) ≤ 65535
      ∧ ocSum (bytesAt (wr16 m (a + 2 * j) (checksum_calc m a (2 * k))) a (2 * k))
          = ocSum (bytesAt m a (2 * k)) + checksum_calc m a (2 * k)
      ∧ (ocSum (bytesAt m a (2 * k)) + checksum_calc m a (2 * k)) % 65535 = 0 := by
  rw [checksum_calc_eq m a k hk]
  obtain ⟨h1, h2, h3⟩ := checksum_reduce_spec _ (ocSum_bytesAt_lt m a k hk)
  refine ⟨h1, h2, ?_, h3⟩
  have h4 := ocSum_wr16 m j (2 * k) a (checksum_reduce (ocSum (bytesAt m a (2 * k))))
    (by omega)
  rw [h0] at h4
  omega

/-- The value `checksum_diff` leaves in the field, for a field value `c` and a signed
delta `d` (passed as `uint32_t`): a nonzero 16-bit value congruent to `c - d`. -/
theorem checksum_diff_val (m : Mem) (f : Nat) (d : Int) (hd1 : -65535 ≤ d) (hd2 : d ≤ 65535)
    (hc : 1 ≤ rd16 m f ∨ d ≤ 65534) :
    1 ≤ rd16 (checksum_diff m f (toU32 d)) f ∧ rd16 (checksum_diff m f (toU32 d)) f ≤ 65535
      ∧ ((rd16 (checksum_diff m f (toU32 d)) f : Int) + d - (rd16 m f : Int)) % 65535 = 0 := by
  have hb := rd16_lt m f
  unfold checksum_diff
  simp only [rd16_wr16_same]
  generalize rd16 m f = c at *
  unfold sub32 toU32 U32
  rcases Int.lt_or_le d 0 with hneg | hpos
  · obtain ⟨n, rfl⟩ : ∃ n : Nat, d = -(n : Int) := ⟨(-d).toNat, by omega⟩
    have e1 : (-(n : Int) % 4294967296).toNat % 4294967296 = 4294967296 - n := by omega
    have e2 : (c + 4294967296 - (4294967296 - n)) % 4294967296 = c + n := by omega
    have e3 : ((c + n) / 65536 + (c + n) % 65536) % 4294967296
        = (c + n) / 65536 + (c + n) % 65536 := by omega
    simp only [e1, e2, e3]
    clear e1 e2 e3
    have hx : c + n ≤ 131070 := by omega
    have hx1 : 1 ≤ c + n := by omega
    have hd : -(n : Int) = (c : Int) - ((c + n : Nat) : Int) := by omega
    rw [hd]
    generalize c + n = x at *
    rcases Nat.lt_or_ge x 65536 with hs | hs
    · have q : x / 65536 + x % 65536 = x := by omega
      simp only [q]
      split_ifs <;> omega
    · have q : x / 65536 + x % 65536 = x - 65535 := by omega
      simp only [q]
      split_ifs <;> omega
  · obtain ⟨n, rfl⟩ : ∃ n : Nat, d = (n : Int) := ⟨d.toNat, by omega⟩
    have e1 : ((n : Int) % 4294967296).toNat % 4294967296 = n := by omega
    simp only [e1]
    clear e1
    rcases Nat.lt_or_ge c n with hlt | hge
    · obtain ⟨k, rfl⟩ : ∃ k, n = c + k := ⟨n - c, by omega⟩
      have e2 : (c + 4294967296 - (c + k)) % 4294967296 = 4294967296 - k := by omega
      have e3 : ((4294967296 - k) / 65536 + (4294967296 - k) % 65536) % 4294967296
          = 131071 - k := by omega
      simp only [e2, e3]
      clear e2 e3
      split_ifs <;> omega
    · obtain ⟨k, rfl⟩ : ∃ k, c = n + k := ⟨c - n, by omega⟩
      have e2 : (n + k + 4294967296 - n) % 4294967296 = k := by omega
      have e3 : (k / 65536 + k % 65536) % 4294967296 = k := by omega
      simp only [e2, e3]
      clear e2 e3
      split_ifs <;> omega



/-! ### The IPv4 echo reply -/

theorem checksum_diff_apply (m : Mem) (f d i : Nat) (h1 : i ≠ f) (h2 : i ≠ f + 1) :
    checksum_diff m f d i = m i := by
  unfold checksum_diff
  simp only [wr16_apply]
  rw [if_neg h2, if_neg h1]

/-- Storing a loaded 32-bit word copies four bytes. -/
theorem wr32_rd32_apply (m m2 : Mem) (a b i : Nat) :
    wr32 m a (rd32 m2 b) i = if a ≤ i ∧ i < a + 4 then m2 (b + (i - a)) else m i := by
  have h0 := (m2 b).isLt
  have h1 := (m2 (b + 1)).isLt
  have h2 := (m2 (b + 2)).isLt
  have h3 := (m2 (b + 2 + 1)).isLt
  simp only [wr32_apply, rd32, rd16, rd8]
  split_ifs with c1 c2 c3 c4 c5 c6 c7 c8 <;> first
    | omega
    | rfl
    | (apply Fin.ext
       simp only [toByte_val]
       first
        | (have e : b + (i - a) = b + 2 + 1 := by omega
           rw [e]; omega)
        | (have e : b + (i - a) = b + 2 := by omega
           rw [e]; omega)
        | (have e : b + (i - a) = b + 1 := by omega
           rw [e]; omega)
        | (have e : b + (i - a) = b := by omega
           rw [e]; omega))

theorem reply_icmp_ping_written (m : Mem) (n : Nat) :
    (reply_icmp_ping m n).2 = some (bytesAt (reply_icmp_ping m n).1 pkt_ipv4_hdr n) := rfl

/-- What `reply_icmp_ping` leaves in the buffer, outside the two checksum fields. -/
theorem reply_icmp_ping_mem (m : Mem) (n i : Nat)
    (h1 : i ≠ 58) (h2 : i ≠ 59) (h3 : i ≠ 70) (h4 : i ≠ 71) :
    (reply_icmp_ping m n).1 i =
      if 60 ≤ i ∧ i < 64 then m (i + 4)
      else if 64 ≤ i ∧ i < 68 then m (i - 4)
      else if i = 56 then toByte 233
      else if i = 68 then toByte 0
      else m i := by
  show checksum_diff (wr8 (wr8 (checksum_diff
    (wr32 (wr32 m 64 (rd32 m 60)) 60 (rd32 m 64)) 58 _) 56 233) 68 0) 70 _ i = _
  rw [checksum_diff_apply _ _ _ _ h3 h4, wr8_apply, wr8_apply,
    checksum_diff_apply _ _ _ _ h1 h2, wr32_rd32_apply, wr32_rd32_apply]
  split_ifs <;> first
    | omega
    | rfl
    | exact congrArg _ (by omega)


theorem rd16_congr (m m2 : Mem) (a : Nat) (h0 : m a = m2 a) (h1 : m (a + 1) = m2 (a + 1)) :
    rd16 m a = rd16 m2 a := by
  simp only [rd16, rd8, h0, h1]

/-- The IPv4 header checksum field after `reply_icmp_ping`: a nonzero 16-bit value
congruent to the old one minus the change of the TTL word. -/
theorem reply_icmp_ping_check (m : Mem) (n : Nat) :
    1 ≤ rd16 (reply_icmp_ping m n).1 58 ∧ rd16 (reply_icmp_ping m n).1 58 ≤ 65535
      ∧ ((rd16 (reply_icmp_ping m n).1 58 : Int) + (233 - (rd8 m 56 : Int))
          - (rd16 m 58 : Int)) % 65535 = 0 := by
  have hm2 : ∀ i, (i < 60 ∨ 68 ≤ i) →
      wr32 (wr32 m 64 (rd32 m 60)) 60 (rd32 m 64) i = m i := by
    intro i hi
    rw [wr32_rd32_apply, wr32_rd32_apply, if_neg (by omega), if_neg (by omega)]
  have e : rd16 (reply_icmp_ping m n).1 58
      = rd16 (checksum_diff (wr32 (wr32 m 64 (rd32 m 60)) 60 (rd32 m 64)) 58
          (toU32 ((233 : Int) - (rd8 m 56 : Int)))) 58 := by
    have e56 : rd8 (wr32 (wr32 m 64 (rd32 m 60)) 60 (rd32 m 64)) 56 = rd8 m 56 := by
      simp only [rd8, hm2 56 (by omega)]
    show rd16 (checksum_diff (wr8 (wr8 (checksum_diff
      (wr32 (wr32 m 64 (rd32 m 60)) 60 (rd32 m 64)) 58
        (toU32 ((233 : Int) - (rd8 (wr32 (wr32 m 64 (rd32 m 60)) 60 (rd32 m 64)) 56 : Int))))
          56 233) 68 0) 70 _) 58 = _
    rw [e56]
    apply rd16_congr
    · rw [checksum_diff_apply _ _ _ _ (by omega) (by omega), wr8_apply, wr8_apply,
        if_neg (by omega), if_neg (by omega)]
    · rw [checksum_diff_apply _ _ _ _ (by omega) (by omega), wr8_apply, wr8_apply,
        if_neg (by omega), if_neg (by omega)]
  have ht := rd8_lt m 56
  have hv := checksum_diff_val (wr32 (wr32 m 64 (rd32 m 60)) 60 (rd32 m 64)) 58
    ((233 : Int) - (rd8 m 56 : Int)) (by omega) (by omega) (Or.inr (by omega))
  have e58 : rd16 (wr32 (wr32 m 64 (rd32 m 60)) 60 (rd32 m 64)) 58 = rd16 m 58 :=
    rd16_congr _ _ _ (hm2 58 (by omega)) (hm2 59 (by omega))
  rw [e58, ← e] at hv
  exact hv

/-- The ICMP checksum field after `reply_icmp_ping`: a nonzero 16-bit value congruent
to the old one plus eight. -/
theorem reply_icmp_ping_icmp_check (m : Mem) (n : Nat) :
    1 ≤ rd16 (reply_icmp_ping m n).1 70 ∧ rd16 (reply_icmp_ping m n).1 70 ≤ 65535
      ∧ ((rd16 (reply_icmp_ping m n).1 70 : Int) + (-8) - (rd16 m 70 : Int)) % 65535 = 0 := by
  have hv := checksum_diff_val (wr8 (wr8 (checksum_diff
      (wr32 (wr32 m 64 (rd32 m 60)) 60 (rd32 m 64)) 58
        (toU32 ((233 : Int) - (rd8 (wr32 (wr32 m 64 (rd32 m 60)) 60 (rd32 m 64)) 56 : Int))))
          56 233) 68 0) 70 (-8) (by omega) (by omega) (Or.inr (by omega))
  have e70 : rd16 (wr8 (wr8 (checksum_diff
      (wr32 (wr32 m 64 (rd32 m 60)) 60 (rd32 m 64)) 58
        (toU32 ((233 : Int) - (rd8 (wr32 (wr32 m 64 (rd32 m 60)) 60 (rd32 m 64)) 56 : Int))))
          56 233) 68 0) 70 = rd16 m 70 := by
    apply rd16_congr
    · rw [wr8_apply, wr8_apply, if_neg (by omega), if_neg (by omega),
        checksum_diff_apply _ _ _ _ (by omega) (by omega), wr32_rd32_apply, wr32_rd32_apply,
        if_neg (by omega), if_neg (by omega)]
    · rw [wr8_apply, wr8_apply, if_neg (by omega), if_neg (by omega),
        checksum_diff_apply _ _ _ _ (by omega) (by omega), wr32_rd32_apply, wr32_rd32_apply,
        if_neg (by omega), if_neg (by omega)]
  rw [e70] at hv
  exact hv


theorem ocValid_iff (l : List Byte) : ocValid l ↔ 0 < ocSum l ∧ ocSum l % 65535 = 0 :=
  ocFold_eq_iff _

theorem reply_icmp_ping_header (m : Mem) (n : Nat) :
    bytesAt (reply_icmp_ping m n).1 48 20
      = [m 48, m 49, m 50, m 51, m 52, m 53, m 54, m 55, toByte 233, m 57,
          (reply_icmp_ping m n).1 58, (reply_icmp_ping m n).1 59,
          m 64, m 65, m 66, m 67, m 60, m 61, m 62, m 63] := by
  simp [bytesAt, reply_icmp_ping_mem]

theorem ping_header_valid (m : Mem) (n : Nat) (hv : ocValid (bytesAt m 48 20)) :
    ocValid (bytesAt (reply_icmp_ping m n).1 48 20) := by
  rw [ocValid_iff] at *
  obtain ⟨c1, c2, c3⟩ := reply_icmp_ping_check m n
  rw [reply_icmp_ping_header]
  simp only [bytesAt, ocSum, rd16, rd8, toByte_val, Nat.reduceAdd, Nat.reduceMod] at *
  omega

theorem bytesAt_shift (m m2 : Mem) (n a b : Nat)
    (h : ∀ i, i < n → m (a + i) = m2 (b + i)) : bytesAt m a n = bytesAt m2 b n := by
  induction n generalizing a b with
  | zero => rfl
  | succ n ih =>
    simp only [bytesAt]
    rw [show m a = m2 b from h 0 (by omega),
      ih (a + 1) (b + 1) (fun i hi => by
        have := h (i + 1) (by omega)
        rw [show a + 1 + i = a + (i + 1) by omega, show b + 1 + i = b + (i + 1) by omega]
        exact this)]

theorem ping_icmp_valid_aux (m mF : Mem) (k : Nat)
    (hmem : ∀ i, i ≠ 58 → i ≠ 59 → i ≠ 70 → i ≠ 71 →
      mF i = if 60 ≤ i ∧ i < 64 then m (i + 4)
        else if 64 ≤ i ∧ i < 68 then m (i - 4)
        else if i = 56 then toByte 233
        else if i = 68 then toByte 0
        else m i)
    (hc : 1 ≤ rd16 mF 70 ∧ rd16 mF 70 ≤ 65535
      ∧ ((rd16 mF 70 : Int) + (-8) - (rd16 m 70 : Int)) % 65535 = 0)
    (h8 : rd8 m 68 = 8) (hv : ocValid (bytesAt m 68 (k + 4))) :
    ocValid (bytesAt mF 68 (k + 4)) := by
  rw [ocValid_iff] at *
  obtain ⟨c1, c2, c3⟩ := hc
  have hr : bytesAt mF 72 k = bytesAt m 72 k :=
    bytesAt_congr mF m k 72 (fun i h1 _ => by
      rw [hmem i (by omega) (by omega) (by omega) (by omega),
        if_neg (by omega), if_neg (by omega), if_neg (by omega), if_neg (by omega)])
  have e68 : mF 68 = toByte 0 := by
    rw [hmem 68 (by omega) (by omega) (by omega) (by omega)]; rfl
  have e69 : mF 69 = m 69 := by
    rw [hmem 69 (by omega) (by omega) (by omega) (by omega)]; rfl
  clear hmem
  simp only [bytesAt, ocSum, Nat.reduceAdd, hr, e68, e69, toByte_val, Nat.reduceMod] at hv ⊢
  simp only [rd16, rd8, Nat.reduceAdd] at c1 c2 c3 h8
  omega

theorem ping_icmp_valid (m : Mem) (n k : Nat) (h8 : rd8 m 68 = 8)
    (hv : ocValid (bytesAt m 68 (k + 4))) :
    ocValid (bytesAt (reply_icmp_ping m n).1 68 (k + 4)) :=
  ping_icmp_valid_aux m (reply_icmp_ping m n).1 k (reply_icmp_ping_mem m n)
    (reply_icmp_ping_icmp_check m n) h8 hv

/-! ### The IPv6 echo reply -/

theorem reply_icmp6_ping_written (m : Mem) (n : Nat) :
    (reply_icmp6_ping m n).2 = some (bytesAt (reply_icmp6_ping m n).1 pkt_ipv6_hdr n) := rfl

/-- What `reply_icmp6_ping` leaves in the buffer, outside the checksum field. -/
theorem reply_icmp6_ping_mem (m : Mem) (n i : Nat) (h1 : i ≠ 90) (h2 : i ≠ 91) :
    (reply_icmp6_ping m n).1 i =
      if 56 ≤ i ∧ i < 72 then m (i + 16)
      else if 72 ≤ i ∧ i < 88 then m (i - 16)
      else if i = 55 then toByte 233
      else if i = 88 then toByte 129
      else m i := by
  show checksum_diff (wr8 (wr8 (memcpy (memcpy m 72 m 56 16) 56
    (memcpy (fun _ => 0) 0 m 72 16) 0 16) 55 233) 88 129) 90 _ i = _
  rw [checksum_diff_apply _ _ _ _ h1 h2, wr8_apply, wr8_apply, memcpy_apply, memcpy_apply,
    memcpy_apply]
  split_ifs <;> first
    | omega
    | rfl
    | exact congrArg _ (by omega)

/-- The ICMPv6 checksum field after `reply_icmp6_ping`: a nonzero 16-bit value congruent
to the old one minus one. -/
theorem reply_icmp6_ping_check (m : Mem) (n : Nat) :
    1 ≤ rd16 (reply_icmp6_ping m n).1 90 ∧ rd16 (reply_icmp6_ping m n).1 90 ≤ 65535
      ∧ ((rd16 (reply_icmp6_ping m n).1 90 : Int) + 1 - (rd16 m 90 : Int)) % 65535 = 0 := by
  have hv := checksum_diff_val (wr8 (wr8 (memcpy (memcpy m 72 m 56 16) 56
    (memcpy (fun _ => 0) 0 m 72 16) 0 16) 55 233) 88 129) 90 1 (by omega) (by omega)
    (Or.inr (by omega))
  have e90 : rd16 (wr8 (wr8 (memcpy (memcpy m 72 m 56 16) 56
      (memcpy (fun _ => 0) 0 m 72 16) 0 16) 55 233) 88 129) 90 = rd16 m 90 := by
    apply rd16_congr
    · simp [wr8_apply, memcpy_apply]
    · simp [wr8_apply, memcpy_apply]
  rw [e90] at hv
  exact hv

theorem ocSum_pseudoHeader (src dst msg : List Byte) (len nxt : Nat)
    (hs : src.length = 16) (hd : dst.length = 16) :
    ocSum (pseudoHeader src dst len nxt ++ msg)
      = ocSum src + ocSum dst + (len / 16777216 % 256 + 256 * (len / 65536 % 256))
        + (len / 256 % 256 + 256 * (len % 256)) + 256 * (nxt % 256) + ocSum msg := by
  unfold pseudoHeader
  rw [ocSum_append_even _ msg 20 (by simp [hs, hd]),
    ocSum_append_even _ _ 18 (by simp [hs, hd]),
    ocSum_append_even _ _ 16 (by simp [hs, hd]),
    ocSum_append_even _ _ 8 (by simp [hs])]
  simp only [ocSum, toByte_val]
  simp only [Fin.val_zero, Nat.mul_zero, Nat.add_zero, Nat.zero_add]
  omega

theorem ping6_valid_aux (m mF : Mem) (k len : Nat)
    (hmem : ∀ i, i ≠ 90 → i ≠ 91 →
      mF i = if 56 ≤ i ∧ i < 72 then m (i + 16)
        else if 72 ≤ i ∧ i < 88 then m (i - 16)
        else if i = 55 then toByte 233
        else if i = 88 then toByte 129
        else m i)
    (hc : 1 ≤ rd16 mF 90 ∧ rd16 mF 90 ≤ 65535
      ∧ ((rd16 mF 90 : Int) + 1 - (rd16 m 90 : Int)) % 65535 = 0)
    (h8 : rd8 m 88 = 128)
    (hv : ocValid (pseudoHeader (bytesAt m 56 16) (bytesAt m 72 16) len 58
      ++ bytesAt m 88 (k + 4))) :
    ocValid (pseudoHeader (bytesAt mF 56 16) (bytesAt mF 72 16) len 58
      ++ bytesAt mF 88 (k + 4)) := by
  obtain ⟨c1, c2, c3⟩ := hc
  have hs : bytesAt mF 56 16 = bytesAt m 72 16 :=
    bytesAt_shift mF m 16 56 72 (fun i hi => by
      rw [hmem (56 + i) (by omega) (by omega), if_pos (by omega)]
      exact congrArg m (by omega))
  have hd : bytesAt mF 72 16 = bytesAt m 56 16 :=
    bytesAt_shift mF m 16 72 56 (fun i hi => by
      rw [hmem (72 + i) (by omega) (by omega), if_neg (by omega), if_pos (by omega)]
      exact congrArg m (by omega))
  have hr : bytesAt mF 92 k = bytesAt m 92 k :=
    bytesAt_congr mF m k 92 (fun i h1 _ => by
      rw [hmem i (by omega) (by omega),
        if_neg (by omega), if_neg (by omega), if_neg (by omega), if_neg (by omega)])
  have e88 : mF 88 = toByte 129 := by
    rw [hmem 88 (by omega) (by omega)]; rfl
  have e89 : mF 89 = m 89 := by
    rw [hmem 89 (by omega) (by omega)]; rfl
  clear hmem
  rw [hs, hd]
  rw [ocValid_iff, ocSum_pseudoHeader _ _ _ _ _ (length_bytesAt _ _ _) (length_bytesAt _ _ _)]
    at *
  generalize ocSum (bytesAt m 56 16) = S1 at *
  generalize ocSum (bytesAt m 72 16) = S2 at *
  simp only [bytesAt, ocSum, Nat.reduceAdd, hr, e88, e89, toByte_val, Nat.reduceMod] at hv ⊢
  simp only [rd16, rd8, Nat.reduceAdd] at c1 c2 c3 h8
  omega

theorem ping6_valid (m : Mem) (n k len : Nat) (h8 : rd8 m 88 = 128)
    (hv : ocValid (pseudoHeader (bytesAt m 56 16) (bytesAt m 72 16) len 58
      ++ bytesAt m 88 (k + 4))) :
    ocValid (pseudoHeader (bytesAt (reply_icmp6_ping m n).1 56 16)
      (bytesAt (reply_icmp6_ping m n).1 72 16) len 58
      ++ bytesAt (reply_icmp6_ping m n).1 88 (k + 4)) :=
  ping6_valid_aux m (reply_icmp6_ping m n).1 k len (reply_icmp6_ping_mem m n)
    (reply_icmp6_ping_check m n) h8 hv


/-! ### The IPv4 time-exceeded reply -/

theorem wr8_ne (m : Mem) (a v i : Nat) (h : i ≠ a) : wr8 m a v i = m i := by
  rw [wr8_apply, if_neg h]

theorem wr16_ne (m : Mem) (a v i : Nat) (h : i < a ∨ a + 2 ≤ i) : wr16 m a v i = m i := by
  rw [wr16_apply, if_neg (by omega), if_neg (by omega)]

theorem wr32_ne (m : Mem) (a v i : Nat) (h : i < a ∨ a + 4 ≤ i) : wr32 m a v i = m i := by
  rw [wr32_apply, if_neg (by omega), if_neg (by omega), if_neg (by omega), if_neg (by omega)]

theorem memset_ne (m : Mem) (a c n i : Nat) (h : i < a ∨ a + n ≤ i) :
    memset m a c n i = m i := by
  rw [memset_apply, if_neg (by omega)]

theorem memcpy_ne (m : Mem) (dst : Nat) (src : Mem) (s n i : Nat)
    (h : i < dst ∨ dst + n ≤ i) : memcpy m dst src s n i = m i := by
  rw [memcpy_apply, if_neg (by omega)]

theorem ttl_written (m : Mem) (n b : Nat) :
    (reply_icmp_ttl_exceeded m n b).2
      = some (bytesAt (reply_icmp_ttl_exceeded m n b).1 pkt_ipv4_padding 56) := rfl

/-- The reply is built in front of the packet: the packet itself is left alone. -/
theorem ttl_frame (m : Mem) (n b i : Nat) (h : 48 ≤ i) :
    (reply_icmp_ttl_exceeded m n b).1 i = m i := by
  unfold reply_icmp_ttl_exceeded
  simp (disch := omega) only [pkt_ipv4_padding, pkt_icmp_padding, iphdr_tot_len, iphdr_ttl,
    iphdr_protocol, iphdr_daddr, iphdr_saddr, iphdr_check, icmp_type, icmp_code,
    icmp_checksum, Nat.reduceAdd, wr8_ne, wr16_ne, wr32_ne, memset_ne, wr_version, wr_ihl,
    ite_apply, ite_self]


/-- The decision and the addresses of the IPv4 reply, read off the buffer. -/
theorem ttl_fields (m : Mem) (n b : Nat) :
    rd32 (reply_icmp_ttl_exceeded m n b).1 36 = rd32 m 60
      ∧ (if ntohl b ≤ ntohl (rd32 m 64) ∧ ntohl (rd32 m 64) ≤ (ntohl b + rd8 m 56) % U32 then
          rd32 (reply_icmp_ttl_exceeded m n b).1 32 = rd32 m 64
            ∧ rd8 (reply_icmp_ttl_exceeded m n b).1 40 = 3
            ∧ rd8 (reply_icmp_ttl_exceeded m n b).1 41 = 3
        else
          rd32 (reply_icmp_ttl_exceeded m n b).1 32 = htonl ((ntohl b + rd8 m 56) % U32)
            ∧ rd8 (reply_icmp_ttl_exceeded m n b).1 40 = 11
            ∧ rd8 (reply_icmp_ttl_exceeded m n b).1 41 = 0) := by
  have hh : bswap32 ((ntohl b + (m 56).val) % U32) < 4294967296 := bswap32_lt _
  constructor
  · simp [reply_icmp_ttl_exceeded, rd32, rd16, rd8, wr8_apply, wr16_apply, wr32_apply,
      memset_apply, wr_ihl, wr_version, ite_apply, toByte_val]
    omega
  · simp only [reply_icmp_ttl_exceeded]
    simp [rd32, rd16, rd8, wr8_apply, wr16_apply, wr32_apply, memset_apply, wr_ihl,
      wr_version, ite_apply, toByte_val]
    split_ifs with hc
    · simp [toByte_val]; omega
    · simp [toByte_val, htonl]
      omega

/-- The constant part of the IPv4 reply. -/
theorem ttl_layout (m : Mem) (n b : Nat) :
    rd8 (reply_icmp_ttl_exceeded m n b).1 20 = 0x45
      ∧ rd8 (reply_icmp_ttl_exceeded m n b).1 21 = 0
      ∧ rd8 (reply_icmp_ttl_exceeded m n b).1 22 = 0
      ∧ rd8 (reply_icmp_ttl_exceeded m n b).1 23 = 56
      ∧ rd16 (reply_icmp_ttl_exceeded m n b).1 24 = 0
      ∧ rd16 (reply_icmp_ttl_exceeded m n b).1 26 = 0
      ∧ rd8 (reply_icmp_ttl_exceeded m n b).1 28 = 233
      ∧ rd8 (reply_icmp_ttl_exceeded m n b).1 29 = 1
      ∧ rd32 (reply_icmp_ttl_exceeded m n b).1 44 = 0 := by
  simp [reply_icmp_ttl_exceeded, rd32, rd16, rd8, wr8_apply, wr16_apply, wr32_apply,
    memset_apply, wr_ihl, wr_version, ite_apply, toByte_val, htons, bswap16]


/-- A checksum computed over a region with its field zeroed and then stored in the field
makes the region valid. -/
theorem checksum_store_valid (m : Mem) (a j k : Nat) (hj : j < k) (hk : k ≤ 65536)
    (h0 : rd16 m (a + 2 * j) = 0) :
    ocValid (bytesAt (wr16 m (a + 2 * j) (checksum_calc m a (2 * k))) a (2 * k)) := by
  obtain ⟨h1, h2, h3, h4⟩ := checksum_store m a j k hj hk h0
  rw [ocValid_iff, h3]
  exact ⟨by omega, h4⟩

/-- The last four stores of `reply_icmp_ttl_exceeded`. -/
theorem ttl_mem_eq (m : Mem) (n b : Nat) :
    ∃ m7 : Mem, (reply_icmp_ttl_exceeded m n b).1
      = wr16 (wr16 (wr16 (wr16 m7 30 0) 30 (checksum_calc (wr16 m7 30 0) 20 20)) 42 0) 42
          (checksum_calc
            (wr16 (wr16 (wr16 m7 30 0) 30 (checksum_calc (wr16 m7 30 0) 20 20)) 42 0) 40 36) :=
  ⟨_, rfl⟩

theorem ttl_header_valid (m : Mem) (n b : Nat) :
    ocValid (bytesAt (reply_icmp_ttl_exceeded m n b).1 20 20) := by
  obtain ⟨m7, h⟩ := ttl_mem_eq m n b
  rw [h]
  have e : bytesAt (wr16 (wr16 (wr16 (wr16 m7 30 0) 30 (checksum_calc (wr16 m7 30 0) 20 20))
      42 0) 42 (checksum_calc
        (wr16 (wr16 (wr16 m7 30 0) 30 (checksum_calc (wr16 m7 30 0) 20 20)) 42 0) 40 36)) 20 20
      = bytesAt (wr16 (wr16 m7 30 0) 30 (checksum_calc (wr16 m7 30 0) 20 20)) 20 20 :=
    bytesAt_congr _ _ 20 20 (fun i h1 h2 => by
      rw [wr16_ne _ _ _ _ (by omega), wr16_ne _ _ _ _ (by omega)])
  rw [e]
  exact checksum_store_valid (wr16 m7 30 0) 20 5 10 (by decide) (by decide)
    (rd16_wr16_same m7 30 0)

theorem ttl_icmp_valid (m : Mem) (n b : Nat) :
    ocValid (bytesAt (reply_icmp_ttl_exceeded m n b).1 40 36) := by
  obtain ⟨m7, h⟩ := ttl_mem_eq m n b
  rw [h]
  exact checksum_store_valid _ 40 1 18 (by decide) (by decide) (rd16_wr16_same _ 42 0)


/-! ### The IPv6 time-exceeded reply -/

theorem memcpy_in (m : Mem) (dst : Nat) (src : Mem) (s n i : Nat)
    (h : dst ≤ i ∧ i < dst + n) : memcpy m dst src s n i = src (s + (i - dst)) := by
  rw [memcpy_apply, if_pos h]

theorem ttl6_none (wide : Nat → Nat → Nat) (blks : List ip_blk) (m : Mem) (n : Nat)
    (hB : find_matching_ipv6_block wide blks m = none) :
    reply_icmp6_ttl_exceeded wide blks m n = (m, none) := by
  unfold reply_icmp6_ttl_exceeded
  rw [hB]

theorem ttl6_written (wide : Nat → Nat → Nat) (blks : List ip_blk) (m B : Mem) (n : Nat)
    (hB : find_matching_ipv6_block wide blks m = some B) :
    (reply_icmp6_ttl_exceeded wide blks m n).2
      = some (bytesAt (reply_icmp6_ttl_exceeded wide blks m n).1 pkt_ipv6_padding 96) := by
  unfold reply_icmp6_ttl_exceeded
  rw [hB]

/-- The reply is built in front of the packet: the packet itself is left alone. -/
theorem ttl6_frame (wide : Nat → Nat → Nat) (blks : List ip_blk) (m B : Mem) (n i : Nat)
    (hB : find_matching_ipv6_block wide blks m = some B) (h : 48 ≤ i) :
    (reply_icmp6_ttl_exceeded wide blks m n).1 i = m i := by
  unfold reply_icmp6_ttl_exceeded
  rw [hB]
  simp (disch := omega) only [pkt_ipv6_padding, pkt_icmp_padding, ip6_flow, ip6_plen, ip6_nxt,
    ip6_hlim, ip6_src, ip6_dst, icmp_type, icmp_code, icmp_checksum, IPV6_ADDR_LEN,
    Nat.reduceAdd, wr8_ne, wr16_ne, wr32_ne, memset_ne, memcpy_ne, ite_apply, ite_self]

theorem ttl6_dst (wide : Nat → Nat → Nat) (blks : List ip_blk) (m B : Mem) (n : Nat)
    (hB : find_matching_ipv6_block wide blks m = some B) :
    bytesAt (reply_icmp6_ttl_exceeded wide blks m n).1 24 16 = bytesAt m 56 16 := by
  apply bytesAt_shift
  intro i hi
  unfold reply_icmp6_ttl_exceeded
  rw [hB]
  simp (disch := omega) only [pkt_ipv6_padding, pkt_icmp_padding, pkt_ipv6_hdr, ip6_flow,
    ip6_plen, ip6_nxt,
    ip6_hlim, ip6_src, ip6_dst, icmp_type, icmp_code, icmp_checksum, IPV6_ADDR_LEN,
    Nat.reduceAdd, wr8_ne, wr16_ne, wr32_ne, memset_ne, memcpy_ne, memcpy_in, ite_apply,
    ite_self]
  exact congrArg m (by omega)


/-- The decision and the source address of the IPv6 reply, read off the buffer. -/
theorem ttl6_fields (wide : Nat → Nat → Nat) (blks : List ip_blk) (m B : Mem) (n : Nat)
    (hB : find_matching_ipv6_block wide blks m = some B) :
    if ntohl (rd32 B 12) ≤ ntohl (rd32 m 84)
        ∧ ntohl (rd32 m 84) ≤ (ntohl (rd32 B 12) + rd8 m 55) % U32 then
      bytesAt (reply_icmp6_ttl_exceeded wide blks m n).1 8 16 = bytesAt m 72 16
        ∧ rd8 (reply_icmp6_ttl_exceeded wide blks m n).1 40 = 1
        ∧ rd8 (reply_icmp6_ttl_exceeded wide blks m n).1 41 = 4
    else
      bytesAt (reply_icmp6_ttl_exceeded wide blks m n).1 8 12 = bytesAt B 0 12
        ∧ rd32 (reply_icmp6_ttl_exceeded wide blks m n).1 20
            = htonl ((ntohl (rd32 B 12) + rd8 m 55) % U32)
        ∧ rd8 (reply_icmp6_ttl_exceeded wide blks m n).1 40 = 3
        ∧ rd8 (reply_icmp6_ttl_exceeded wide blks m n).1 41 = 0 := by
  have hh : bswap32 ((ntohl ((B 12).val + 256 * (B 13).val
      + 65536 * ((B 14).val + 256 * (B 15).val)) + (m 55).val) % U32) < 4294967296 :=
    bswap32_lt _
  unfold reply_icmp6_ttl_exceeded
  rw [hB]
  simp only [pkt_ipv6_padding, pkt_icmp_padding, pkt_ipv6_hdr, ip6_flow, ip6_plen, ip6_nxt,
    ip6_hlim, ip6_src, ip6_dst, icmp_type, icmp_code, icmp_checksum, IPV6_ADDR_LEN,
    IPPROTO_ICMPV6, REPLY_TTL, ICMP6_DST_UNREACH, ICMP6_DST_UNREACH_NOPORT,
    ICMP6_TIME_EXCEEDED, Nat.reduceAdd, Nat.reduceMul]
  simp (disch := omega) only [s6_addr32, rd32, rd16, rd8, Nat.reduceAdd, Nat.reduceMul,
    wr8_ne, wr16_ne, wr32_ne, memset_ne, memcpy_ne, memcpy_in, Nat.sub_self, Nat.reduceSub,
    ge_iff_le, ite_apply]
  split_ifs with hcond
  · refine ⟨?_, ?_, ?_⟩
    · apply bytesAt_shift
      intro i hi
      simp (disch := omega) only [wr8_ne, wr16_ne, wr32_ne, memset_ne, memcpy_ne, memcpy_in]
      exact congrArg m (by omega)
    · simp [wr8_apply, wr16_apply, toByte_val]
    · simp [wr8_apply, wr16_apply, toByte_val]
  · refine ⟨?_, ?_, ?_, ?_⟩
    · apply bytesAt_shift
      intro i hi
      simp (disch := omega) only [wr8_ne, wr16_ne, wr32_ne, memset_ne, memcpy_ne, memcpy_in]
      exact congrArg B (by omega)
    · simp only [wr32_apply, Nat.reduceAdd, htonl]
      simp [toByte_val]
      omega
    · simp [wr8_apply, wr16_apply, toByte_val]
    · simp [wr8_apply, wr16_apply, toByte_val]


/-- The constant part of the IPv6 reply. -/
theorem ttl6_layout (wide : Nat → Nat → Nat) (blks : List ip_blk) (m B : Mem) (n : Nat)
    (hB : find_matching_ipv6_block wide blks m = some B) :
    rd32 (reply_icmp6_ttl_exceeded wide blks m n).1 0 = 0x60
      ∧ rd8 (reply_icmp6_ttl_exceeded wide blks m n).1 4 = 0
      ∧ rd8 (reply_icmp6_ttl_exceeded wide blks m n).1 5 = 56
      ∧ rd8 (reply_icmp6_ttl_exceeded wide blks m n).1 6 = 58
      ∧ rd8 (reply_icmp6_ttl_exceeded wide blks m n).1 7 = 233
      ∧ rd32 (reply_icmp6_ttl_exceeded wide blks m n).1 44 = 0 := by
  unfold reply_icmp6_ttl_exceeded
  rw [hB]
  simp [rd32, rd16, rd8, wr8_apply, wr16_apply, wr32_apply, memset_apply, memcpy_apply,
    ite_apply, toByte_val, htons, bswap16]

theorem phdr_loop_eq (m : Mem) (ip6 k i c : Nat) (hc : c < U32) :
    phdr_loop m ip6 k i c
      = (c + ocSum (bytesAt m (ip6 + 8 + 2 * i) (2 * k))
          + ocSum (bytesAt m (ip6 + 24 + 2 * i) (2 * k))) % U32 := by
  induction k generalizing i c with
  | zero => simp [phdr_loop, bytesAt, ocSum, Nat.mod_eq_of_lt hc]
  | succ k ih =>
    have e : 2 * (k + 1) = 2 * k + 2 := by omega
    have e2 : ip6 + 8 + 2 * i + 2 = ip6 + 8 + 2 * (i + 1) := by omega
    have e3 : ip6 + 24 + 2 * i + 2 = ip6 + 24 + 2 * (i + 1) := by omega
    rw [e, ocSum_bytesAt_two, ocSum_bytesAt_two, e2, e3]
    simp only [phdr_loop, s6_addr16, ip6_src, ip6_dst]
    rw [ih (i + 1) _ (Nat.mod_lt _ (by decide))]
    generalize ocSum (bytesAt m (ip6 + 8 + 2 * (i + 1)) (2 * k)) = S1
    generalize ocSum (bytesAt m (ip6 + 24 + 2 * (i + 1)) (2 * k)) = S2
    generalize rd16 m (ip6 + 8 + 2 * i) = w1
    generalize rd16 m (ip6 + 24 + 2 * i) = w2
    unfold U32
    omega

/-- The ICMPv6 checksum computed with its field zeroed and then stored makes the
pseudo-header and the 56-byte message valid together. -/
theorem phdr_store_valid (m : Mem) (h4 : rd16 m 4 = 14336) (h6 : rd8 m 6 = 58)
    (h0 : rd16 m 42 = 0) :
    ocValid (pseudoHeader
        (bytesAt (wr16 m 42 (checksum_calc_ipv6_phdr m 0 40 56)) 8 16)
        (bytesAt (wr16 m 42 (checksum_calc_ipv6_phdr m 0 40 56)) 24 16) 56 58
      ++ bytesAt (wr16 m 42 (checksum_calc_ipv6_phdr m 0 40 56)) 40 56) := by
  have es : bytesAt (wr16 m 42 (checksum_calc_ipv6_phdr m 0 40 56)) 8 16 = bytesAt m 8 16 :=
    bytesAt_congr _ _ 16 8 (fun i h1 h2 => wr16_ne _ _ _ _ (by omega))
  have ed : bytesAt (wr16 m 42 (checksum_calc_ipv6_phdr m 0 40 56)) 24 16 = bytesAt m 24 16 :=
    bytesAt_congr _ _ 16 24 (fun i h1 h2 => wr16_ne _ _ _ _ (by omega))
  have hw := ocSum_wr16 m 1 56 40 (checksum_calc_ipv6_phdr m 0 40 56) (by omega)
  rw [show 40 + 2 * 1 = 42 from rfl, h0] at hw
  rw [es, ed, ocValid_iff,
    ocSum_pseudoHeader _ _ _ _ _ (length_bytesAt _ _ _) (length_bytesAt _ _ _)]
  have b1 := ocSum_bytesAt_le m 8 8
  have b2 := ocSum_bytesAt_le m 8 24
  have b3 := ocSum_bytesAt_le m 28 40
  have harg : checksum_loop m 40 28 0 (((phdr_loop m 0 8 0 0 + 14336) % U32 + 58 * 256) % U32)
      = ocSum (bytesAt m 8 16) + ocSum (bytesAt m 24 16) + 14336 + 58 * 256
          + ocSum (bytesAt m 40 56) := by
    rw [phdr_loop_eq m 0 8 0 0 (by decide),
      checksum_loop_eq m 40 28 0 _ (Nat.mod_lt _ (by decide))]
    simp only [Nat.mul_zero, Nat.add_zero, Nat.zero_add, Nat.reduceMul] at *
    generalize ocSum (bytesAt m 8 16) = S1 at *
    generalize ocSum (bytesAt m 24 16) = S2 at *
    generalize ocSum (bytesAt m 40 56) = S at *
    unfold U32
    omega
  have hc : checksum_calc_ipv6_phdr m 0 40 56
      = checksum_reduce (ocSum (bytesAt m 8 16) + ocSum (bytesAt m 24 16) + 14336 + 58 * 256
          + ocSum (bytesAt m 40 56)) := by
    unfold checksum_calc_ipv6_phdr
    simp only [ip6_plen, ip6_nxt, Nat.zero_add, h4, h6, Nat.reduceDiv]
    rw [harg]
  have hT : ocSum (bytesAt m 8 16) + ocSum (bytesAt m 24 16) + 14336 + 58 * 256
      + ocSum (bytesAt m 40 56) < U32 := by
    simp only [Nat.reduceMul] at b1 b2 b3
    unfold U32; omega
  obtain ⟨c1, c2, c3⟩ := checksum_reduce_spec _ hT
  rw [← hc] at c1 c2 c3
  generalize checksum_calc_ipv6_phdr m 0 40 56 = c at *
  generalize ocSum (bytesAt (wr16 m 42 c) 40 56) = SF at *
  generalize ocSum (bytesAt m 8 16) = S1 at *
  generalize ocSum (bytesAt m 24 16) = S2 at *
  generalize ocSum (bytesAt m 40 56) = S at *
  omega

/-- The last two stores of `reply_icmp6_ttl_exceeded`, and two header fields under
them. -/
theorem ttl6_mem_eq (wide : Nat → Nat → Nat) (blks : List ip_blk) (m B : Mem) (n : Nat)
    (hB : find_matching_ipv6_block wide blks m = some B) :
    ∃ m7 : Mem, (reply_icmp6_ttl_exceeded wide blks m n).1
        = wr16 (wr16 m7 42 0) 42 (checksum_calc_ipv6_phdr (wr16 m7 42 0) 0 40 56)
      ∧ rd16 (wr16 m7 42 0) 4 = 14336 ∧ rd8 (wr16 m7 42 0) 6 = 58 := by
  unfold reply_icmp6_ttl_exceeded
  rw [hB]
  refine ⟨_, rfl, ?_, ?_⟩
  · simp [rd16, rd8, wr8_apply, wr16_apply, wr32_apply, memset_apply, memcpy_apply,
      ite_apply, toByte_val, htons, bswap16]
  · simp [rd16, rd8, wr8_apply, wr16_apply, wr32_apply, memset_apply, memcpy_apply,
      ite_apply, toByte_val, htons, bswap16]

theorem ttl6_valid (wide : Nat → Nat → Nat) (blks : List ip_blk) (m B : Mem) (n : Nat)
    (hB : find_matching_ipv6_block wide blks m = some B) :
    ocValid (pseudoHeader (bytesAt (reply_icmp6_ttl_exceeded wide blks m n).1 8 16)
        (bytesAt (reply_icmp6_ttl_exceeded wide blks m n).1 24 16) 56 58
      ++ bytesAt (reply_icmp6_ttl_exceeded wide blks m n).1 40 56) := by
  obtain ⟨m7, h, h4, h6⟩ := ttl6_mem_eq wide blks m B n hB
  rw [h]
  exact phdr_store_valid (wr16 m7 42 0) h4 h6 (rd16_wr16_same m7 42 0)

/-! ## Reading the written bytes -/

theorem rd8_memOf_bytesAt (m : Mem) (a n i : Nat) (h : i < n) :
    rd8 (memOf (bytesAt m a n)) i = rd8 m (a + i) := by
  simp only [rd8, memOf_bytesAt m n a i h]

theorem rd16_memOf_bytesAt (m : Mem) (a n i : Nat) (h : i + 2 ≤ n) :
    rd16 (memOf (bytesAt m a n)) i = rd16 m (a + i) := by
  simp only [rd16, rd8_memOf_bytesAt m a n i (by omega),
    rd8_memOf_bytesAt m a n (i + 1) (by omega), Nat.add_assoc]

theorem rd32_memOf_bytesAt (m : Mem) (a n i : Nat) (h : i + 4 ≤ n) :
    rd32 (memOf (bytesAt m a n)) i = rd32 m (a + i) := by
  simp only [rd32, rd16_memOf_bytesAt m a n i (by omega),
    rd16_memOf_bytesAt m a n (i + 2) (by omega), Nat.add_assoc]

theorem bytesAt_memOf_bytesAt (m : Mem) (a n i k : Nat) (h : i + k ≤ n) :
    bytesAt (memOf (bytesAt m a n)) i k = bytesAt m (a + i) k :=
  bytesAt_shift _ _ k i (a + i) (fun j hj => by
    rw [memOf_bytesAt m n a (i + j) (by omega), Nat.add_assoc])

theorem drop_take_bytesAt (m : Mem) (a i k r : Nat) :
    ((bytesAt m a (i + (k + r))).drop i).take k = bytesAt m (a + i) k := by
  rw [drop_bytesAt, take_bytesAt]

/-! ## Dispatch -/

/-- An IPv4 packet without options that is neither an echo request nor TCP goes to the
prefix lookup. -/
theorem handle_pkt_v4_other (wide : Nat → Nat → Nat) (blks : List ip_blk) (m : Mem) (n : Nat)
    (hver : rd_version m pkt_ipv4_hdr = 4) (hihl : rd_ihl m pkt_ipv4_hdr = 5)
    (hecho : ¬ (rd8 m (pkt_ipv4_hdr + iphdr_protocol) = IPPROTO_ICMP
      ∧ rd8 m (pkt_icmp_hdr + icmp_type) = ICMP_ECHO))
    (htcp : rd8 m (pkt_ipv4_hdr + iphdr_protocol) ≠ IPPROTO_TCP) :
    handle_pkt wide blks m n
      = if 0 = find_matching_ipv4_block wide blks m then (m, none)
        else reply_icmp_ttl_exceeded m n (find_matching_ipv4_block wide blks m) := by
  unfold handle_pkt
  rw [if_pos ⟨hver, hihl⟩, if_neg hecho, if_neg htcp]

/-- A table of one IPv4 block whose masked base equals the masked destination yields
the stored base. -/
theorem find_v4_single (wide : Nat → Nat → Nat) (blk : ip_blk) (m : Mem)
    (haf : blk.af = AF_INET)
    (hin : ntohl (rd32 m (pkt_ipv4_hdr + iphdr_daddr))
        &&& shl32 wide 0xffffffff (sub32 32 blk.prefix_len)
      = ntohl blk.addr_v4 &&& shl32 wide 0xffffffff (sub32 32 blk.prefix_len)) :
    find_matching_ipv4_block wide [blk] m = blk.addr_v4 := by
  unfold find_matching_ipv4_block
  simp only [haf, ne_eq, not_true_eq_false, if_false, hin]

/-! ## The claims -/

/-- C1: `reply_icmp_ttl_exceeded` writes a reply whose destination is the incoming
source; when `B ≤ D ≤ B + t` (host order, the sum taken modulo `2^32`) its source is the
incoming destination with ICMP type 3 and code 3, and otherwise its source is
`htonl (B + t)` with ICMP type 11 and code 0. -/
theorem C1_ttl_exceeded_decision (m : Mem) (pkt_len base_addr : Nat) :
    ∃ out, (reply_icmp_ttl_exceeded m pkt_len base_addr).2 = some out
      ∧ rd32 (memOf out) iphdr_daddr = rd32 m (pkt_ipv4_hdr + iphdr_saddr)
      ∧ (if ntohl base_addr ≤ ntohl (rd32 m (pkt_ipv4_hdr + iphdr_daddr))
            ∧ ntohl (rd32 m (pkt_ipv4_hdr + iphdr_daddr))
                ≤ (ntohl base_addr + rd8 m (pkt_ipv4_hdr + iphdr_ttl)) % U32 then
          rd32 (memOf out) iphdr_saddr = rd32 m (pkt_ipv4_hdr + iphdr_daddr)
            ∧ rd8 (memOf out) (20 + icmp_type) = 3
            ∧ rd8 (memOf out) (20 + icmp_code) = 3
        else
          rd32 (memOf out) iphdr_saddr
              = htonl ((ntohl base_addr + rd8 m (pkt_ipv4_hdr + iphdr_ttl)) % U32)
            ∧ rd8 (memOf out) (20 + icmp_type) = 11
            ∧ rd8 (memOf out) (20 + icmp_code) = 0) := by
  refine ⟨_, ttl_written m pkt_len base_addr, ?_⟩
  simp only [pkt_ipv4_padding, pkt_ipv4_hdr, iphdr_daddr, iphdr_saddr, iphdr_ttl, icmp_type,
    icmp_code, Nat.reduceAdd,
    rd32_memOf_bytesAt _ 20 56 16 (by decide), rd32_memOf_bytesAt _ 20 56 12 (by decide),
    rd8_memOf_bytesAt _ 20 56 20 (by decide), rd8_memOf_bytesAt _ 20 56 21 (by decide)]
  exact ttl_fields m pkt_len base_addr

/-- C2, as the code has it: for a table holding one IPv4 block with a nonzero base `B` and
a packet without options, neither echo request nor TCP, whose destination `D` lies in the
block, `handle_pkt` writes a reply.  When `B ≤ D` its source is `(B + t) mod 2^32` with
type 11 when `(B + t) mod 2^32 < D`, and `D` with type 3 and code 3 otherwise.  When
`D < B` its source is `(B + t) mod 2^32` with type 11 whatever `t` is. -/
theorem C2_hop_chain_amended (wide : Nat → Nat → Nat) (blk : ip_blk) (m : Mem) (n : Nat)
    (haf : blk.af = AF_INET)
    (hver : rd_version m pkt_ipv4_hdr = 4) (hihl : rd_ihl m pkt_ipv4_hdr = 5)
    (hecho : ¬ (rd8 m (pkt_ipv4_hdr + iphdr_protocol) = IPPROTO_ICMP
      ∧ rd8 m (pkt_icmp_hdr + icmp_type) = ICMP_ECHO))
    (htcp : rd8 m (pkt_ipv4_hdr + iphdr_protocol) ≠ IPPROTO_TCP)
    (hin : ntohl (rd32 m (pkt_ipv4_hdr + iphdr_daddr))
        &&& shl32 wide 0xffffffff (sub32 32 blk.prefix_len)
      = ntohl blk.addr_v4 &&& shl32 wide 0xffffffff (sub32 32 blk.prefix_len))
    (hnz : blk.addr_v4 ≠ 0) :
    ∃ out, (handle_pkt wide [blk] m n).2 = some out
      ∧ (if ntohl blk.addr_v4 ≤ ntohl (rd32 m (pkt_ipv4_hdr + iphdr_daddr)) then
          (if (ntohl blk.addr_v4 + rd8 m (pkt_ipv4_hdr + iphdr_ttl)) % U32
              < ntohl (rd32 m (pkt_ipv4_hdr + iphdr_daddr)) then
            ntohl (rd32 (memOf out) iphdr_saddr)
                = (ntohl blk.addr_v4 + rd8 m (pkt_ipv4_hdr + iphdr_ttl)) % U32
              ∧ rd8 (memOf out) (20 + icmp_type) = 11
          else
            ntohl (rd32 (memOf out) iphdr_saddr) = ntohl (rd32 m (pkt_ipv4_hdr + iphdr_daddr))
              ∧ rd8 (memOf out) (20 + icmp_type) = 3
              ∧ rd8 (memOf out) (20 + icmp_code) = 3)
        else
          ntohl (rd32 (memOf out) iphdr_saddr)
              = (ntohl blk.addr_v4 + rd8 m (pkt_ipv4_hdr + iphdr_ttl)) % U32
            ∧ rd8 (memOf out) (20 + icmp_type) = 11) := by
  have hf := find_v4_single wide blk m haf hin
  have hh := handle_pkt_v4_other wide [blk] m n hver hihl hecho htcp
  rw [hf, if_neg (fun h => hnz h.symm)] at hh
  rw [hh]
  refine ⟨_, ttl_written m n blk.addr_v4, ?_⟩
  have hfl := (ttl_fields m n blk.addr_v4).2
  have hinv := bswap32_bswap32 ((ntohl blk.addr_v4 + rd8 m 56) % U32)
    (Nat.mod_lt _ (by decide))
  simp only [pkt_ipv4_padding, pkt_ipv4_hdr, iphdr_daddr, iphdr_saddr, iphdr_ttl, icmp_type,
    icmp_code, Nat.reduceAdd,
    rd32_memOf_bytesAt _ 20 56 12 (by decide),
    rd8_memOf_bytesAt _ 20 56 20 (by decide), rd8_memOf_bytesAt _ 20 56 21 (by decide)]
  by_cases h1 : ntohl blk.addr_v4 ≤ ntohl (rd32 m 64)
  · by_cases h2 : (ntohl blk.addr_v4 + rd8 m 56) % U32 < ntohl (rd32 m 64)
    · rw [if_neg (by omega)] at hfl
      rw [if_pos h1, if_pos h2, hfl.1]
      exact ⟨hinv, hfl.2.1⟩
    · rw [if_pos ⟨h1, by omega⟩] at hfl
      rw [if_pos h1, if_neg h2, hfl.1]
      exact ⟨rfl, hfl.2.1, hfl.2.2⟩
  · rw [if_neg (fun h => h1 h.1)] at hfl
    rw [if_neg h1, hfl.1]
    exact ⟨hinv, hfl.2.1⟩

/-- C2 at a concrete input: block `10.0.0.0/8` and a probe to `10.0.0.20` with TTL 3 give
the hop `10.0.0.3`. -/
theorem C2_hop_chain_amended_witness :
    ∃ out, (handle_pkt wideZero [blk_10] (recv zeroMem udp_hop3) 28).2 = some out
      ∧ (if ntohl blk_10.addr_v4
            ≤ ntohl (rd32 (recv zeroMem udp_hop3) (pkt_ipv4_hdr + iphdr_daddr)) then
          (if (ntohl blk_10.addr_v4
                + rd8 (recv zeroMem udp_hop3) (pkt_ipv4_hdr + iphdr_ttl)) % U32
              < ntohl (rd32 (recv zeroMem udp_hop3) (pkt_ipv4_hdr + iphdr_daddr)) then
            ntohl (rd32 (memOf out) iphdr_saddr)
                = (ntohl blk_10.addr_v4
                    + rd8 (recv zeroMem udp_hop3) (pkt_ipv4_hdr + iphdr_ttl)) % U32
              ∧ rd8 (memOf out) (20 + icmp_type) = 11
          else
            ntohl (rd32 (memOf out) iphdr_saddr)
                = ntohl (rd32 (recv zeroMem udp_hop3) (pkt_ipv4_hdr + iphdr_daddr))
              ∧ rd8 (memOf out) (20 + icmp_type) = 3
              ∧ rd8 (memOf out) (20 + icmp_code) = 3)
        else
          ntohl (rd32 (memOf out) iphdr_saddr)
              = (ntohl blk_10.addr_v4
                  + rd8 (recv zeroMem udp_hop3) (pkt_ipv4_hdr + iphdr_ttl)) % U32
            ∧ rd8 (memOf out) (20 + icmp_type) = 11) :=
  C2_hop_chain_amended wideZero blk_10 (recv zeroMem udp_hop3) 28 (by decide) (by decide)
    (by decide) (by decide) (by decide) (by decide) (by decide)

/-- C2 fails as stated: with the block `10.0.0.5/8` a UDP probe to `10.0.0.3` (inside the
block, below its base) with TTL 1 has `B + t = 10.0.0.6 ≥ D`, yet the reply is a
time-exceeded (type 11) from `10.0.0.6`, not a destination-unreachable from `D`. -/
theorem C2_hop_chain_counterexample :
    (ntohl (rd32 (recv zeroMem udp_low) (pkt_ipv4_hdr + iphdr_daddr))
        &&& shl32 wideZero 0xffffffff (sub32 32 blk_10_5.prefix_len)
      = ntohl blk_10_5.addr_v4 &&& shl32 wideZero 0xffffffff (sub32 32 blk_10_5.prefix_len))
    ∧ (ntohl (rd32 (recv zeroMem udp_low) (pkt_ipv4_hdr + iphdr_daddr))
        ^^^ ntohl blk_10_5.addr_v4) >>> (32 - blk_10_5.prefix_len) = 0
    ∧ rd8 (recv zeroMem udp_low) (pkt_ipv4_hdr + iphdr_protocol) = 17
    ∧ ntohl blk_10_5.addr_v4 + rd8 (recv zeroMem udp_low) (pkt_ipv4_hdr + iphdr_ttl)
        ≥ ntohl (rd32 (recv zeroMem udp_low) (pkt_ipv4_hdr + iphdr_daddr))
    ∧ ∃ out, (handle_pkt wideZero [blk_10_5] (recv zeroMem udp_low) 28).2 = some out
      ∧ rd8 (memOf out) (20 + icmp_type) = 11
      ∧ ntohl (rd32 (memOf out) iphdr_saddr) = 0x0a000006
      ∧ ntohl (rd32 (memOf out) iphdr_saddr)
          ≠ ntohl (rd32 (recv zeroMem udp_low) (pkt_ipv4_hdr + iphdr_daddr)) :=
  ⟨by decide, by decide, by decide, by decide, _, rfl, by decide, by decide, by decide⟩

/-- C3: when the destination of an IPv6 packet matches a block with base `B`,
`reply_icmp6_ttl_exceeded` writes a reply whose destination is the incoming source; when
`B3 ≤ D3 ≤ B3 + h` (lowest segments in host order, the sum taken modulo `2^32`) its source
is the incoming destination with ICMPv6 type 1 and code 4; otherwise the type is 3, the
code 0, the upper 96 bits of the source are those of `B` and its lowest segment is
`(B3 + h) mod 2^32`. -/
theorem C3_ttl6_decision (wide : Nat → Nat → Nat) (ip_blks : List ip_blk) (m : Mem)
    (pkt_len : Nat) (B : Mem) (hB : find_matching_ipv6_block wide ip_blks m = some B) :
    ∃ out, (reply_icmp6_ttl_exceeded wide ip_blks m pkt_len).2 = some out
      ∧ bytesAt (memOf out) ip6_dst 16 = bytesAt m (pkt_ipv6_hdr + ip6_src) 16
      ∧ (if ntohl (s6_addr32 B 0 3) ≤ ntohl (s6_addr32 m (pkt_ipv6_hdr + ip6_dst) 3)
            ∧ ntohl (s6_addr32 m (pkt_ipv6_hdr + ip6_dst) 3)
                ≤ (ntohl (s6_addr32 B 0 3) + rd8 m (pkt_ipv6_hdr + ip6_hlim)) % U32 then
          bytesAt (memOf out) ip6_src 16 = bytesAt m (pkt_ipv6_hdr + ip6_dst) 16
            ∧ rd8 (memOf out) (40 + icmp_type) = 1
            ∧ rd8 (memOf out) (40 + icmp_code) = 4
        else
          rd8 (memOf out) (40 + icmp_type) = 3
            ∧ rd8 (memOf out) (40 + icmp_code) = 0
            ∧ bytesAt (memOf out) ip6_src 12 = bytesAt B 0 12
            ∧ ntohl (s6_addr32 (memOf out) ip6_src 3)
                = (ntohl (s6_addr32 B 0 3) + rd8 m (pkt_ipv6_hdr + ip6_hlim)) % U32) := by
  refine ⟨_, ttl6_written wide ip_blks m B pkt_len hB, ?_⟩
  have hd := ttl6_dst wide ip_blks m B pkt_len hB
  have hf := ttl6_fields wide ip_blks m B pkt_len hB
  have hinv := bswap32_bswap32 ((ntohl (rd32 B 12) + rd8 m 55) % U32)
    (Nat.mod_lt _ (by decide))
  simp only [pkt_ipv6_padding, pkt_ipv6_hdr, ip6_src, ip6_dst, ip6_hlim, icmp_type,
    icmp_code, s6_addr32, Nat.reduceAdd, Nat.reduceMul,
    bytesAt_memOf_bytesAt _ 0 96 24 16 (by decide),
    bytesAt_memOf_bytesAt _ 0 96 8 16 (by decide),
    bytesAt_memOf_bytesAt _ 0 96 8 12 (by decide),
    rd32_memOf_bytesAt _ 0 96 20 (by decide),
    rd8_memOf_bytesAt _ 0 96 40 (by decide), rd8_memOf_bytesAt _ 0 96 41 (by decide)]
  refine ⟨hd, ?_⟩
  split_ifs with hc
  · rw [if_pos hc] at hf
    exact hf
  · rw [if_neg hc] at hf
    rw [hf.2.1]
    exact ⟨hf.2.2.1, hf.2.2.2, hf.1, hinv⟩

/-- C3 at a concrete input: block `2001:db8::/32` and a probe to `2001:db8::100` with hop
limit 2. -/
theorem C3_ttl6_decision_witness :
    ∃ out, (reply_icmp6_ttl_exceeded wideZero [blk_db8] (recv zeroMem udp6_hop2) 48).2
        = some out
      ∧ bytesAt (memOf out) ip6_dst 16
          = bytesAt (recv zeroMem udp6_hop2) (pkt_ipv6_hdr + ip6_src) 16
      ∧ (if ntohl (s6_addr32 base_db8 0 3)
              ≤ ntohl (s6_addr32 (recv zeroMem udp6_hop2) (pkt_ipv6_hdr + ip6_dst) 3)
            ∧ ntohl (s6_addr32 (recv zeroMem udp6_hop2) (pkt_ipv6_hdr + ip6_dst) 3)
                ≤ (ntohl (s6_addr32 base_db8 0 3)
                    + rd8 (recv zeroMem udp6_hop2) (pkt_ipv6_hdr + ip6_hlim)) % U32 then
          bytesAt (memOf out) ip6_src 16
              = bytesAt (recv zeroMem udp6_hop2) (pkt_ipv6_hdr + ip6_dst) 16
            ∧ rd8 (memOf out) (40 + icmp_type) = 1
            ∧ rd8 (memOf out) (40 + icmp_code) = 4
        else
          rd8 (memOf out) (40 + icmp_type) = 3
            ∧ rd8 (memOf out) (40 + icmp_code) = 0
            ∧ bytesAt (memOf out) ip6_src 12 = bytesAt base_db8 0 12
            ∧ ntohl (s6_addr32 (memOf out) ip6_src 3)
                = (ntohl (s6_addr32 base_db8 0 3)
                    + rd8 (recv zeroMem udp6_hop2) (pkt_ipv6_hdr + ip6_hlim)) % U32) :=
  C3_ttl6_decision wideZero [blk_db8] (recv zeroMem udp6_hop2) 48 base_db8 rfl

/-- C4: `reply_icmp_ttl_exceeded` writes exactly 56 bytes: an IPv4 header with version 4,
IHL 5, TOS 0, total length 56, id 0, fragment field 0, TTL 233 and protocol 1, an ICMP
header whose last four bytes are zero, and the 28 bytes found at the place of the incoming
packet.  For a matched packet `reply_icmp6_ttl_exceeded` writes exactly 96 bytes: an IPv6
header with version 6, traffic class and flow label 0, payload length 56, next header 58
and hop limit 233, an ICMPv6 header whose last four bytes are zero, and the 48 bytes found
at the place of the incoming packet. -/
theorem C4_reply_layout (wide : Nat → Nat → Nat) (ip_blks : List ip_blk) (m : Mem)
    (pkt_len base_addr : Nat) :
    (∃ out, (reply_icmp_ttl_exceeded m pkt_len base_addr).2 = some out
      ∧ out.length = 56
      ∧ rd_version (memOf out) 0 = 4 ∧ rd_ihl (memOf out) 0 = 5
      ∧ rd8 (memOf out) iphdr_tos = 0
      ∧ ntohs (rd16 (memOf out) iphdr_tot_len) = 56
      ∧ rd16 (memOf out) iphdr_id = 0 ∧ rd16 (memOf out) iphdr_frag_off = 0
      ∧ rd8 (memOf out) iphdr_ttl = 233 ∧ rd8 (memOf out) iphdr_protocol = 1
      ∧ rd32 (memOf out) 24 = 0
      ∧ out.drop 28 = bytesAt m pkt_ipv4_hdr 28)
    ∧ (∀ B, find_matching_ipv6_block wide ip_blks m = some B →
      ∃ out, (reply_icmp6_ttl_exceeded wide ip_blks m pkt_len).2 = some out
        ∧ out.length = 96
        ∧ ntohl (rd32 (memOf out) ip6_flow) = 0x60000000
        ∧ ntohs (rd16 (memOf out) ip6_plen) = 56
        ∧ rd8 (memOf out) ip6_nxt = 58 ∧ rd8 (memOf out) ip6_hlim = 233
        ∧ rd32 (memOf out) 44 = 0
        ∧ out.drop 48 = bytesAt m pkt_ipv6_hdr 48) := by
  constructor
  · refine ⟨_, ttl_written m pkt_len base_addr, length_bytesAt _ _ _, ?_⟩
    obtain ⟨h0, h1, h2, h3, h4, h5, h6, h7, h8⟩ := ttl_layout m pkt_len base_addr
    have hd : (bytesAt (reply_icmp_ttl_exceeded m pkt_len base_addr).1 20 (28 + 28)).drop 28
        = bytesAt m 48 28 := by
      rw [drop_bytesAt]
      exact bytesAt_congr _ _ 28 48 (fun i hi _ => ttl_frame m pkt_len base_addr i hi)
    simp only [pkt_ipv4_padding, pkt_ipv4_hdr, iphdr_tos, iphdr_tot_len, iphdr_id,
      iphdr_frag_off, iphdr_ttl, iphdr_protocol, rd_version, rd_ihl, ntohs, bswap16,
      rd8_memOf_bytesAt _ 20 56 0 (by decide), rd8_memOf_bytesAt _ 20 56 1 (by decide),
      rd16_memOf_bytesAt _ 20 56 2 (by decide), rd16_memOf_bytesAt _ 20 56 4 (by decide),
      rd16_memOf_bytesAt _ 20 56 6 (by decide), rd8_memOf_bytesAt _ 20 56 8 (by decide),
      rd8_memOf_bytesAt _ 20 56 9 (by decide), rd32_memOf_bytesAt _ 20 56 24 (by decide),
      Nat.reduceAdd, Nat.add_zero]
    have h23 : rd16 (reply_icmp_ttl_exceeded m pkt_len base_addr).1 22 = 14336 := by
      simp only [rd16, Nat.reduceAdd, h2, h3]
    rw [h0, h1, h23, h4, h5, h6, h7, h8]
    exact ⟨by decide, by decide, rfl, by decide, rfl, rfl, rfl, rfl, rfl, hd⟩
  · intro B hB
    refine ⟨_, ttl6_written wide ip_blks m B pkt_len hB, length_bytesAt _ _ _, ?_⟩
    obtain ⟨h0, h1, h2, h3, h4, h5⟩ := ttl6_layout wide ip_blks m B pkt_len hB
    have hd : (bytesAt (reply_icmp6_ttl_exceeded wide ip_blks m pkt_len).1 0 (48 + 48)).drop 48
        = bytesAt m 48 48 := by
      rw [drop_bytesAt]
      exact bytesAt_congr _ _ 48 (0 + 48)
        (fun i hi _ => ttl6_frame wide ip_blks m B pkt_len i hB (by omega))
    simp only [pkt_ipv6_padding, pkt_ipv6_hdr, ip6_flow, ip6_plen, ip6_nxt, ip6_hlim, ntohs,
      bswap16, rd32_memOf_bytesAt _ 0 96 0 (by decide),
      rd16_memOf_bytesAt _ 0 96 4 (by decide), rd8_memOf_bytesAt _ 0 96 6 (by decide),
      rd8_memOf_bytesAt _ 0 96 7 (by decide), rd32_memOf_bytesAt _ 0 96 44 (by decide),
      Nat.reduceAdd, Nat.add_zero]
    have h45 : rd16 (reply_icmp6_ttl_exceeded wide ip_blks m pkt_len).1 4 = 14336 := by
      simp only [rd16, Nat.reduceAdd, h1, h2]
    rw [h0, h45, h3, h4, h5]
    exact ⟨by decide, by decide, rfl, rfl, rfl, hd⟩

/-- C4 at a concrete input: both replies for the probes of the scenarios. -/
theorem C4_reply_layout_witness :
    ∃ out, (reply_icmp6_ttl_exceeded wideZero [blk_db8] (recv zeroMem udp6_hop2) 48).2
        = some out
      ∧ out.length = 96
      ∧ ntohl (rd32 (memOf out) ip6_flow) = 0x60000000
      ∧ ntohs (rd16 (memOf out) ip6_plen) = 56
      ∧ rd8 (memOf out) ip6_nxt = 58 ∧ rd8 (memOf out) ip6_hlim = 233
      ∧ rd32 (memOf out) 44 = 0
      ∧ out.drop 48 = bytesAt (recv zeroMem udp6_hop2) pkt_ipv6_hdr 48 :=
  (C4_reply_layout wideZero [blk_db8] (recv zeroMem udp6_hop2) 48 0).2 base_db8 rfl

/-- C5: in the 56-byte IPv4 reply the ten words of the outer IPv4 header fold to `0xFFFF`
and so do the eighteen words of the 36-byte ICMP message; in the 96-byte IPv6 reply the
words of the pseudo-header (outer source, outer destination, length 56, next header 58)
and of the 56-byte ICMPv6 message fold to `0xFFFF` together. -/
theorem C5_reply_checksums (wide : Nat → Nat → Nat) (ip_blks : List ip_blk) (m : Mem)
    (pkt_len base_addr : Nat) :
    (∃ out, (reply_icmp_ttl_exceeded m pkt_len base_addr).2 = some out
      ∧ out.length = 56
      ∧ ocValid (out.take 20) ∧ ocValid (out.drop 20))
    ∧ (∀ B, find_matching_ipv6_block wide ip_blks m = some B →
      ∃ out, (reply_icmp6_ttl_exceeded wide ip_blks m pkt_len).2 = some out
        ∧ out.length = 96
        ∧ ocValid (pseudoHeader ((out.drop 8).take 16) ((out.drop 24).take 16) 56 58
            ++ out.drop 40)) := by
  constructor
  · refine ⟨_, ttl_written m pkt_len base_addr, length_bytesAt _ _ _, ?_, ?_⟩
    · rw [show bytesAt (reply_icmp_ttl_exceeded m pkt_len base_addr).1 pkt_ipv4_padding 56
          = bytesAt (reply_icmp_ttl_exceeded m pkt_len base_addr).1 20 (20 + 36) from rfl,
        take_bytesAt]
      exact ttl_header_valid m pkt_len base_addr
    · rw [show bytesAt (reply_icmp_ttl_exceeded m pkt_len base_addr).1 pkt_ipv4_padding 56
          = bytesAt (reply_icmp_ttl_exceeded m pkt_len base_addr).1 20 (20 + 36) from rfl,
        drop_bytesAt]
      exact ttl_icmp_valid m pkt_len base_addr
  · intro B hB
    refine ⟨_, ttl6_written wide ip_blks m B pkt_len hB, length_bytesAt _ _ _, ?_⟩
    have e1 := drop_take_bytesAt (reply_icmp6_ttl_exceeded wide ip_blks m pkt_len).1 0 8 16 72
    have e2 := drop_take_bytesAt (reply_icmp6_ttl_exceeded wide ip_blks m pkt_len).1 0 24 16 56
    have e3 := drop_bytesAt (reply_icmp6_ttl_exceeded wide ip_blks m pkt_len).1 40 56 0
    simp only [Nat.reduceAdd] at e1 e2 e3
    simp only [pkt_ipv6_padding]
    rw [e1, e2, e3]
    exact ttl6_valid wide ip_blks m B pkt_len hB

/-- C5 at a concrete input: the IPv6 reply to the probe of the scenario. -/
theorem C5_reply_checksums_witness :
    ∃ out, (reply_icmp6_ttl_exceeded wideZero [blk_db8] (recv zeroMem udp6_hop2) 48).2
        = some out
      ∧ out.length = 96
      ∧ ocValid (pseudoHeader ((out.drop 8).take 16) ((out.drop 24).take 16) 56 58
          ++ out.drop 40) :=
  (C5_reply_checksums wideZero [blk_db8] (recv zeroMem udp6_hop2) 48 0).2 base_db8 rfl

/-- C6: `reply_icmp_ping` writes `n` bytes equal to the incoming packet except that the
addresses are exchanged, the TTL is 233 and the ICMP type is 0, the two checksum fields
left aside; `reply_icmp6_ping` writes `n` bytes equal to the incoming packet except that
the addresses are exchanged, the hop limit is 233 and the ICMPv6 type is 129, the checksum
field left aside. -/
theorem C6_echo_reply_frame (m : Mem) (n : Nat) :
    (∃ out, (reply_icmp_ping m n).2 = some out ∧ out.length = n
      ∧ ∀ i, i < n → i ≠ 10 → i ≠ 11 → i ≠ 22 → i ≠ 23 →
          memOf out i =
            if 12 ≤ i ∧ i < 16 then m (pkt_ipv4_hdr + i + 4)
            else if 16 ≤ i ∧ i < 20 then m (pkt_ipv4_hdr + i - 4)
            else if i = 8 then toByte 233
            else if i = 20 then toByte 0
            else m (pkt_ipv4_hdr + i))
    ∧ (∃ out, (reply_icmp6_ping m n).2 = some out ∧ out.length = n
      ∧ ∀ i, i < n → i ≠ 42 → i ≠ 43 →
          memOf out i =
            if 8 ≤ i ∧ i < 24 then m (pkt_ipv6_hdr + i + 16)
            else if 24 ≤ i ∧ i < 40 then m (pkt_ipv6_hdr + i - 16)
            else if i = 7 then toByte 233
            else if i = 40 then toByte 129
            else m (pkt_ipv6_hdr + i)) := by
  constructor
  · refine ⟨_, reply_icmp_ping_written m n, length_bytesAt _ _ _, ?_⟩
    intro i hi h10 h11 h22 h23
    rw [memOf_bytesAt _ _ _ _ hi,
      reply_icmp_ping_mem m n (pkt_ipv4_hdr + i) (by simp only [pkt_ipv4_hdr]; omega)
        (by simp only [pkt_ipv4_hdr]; omega) (by simp only [pkt_ipv4_hdr]; omega)
        (by simp only [pkt_ipv4_hdr]; omega)]
    simp only [pkt_ipv4_hdr]
    split_ifs <;> first
      | omega
      | rfl
  · refine ⟨_, reply_icmp6_ping_written m n, length_bytesAt _ _ _, ?_⟩
    intro i hi h42 h43
    rw [memOf_bytesAt _ _ _ _ hi,
      reply_icmp6_ping_mem m n (pkt_ipv6_hdr + i) (by simp only [pkt_ipv6_hdr]; omega)
        (by simp only [pkt_ipv6_hdr]; omega)]
    simp only [pkt_ipv6_hdr]
    split_ifs <;> first
      | omega
      | rfl

/-- C7: when both checksums of an IPv4 echo request of at least 28 bytes verify, both
checksums of the packet `reply_icmp_ping` writes verify; when the ICMPv6 checksum of an
echo request of at least 48 bytes verifies over its pseudo-header and message, the
checksum of the packet `reply_icmp6_ping` writes verifies over the pseudo-header of the
reply and the message. -/
theorem C7_echo_reply_checksums (m : Mem) (n len : Nat) :
    (28 ≤ n → rd8 m (pkt_icmp_hdr + icmp_type) = ICMP_ECHO →
      ocValid ((bytesAt m pkt_ipv4_hdr n).take 20) →
      ocValid ((bytesAt m pkt_ipv4_hdr n).drop 20) →
      ∃ out, (reply_icmp_ping m n).2 = some out
        ∧ ocValid (out.take 20) ∧ ocValid (out.drop 20))
    ∧ (48 ≤ n → rd8 m (pkt_icmp6_hdr + icmp_type) = ICMP6_ECHO_REQUEST →
      ocValid (pseudoHeader (((bytesAt m pkt_ipv6_hdr n).drop 8).take 16)
          (((bytesAt m pkt_ipv6_hdr n).drop 24).take 16) len 58
        ++ (bytesAt m pkt_ipv6_hdr n).drop 40) →
      ∃ out, (reply_icmp6_ping m n).2 = some out
        ∧ ocValid (pseudoHeader ((out.drop 8).take 16) ((out.drop 24).take 16) len 58
            ++ out.drop 40)) := by
  constructor
  · intro hn h8 hv1 hv2
    obtain ⟨k, rfl⟩ : ∃ k, n = 20 + (k + 4 + 4) := ⟨n - 28, by omega⟩
    refine ⟨_, reply_icmp_ping_written m _, ?_, ?_⟩
    · simp only [pkt_ipv4_hdr] at hv1 ⊢
      rw [take_bytesAt] at hv1 ⊢
      exact ping_header_valid m _ hv1
    · simp only [pkt_ipv4_hdr] at hv2 ⊢
      rw [drop_bytesAt] at hv2 ⊢
      exact ping_icmp_valid m _ (k + 4) h8 hv2
  · intro hn h8 hv
    obtain ⟨k, rfl⟩ : ∃ k, n = 40 + (k + 4 + 4) := ⟨n - 48, by omega⟩
    refine ⟨_, reply_icmp6_ping_written m _, ?_⟩
    have e1 : ∀ x : Mem, ((bytesAt x 48 (40 + (k + 4 + 4))).drop 8).take 16 = bytesAt x 56 16 :=
      fun x => by
        rw [show 40 + (k + 4 + 4) = 8 + (16 + (k + 24)) by omega]
        exact drop_take_bytesAt x 48 8 16 (k + 24)
    have e2 : ∀ x : Mem, ((bytesAt x 48 (40 + (k + 4 + 4))).drop 24).take 16 = bytesAt x 72 16 :=
      fun x => by
        rw [show 40 + (k + 4 + 4) = 24 + (16 + (k + 8)) by omega]
        exact drop_take_bytesAt x 48 24 16 (k + 8)
    have e3 : ∀ x : Mem, (bytesAt x 48 (40 + (k + 4 + 4))).drop 40 = bytesAt x 88 (k + 4 + 4) :=
      fun x => drop_bytesAt x 40 (k + 4 + 4) 48
    simp only [pkt_ipv6_hdr] at hv ⊢
    rw [e1, e2, e3] at hv ⊢
    exact ping6_valid m _ (k + 4) len h8 hv

/-- C7 at concrete inputs: the echo requests of the scenarios, whose checksums verify. -/
theorem C7_echo_reply_checksums_witness :
    (∃ out, (reply_icmp_ping (recv zeroMem echo4) 32).2 = some out
      ∧ ocValid (out.take 20) ∧ ocValid (out.drop 20))
    ∧ (∃ out, (reply_icmp6_ping (recv zeroMem echo6) 52).2 = some out
      ∧ ocValid (pseudoHeader ((out.drop 8).take 16) ((out.drop 24).take 16) 12 58
          ++ out.drop 40)) :=
  ⟨(C7_echo_reply_checksums (recv zeroMem echo4) 32 12).1 (by decide) (by decide)
      (by decide) (by decide),
    (C7_echo_reply_checksums (recv zeroMem echo6) 52 12).2 (by decide) (by decide)
      (by decide)⟩

/-- C8: for 20 bytes whose checksum field is zero, storing `checksum_calc` of them into
the field and calling `checksum_calc` on the result returns `0xFFFF`. -/
theorem C8_checksum_round_trip (h : Mem) (a : Nat) (hz : rd16 h (a + iphdr_check) = 0) :
    checksum_calc (wr16 h (a + iphdr_check) (checksum_calc h a 20)) a 20 = 0xffff := by
  have hz2 : rd16 h (a + 2 * 5) = 0 := hz
  obtain ⟨h1, h2, h3, h4⟩ := checksum_store h a 5 10 (by decide) (by decide) hz2
  have e : a + iphdr_check = a + 2 * 5 := rfl
  have e20 : (20 : Nat) = 2 * 10 := rfl
  rw [e, e20, checksum_calc_eq _ a 10 (by decide), h3]
  have hb := ocSum_bytesAt_le h 10 a
  exact checksum_reduce_valid _ (by unfold U32; omega) (by omega) h4

/-- C8 at a concrete input: the header of the echo request with its checksum field
zeroed. -/
theorem C8_checksum_round_trip_witness :
    rd16 (wr16 (memOf echo4) iphdr_check 0) (0 + iphdr_check) = 0
      ∧ checksum_calc (wr16 (wr16 (memOf echo4) iphdr_check 0) (0 + iphdr_check)
          (checksum_calc (wr16 (memOf echo4) iphdr_check 0) 0 20)) 0 20 = 0xffff :=
  ⟨by decide, C8_checksum_round_trip (wr16 (memOf echo4) iphdr_check 0) 0 (by decide)⟩

/-- C9, as the code has it: for a region of at most 65536 words whose checksum field holds
`checksum_calc` of the region with the field zeroed, after another word `old` is replaced
by `new`, calling `checksum_diff` on the field with the delta `new - old` (as a 32-bit
unsigned value) leaves the field equal to `checksum_calc` of the new region with the field
zeroed. -/
theorem C9_incremental_amended (m : Mem) (a k i j new : Nat) (hk : k ≤ 65536) (hi : i < k)
    (_hj : j < k) (hij : i ≠ j) (hnew : new < 65536)
    (hc : rd16 m (a + 2 * j) = checksum_calc (wr16 m (a + 2 * j) 0) a (2 * k)) :
    rd16 (checksum_diff (wr16 m (a + 2 * i) new) (a + 2 * j)
        (toU32 ((new : Int) - (rd16 m (a + 2 * i) : Int)))) (a + 2 * j)
      = checksum_calc (wr16 (wr16 m (a + 2 * i) new) (a + 2 * j) 0) a (2 * k) := by
  have hdisj : a + 2 * i + 2 ≤ a + 2 * j ∨ a + 2 * j + 2 ≤ a + 2 * i := by omega
  have hdisj2 : a + 2 * j + 2 ≤ a + 2 * i ∨ a + 2 * i + 2 ≤ a + 2 * j := by omega
  rw [wr16_comm m _ _ new 0 hdisj, checksum_calc_eq _ a k hk]
  rw [checksum_calc_eq _ a k hk] at hc
  have hs := ocSum_wr16 (wr16 m (a + 2 * j) 0) i (2 * k) a new (by omega)
  rw [rd16_wr16_disj m _ _ 0 hdisj] at hs
  obtain ⟨c1, c2, c3⟩ := checksum_reduce_spec _ (ocSum_bytesAt_lt (wr16 m (a + 2 * j) 0) a k hk)
  obtain ⟨d1, d2, d3⟩ := checksum_reduce_spec _
    (ocSum_bytesAt_lt (wr16 (wr16 m (a + 2 * j) 0) (a + 2 * i) new) a k hk)
  have hold := rd16_lt m (a + 2 * i)
  have hv := checksum_diff_val (wr16 m (a + 2 * i) new) (a + 2 * j)
    ((new : Int) - (rd16 m (a + 2 * i) : Int)) (by omega) (by omega)
    (Or.inl (by rw [rd16_wr16_disj m _ _ new hdisj2, hc]; exact c1))
  rw [rd16_wr16_disj m _ _ new hdisj2, hc] at hv
  obtain ⟨v1, v2, v3⟩ := hv
  generalize rd16 (checksum_diff (wr16 m (a + 2 * i) new) (a + 2 * j)
        (toU32 ((new : Int) - (rd16 m (a + 2 * i) : Int)))) (a + 2 * j) = v at *
  generalize checksum_reduce (ocSum (bytesAt (wr16 m (a + 2 * j) 0) a (2 * k))) = c at *
  generalize checksum_reduce
    (ocSum (bytesAt (wr16 (wr16 m (a + 2 * j) 0) (a + 2 * i) new) a (2 * k))) = c1 at *
  generalize ocSum (bytesAt (wr16 m (a + 2 * j) 0) a (2 * k)) = S0 at *
  generalize ocSum (bytesAt (wr16 (wr16 m (a + 2 * j) 0) (a + 2 * i) new) a (2 * k)) = S1 at *
  generalize rd16 m (a + 2 * i) = old at *
  omega

/-- C9 at a concrete input: the word 1 with its checksum, changed to 2. -/
theorem C9_incremental_amended_witness :
    rd16 (checksum_diff (wr16 two_words (0 + 2 * 0) 2) (0 + 2 * 1)
        (toU32 (((2 : Nat) : Int) - (rd16 two_words (0 + 2 * 0) : Int)))) (0 + 2 * 1)
      = checksum_calc (wr16 (wr16 two_words (0 + 2 * 0) 2) (0 + 2 * 1) 0) 0 (2 * 2) :=
  C9_incremental_amended two_words 0 2 0 1 2 (by decide) (by decide) (by decide) (by decide)
    (by decide) (by decide)

/-- C9 fails as stated: the word 1 carries the checksum `0xFFFE`; after the word is
replaced by 2, `checksum_diff` with the delta `old - new` leaves `0xFFFF` in the field,
while `checksum_calc` of the new region is `0xFFFD`. -/
theorem C9_incremental_counterexample :
    rd16 two_words 2 = checksum_calc (wr16 two_words 2 0) 0 4
      ∧ rd16 (checksum_diff (wr16 two_words 0 2) 2
          (toU32 ((rd16 two_words 0 : Int) - (2 : Int)))) 2 = 0xffff
      ∧ checksum_calc (wr16 (wr16 two_words 0 2) 2 0) 0 4 = 0xfffd := by
  decide

/-- C10, as the code has it: applying `reply_icmp_ping` to a packet and again to the
result yields a packet equal to the first byte for byte except for the TTL, which is 233,
the ICMP type, which is 0, and the two checksum fields. -/
theorem C10_echo_twice_amended (m : Mem) (n : Nat) :
    ∃ out, (reply_icmp_ping (reply_icmp_ping m n).1 n).2 = some out ∧ out.length = n
      ∧ ∀ i, i < n → i ≠ 10 → i ≠ 11 → i ≠ 22 → i ≠ 23 →
          memOf out i =
            if i = 8 then toByte 233
            else if i = 20 then toByte 0
            else m (pkt_ipv4_hdr + i) := by
  refine ⟨_, reply_icmp_ping_written _ n, length_bytesAt _ _ _, ?_⟩
  intro i hi h10 h11 h22 h23
  rw [memOf_bytesAt _ _ _ _ hi]
  simp only [pkt_ipv4_hdr]
  have hout := reply_icmp_ping_mem (reply_icmp_ping m n).1 n (48 + i) (by omega) (by omega)
    (by omega) (by omega)
  have hin := reply_icmp_ping_mem m n
  rw [hout]
  by_cases c1 : 12 ≤ i ∧ i < 16
  · rw [if_pos (by omega), hin (48 + i + 4) (by omega) (by omega) (by omega) (by omega),
      if_neg (by omega), if_pos (by omega), if_neg (by omega), if_neg (by omega)]
    exact congrArg m (by omega)
  · by_cases c2 : 16 ≤ i ∧ i < 20
    · rw [if_neg (by omega), if_pos (by omega),
        hin (48 + i - 4) (by omega) (by omega) (by omega) (by omega),
        if_pos (by omega), if_neg (by omega), if_neg (by omega)]
      exact congrArg m (by omega)
    · by_cases c3 : i = 8
      · rw [if_neg (by omega), if_neg (by omega), if_pos (by omega), if_pos c3]
      · by_cases c4 : i = 20
        · rw [if_neg (by omega), if_neg (by omega), if_neg (by omega), if_pos (by omega),
            if_neg c3, if_pos c4]
        · rw [if_neg (by omega), if_neg (by omega), if_neg (by omega), if_neg (by omega),
            if_neg c3, if_neg c4,
            hin (48 + i) (by omega) (by omega) (by omega) (by omega),
            if_neg (by omega), if_neg (by omega), if_neg (by omega), if_neg (by omega)]

/-- C10 fails as stated: after two applications to the echo request of the scenario the
ICMP type byte is 0 where the request has 8, and both checksum fields differ from those of
the request. -/
theorem C10_echo_twice_counterexample :
    ∃ out, (reply_icmp_ping (reply_icmp_ping (recv zeroMem echo4) 32).1 32).2 = some out
      ∧ rd8 (memOf out) 20 = 0 ∧ rd8 (recv zeroMem echo4) (pkt_ipv4_hdr + 20) = 8
      ∧ rd16 (memOf out) 10 ≠ rd16 (recv zeroMem echo4) (pkt_ipv4_hdr + 10)
      ∧ rd16 (memOf out) 22 ≠ rd16 (recv zeroMem echo4) (pkt_ipv4_hdr + 22) :=
  ⟨_, rfl, by decide, by decide, by decide, by decide⟩

/-! ## Prefix masks -/

/-- The bits of the mask `0xffffffff << k` for a shift count in range. -/
theorem mask_testBit (k : Nat) (hk : k < 32) (i : Nat) :
    ((0xffffffff <<< k) % U32).testBit i = (decide (k ≤ i) && decide (i < 32)) := by
  have e : (0xffffffff : Nat) = 2 ^ 32 - 1 := by norm_num
  have e2 : U32 = 2 ^ 32 := by norm_num
  rw [e, e2, Nat.testBit_mod_two_pow, Nat.testBit_shiftLeft, Nat.testBit_two_pow_sub_one]
  by_cases h1 : k ≤ i <;> by_cases h2 : i < 32 <;> simp [h1, h2]
  omega

/-- Two 32-bit words agree under the mask `0xffffffff << k` exactly when they agree
above their low `k` bits. -/
theorem and_mask_eq_iff (x y k : Nat) (hx : x < U32) (hy : y < U32) (hk : k < 32) :
    x &&& (0xffffffff <<< k) % U32 = y &&& (0xffffffff <<< k) % U32
      ↔ x / 2 ^ k = y / 2 ^ k := by
  have e2 : U32 = 2 ^ 32 := by norm_num
  rw [e2] at hx hy
  constructor
  · intro h
    apply Nat.eq_of_testBit_eq
    intro i
    have h1 := congrArg (fun z => z.testBit (k + i)) h
    simp only [Nat.testBit_and, mask_testBit k hk] at h1
    rw [← Nat.shiftRight_eq_div_pow, ← Nat.shiftRight_eq_div_pow, Nat.testBit_shiftRight,
      Nat.testBit_shiftRight]
    by_cases h2 : k + i < 32
    · simpa [h2] using h1
    · have hx2 : x.testBit (k + i) = false :=
        Nat.testBit_lt_two_pow (lt_of_lt_of_le hx (Nat.pow_le_pow_right (by decide) (by omega)))
      have hy2 : y.testBit (k + i) = false :=
        Nat.testBit_lt_two_pow (lt_of_lt_of_le hy (Nat.pow_le_pow_right (by decide) (by omega)))
      rw [hx2, hy2]
  · intro h
    apply Nat.eq_of_testBit_eq
    intro i
    simp only [Nat.testBit_and, mask_testBit k hk]
    by_cases h1 : k ≤ i
    · have h2 := congrArg (fun z => z.testBit (i - k)) h
      simp only [← Nat.shiftRight_eq_div_pow, Nat.testBit_shiftRight] at h2
      have e3 : k + (i - k) = i := by omega
      rw [e3] at h2
      rw [h2]
    · simp [h1]

theorem xor_shift_eq_zero_iff (x y k : Nat) :
    (x ^^^ y) >>> k = 0 ↔ x / 2 ^ k = y / 2 ^ k := by
  have e : (x ^^^ y) >>> k = x >>> k ^^^ y >>> k := by
    apply Nat.eq_of_testBit_eq
    intro i
    simp [Nat.testBit_shiftRight, Nat.testBit_xor]
  rw [e, Nat.xor_eq_zero, Nat.shiftRight_eq_div_pow, Nat.shiftRight_eq_div_pow]

theorem sub32_eq (a p : Nat) (h : p ≤ a) (ha : a < U32) : sub32 a p = a - p := by
  unfold sub32 U32 at *
  omega

/-- The masked comparison of the code for a prefix that ends inside the word: `a` is the
number of prefix bits up to the end of the word, `p` the prefix length. -/
theorem masked_eq_iff (wide : Nat → Nat → Nat) (x y a p : Nat) (hx : x < U32) (hy : y < U32)
    (h1 : a < p + 32) (h2 : p ≤ a) (ha : a < U32) :
    x &&& shl32 wide 0xffffffff (sub32 a p) = y &&& shl32 wide 0xffffffff (sub32 a p)
      ↔ x / 2 ^ (a - p) = y / 2 ^ (a - p) := by
  rw [sub32_eq a p h2 ha]
  have hk : a - p < 32 := by omega
  unfold shl32
  rw [if_pos hk]
  exact and_mask_eq_iff x y (a - p) hx hy hk

theorem ntohl_lt (x : Nat) : ntohl x < U32 := bswap32_lt x

/-! ## Lookup, one block at a time -/

theorem find_v4_cons (wide : Nat → Nat → Nat) (blk : ip_blk) (rest : List ip_blk) (m : Mem) :
    find_matching_ipv4_block wide (blk :: rest) m
      = if ipv4_blk_matches wide blk m then blk.addr_v4
        else find_matching_ipv4_block wide rest m := by
  rw [find_matching_ipv4_block]
  unfold ipv4_blk_matches
  by_cases h1 : blk.af = AF_INET
  · by_cases h2 : ntohl (rd32 m (pkt_ipv4_hdr + iphdr_daddr))
          &&& shl32 wide 0xffffffff (sub32 32 blk.prefix_len)
        = ntohl blk.addr_v4 &&& shl32 wide 0xffffffff (sub32 32 blk.prefix_len)
    · simp [h1, h2]
    · simp [h1, h2]
  · simp [h1]

theorem find_v6_cons (wide : Nat → Nat → Nat) (blk : ip_blk) (rest : List ip_blk) (m : Mem) :
    find_matching_ipv6_block wide (blk :: rest) m
      = if ipv6_blk_matches wide blk m then some (memcpy (fun _ => 0) 0 blk.addr 0 IPV6_ADDR_LEN)
        else find_matching_ipv6_block wide rest m := by
  rw [find_matching_ipv6_block]
  unfold ipv6_blk_matches
  by_cases h1 : blk.af = AF_INET6
  · cases h2 : ipv6_seg0_ok wide blk m <;> cases h3 : ipv6_seg1_ok wide blk m <;>
      cases h4 : ipv6_seg23_ok wide blk m <;> simp [h1]
  · simp [h1]

/-! ## The 128-bit address -/

theorem ntohl_rd32 (m : Mem) (a : Nat) :
    ntohl (rd32 m a)
      = rd8 m (a + 3) + 256 * rd8 m (a + 2) + 65536 * rd8 m (a + 1) + 16777216 * rd8 m a := by
  have e : rd32 m a = rd8 m a + 256 * rd8 m (a + 1) + 65536 * rd8 m (a + 2)
      + 16777216 * rd8 m (a + 3) := by
    unfold rd32 rd16
    have : a + 2 + 1 = a + 3 := rfl
    rw [this]
    omega
  unfold ntohl
  rw [e]
  exact bswap32_bytes _ _ _ _ (rd8_lt m a) (rd8_lt m _) (rd8_lt m _) (rd8_lt m _)

theorem ntohl_inj (x y : Nat) (hx : x < U32) (hy : y < U32) : ntohl x = ntohl y ↔ x = y := by
  constructor
  · intro h
    have := congrArg bswap32 h
    unfold ntohl at this
    rwa [bswap32_bswap32 x hx, bswap32_bswap32 y hy] at this
  · intro h
    rw [h]

theorem addr128_eq (m : Mem) (a : Nat) :
    addr128 m a
      = ((ntohl (rd32 m a) * 2 ^ 32 + ntohl (rd32 m (a + 4))) * 2 ^ 32
          + ntohl (rd32 m (a + 8))) * 2 ^ 32 + ntohl (rd32 m (a + 12)) := by
  rw [ntohl_rd32, ntohl_rd32, ntohl_rd32, ntohl_rd32]
  simp only [addr128, beNat, bytesAt, List.foldl, rd8, Nat.add_assoc, Nat.reduceAdd]
  omega

/-! ## Leading bits of a number built from words -/

theorem div_low (a b j k : Nat) (hb : b < 2 ^ j) : (a * 2 ^ j + b) / 2 ^ (j + k) = a / 2 ^ k := by
  rw [pow_add, ← Nat.div_div_eq_div_mul, Nat.add_comm,
    Nat.add_mul_div_right _ _ (Nat.two_pow_pos j), Nat.div_eq_of_lt hb, Nat.zero_add]

theorem div_split (a a2 d e k : Nat) (hd : d < 2 ^ 32) (he : e < 2 ^ 32) (hk : k ≤ 32) :
    (a * 2 ^ 32 + d) / 2 ^ k = (a2 * 2 ^ 32 + e) / 2 ^ k ↔ a = a2 ∧ d / 2 ^ k = e / 2 ^ k := by
  have hM : 0 < 2 ^ (32 - k) := Nat.two_pow_pos _
  have e32 : 2 ^ 32 = 2 ^ (32 - k) * 2 ^ k := by
    rw [← pow_add]
    congr 1
    omega
  have hdiv : ∀ x y : Nat, (x * 2 ^ 32 + y) / 2 ^ k = y / 2 ^ k + x * 2 ^ (32 - k) := by
    intro x y
    rw [e32, ← Nat.mul_assoc, Nat.add_comm, Nat.add_mul_div_right _ _ (Nat.two_pow_pos k)]
  have hlt : ∀ y : Nat, y < 2 ^ 32 → y / 2 ^ k < 2 ^ (32 - k) := by
    intro y hy
    apply Nat.div_lt_of_lt_mul
    rw [Nat.mul_comm, ← e32]
    exact hy
  rw [hdiv, hdiv]
  constructor
  · intro h
    have h1 := congrArg (fun z => z / 2 ^ (32 - k)) h
    have h2 := congrArg (fun z => z % 2 ^ (32 - k)) h
    simp only [Nat.add_mul_div_right _ _ hM, Nat.add_mul_mod_self_right,
      Nat.div_eq_of_lt (hlt d hd), Nat.div_eq_of_lt (hlt e he), Nat.zero_add,
      Nat.mod_eq_of_lt (hlt d hd), Nat.mod_eq_of_lt (hlt e he)] at h1 h2
    exact ⟨h1, h2⟩
  · rintro ⟨h1, h2⟩
    rw [h1, h2]

/-- The leading `p` bits of a 128-bit number, read off its four 32-bit words. -/
theorem leading_eq_iff (p d0 d1 d2 d3 e0 e1 e2 e3 : Nat)
    (hd1 : d1 < 2 ^ 32) (hd2 : d2 < 2 ^ 32) (hd3 : d3 < 2 ^ 32)
    (he1 : e1 < 2 ^ 32) (he2 : e2 < 2 ^ 32) (he3 : e3 < 2 ^ 32)
    (hp2 : p ≤ 128) :
    leadingBits 128 p (((d0 * 2 ^ 32 + d1) * 2 ^ 32 + d2) * 2 ^ 32 + d3)
        = leadingBits 128 p (((e0 * 2 ^ 32 + e1) * 2 ^ 32 + e2) * 2 ^ 32 + e3)
      ↔ if p ≤ 32 then d0 / 2 ^ (32 - p) = e0 / 2 ^ (32 - p)
        else if p ≤ 64 then d0 = e0 ∧ d1 / 2 ^ (64 - p) = e1 / 2 ^ (64 - p)
        else if p ≤ 96 then d0 = e0 ∧ d1 = e1 ∧ d2 / 2 ^ (96 - p) = e2 / 2 ^ (96 - p)
        else d0 = e0 ∧ d1 = e1 ∧ d2 = e2 ∧ d3 / 2 ^ (128 - p) = e3 / 2 ^ (128 - p) := by
  unfold leadingBits
  have pair : ∀ x y x2 y2 : Nat, y < 2 ^ 32 → y2 < 2 ^ 32 →
      (x * 2 ^ 32 + y = x2 * 2 ^ 32 + y2 ↔ x = x2 ∧ y = y2) := by
    intro x y x2 y2 hy hy2
    have := div_split x x2 y y2 0 hy hy2 (by omega)
    simpa using this
  by_cases c1 : p ≤ 32
  · rw [if_pos c1]
    have e : 128 - p = 96 + (32 - p) := by omega
    have r : ∀ x0 x1 x2 x3 : Nat, ((x0 * 2 ^ 32 + x1) * 2 ^ 32 + x2) * 2 ^ 32 + x3
        = x0 * 2 ^ 96 + ((x1 * 2 ^ 32 + x2) * 2 ^ 32 + x3) := by
      intro x0 x1 x2 x3; ring
    rw [e, r, r, div_low _ _ _ _ (by omega), div_low _ _ _ _ (by omega)]
  · rw [if_neg c1]
    by_cases c2 : p ≤ 64
    · rw [if_pos c2]
      have e : 128 - p = 64 + (64 - p) := by omega
      have r : ∀ x0 x1 x2 x3 : Nat, ((x0 * 2 ^ 32 + x1) * 2 ^ 32 + x2) * 2 ^ 32 + x3
          = (x0 * 2 ^ 32 + x1) * 2 ^ 64 + (x2 * 2 ^ 32 + x3) := by
        intro x0 x1 x2 x3; ring
      rw [e, r, r, div_low _ _ _ _ (by omega), div_low _ _ _ _ (by omega)]
      exact div_split _ _ _ _ _ hd1 he1 (by omega)
    · rw [if_neg c2]
      by_cases c3 : p ≤ 96
      · rw [if_pos c3]
        have e : 128 - p = 32 + (96 - p) := by omega
        rw [e, div_low _ _ _ _ hd3, div_low _ _ _ _ he3,
          div_split _ _ _ _ _ hd2 he2 (by omega), pair _ _ _ _ hd1 he1]
        tauto
      · rw [if_neg c3]
        rw [div_split _ _ _ _ _ hd3 he3 (by omega), pair _ _ _ _ hd2 he2, pair _ _ _ _ hd1 he1]
        tauto



/-- The tests of the IPv6 lookup compare the leading `prefix_len` bits. -/
theorem ipv6_blk_matches_iff (wide : Nat → Nat → Nat) (blk : ip_blk) (m : Mem)
    (hp1 : 1 ≤ blk.prefix_len) (hp2 : blk.prefix_len ≤ 128) :
    ipv6_blk_matches wide blk m = true
      ↔ blk.af = AF_INET6
        ∧ leadingBits 128 blk.prefix_len (addr128 m (pkt_ipv6_hdr + ip6_dst))
          = leadingBits 128 blk.prefix_len (addr128 blk.addr 0) := by
  have e32 : (2 : Nat) ^ 32 = U32 := by norm_num
  rw [addr128_eq, addr128_eq,
    leading_eq_iff _ _ _ _ _ _ _ _ _ (by rw [e32]; exact ntohl_lt _) (by rw [e32]; exact ntohl_lt _)
      (by rw [e32]; exact ntohl_lt _) (by rw [e32]; exact ntohl_lt _)
      (by rw [e32]; exact ntohl_lt _) (by rw [e32]; exact ntohl_lt _) hp2]
  unfold ipv6_blk_matches ipv6_seg0_ok ipv6_seg1_ok ipv6_seg23_ok ip_blk.addr_v6 s6_addr32
  simp only [pkt_ipv6_hdr, ip6_dst, Nat.reduceAdd, Nat.reduceMul, Nat.zero_add, Nat.add_zero]
  by_cases c1 : blk.prefix_len ≤ 32
  · have n1 : ¬ blk.prefix_len > 32 := by omega
    have n2 : ¬ blk.prefix_len > 64 := by omega
    simp only [if_pos c1, if_neg n1, if_neg n2, Bool.and_true, Bool.and_eq_true,
      decide_eq_true_eq]
    rw [masked_eq_iff wide _ _ 32 blk.prefix_len (ntohl_lt _) (ntohl_lt _) (by omega) c1
      (by decide)]
  · have p1 : blk.prefix_len > 32 := by omega
    by_cases c2 : blk.prefix_len ≤ 64
    · have n2 : ¬ blk.prefix_len > 64 := by omega
      simp only [if_neg c1, if_pos p1, if_pos c2, if_neg n2, Bool.and_true, Bool.and_eq_true,
        decide_eq_true_eq]
      rw [masked_eq_iff wide _ _ 64 blk.prefix_len (ntohl_lt _) (ntohl_lt _) (by omega) c2
        (by decide), ntohl_inj _ _ (rd32_lt _ _) (rd32_lt _ _)]
      tauto
    · have p2 : blk.prefix_len > 64 := by omega
      by_cases c3 : blk.prefix_len ≤ 96
      · simp only [if_neg c1, if_pos p1, if_neg c2, if_pos p2, if_pos c3, Bool.and_eq_true,
          decide_eq_true_eq]
        rw [masked_eq_iff wide _ _ 96 blk.prefix_len (ntohl_lt _) (ntohl_lt _) (by omega) c3
          (by decide), ntohl_inj _ _ (rd32_lt _ _) (rd32_lt _ _),
          ntohl_inj _ _ (rd32_lt _ _) (rd32_lt _ _)]
        tauto
      · simp only [if_neg c1, if_pos p1, if_neg c2, if_pos p2, if_neg c3, Bool.and_eq_true,
          decide_eq_true_eq]
        rw [masked_eq_iff wide _ _ 128 blk.prefix_len (ntohl_lt _) (ntohl_lt _) (by omega) hp2
          (by norm_num), ntohl_inj _ _ (rd32_lt _ _) (rd32_lt _ _),
          ntohl_inj _ _ (rd32_lt _ _) (rd32_lt _ _), ntohl_inj _ _ (rd32_lt _ _) (rd32_lt _ _)]
        exact ⟨fun ⟨⟨⟨a, b⟩, c⟩, d, e⟩ => ⟨a, b, c, d, e⟩,
          fun ⟨a, b, c, d, e⟩ => ⟨⟨⟨a, b⟩, c⟩, d, e⟩⟩

/-! ## The claims on the lookup -/

/-- C11: for a table of one IPv4 block with prefix length `1 ≤ p ≤ 32`,
`find_matching_ipv4_block` returns the stored base (network order, unchanged) when
`(a XOR base) >> (32 - p) = 0` for the host-order destination `a` and the host-order
base, and returns 0 otherwise. -/
theorem C11_v4_prefix_match (wide : Nat → Nat → Nat) (blk : ip_blk) (m : Mem)
    (haf : blk.af = AF_INET) (hp1 : 1 ≤ blk.prefix_len) (hp2 : blk.prefix_len ≤ 32) :
    find_matching_ipv4_block wide [blk] m
      = if (ntohl (rd32 m (pkt_ipv4_hdr + iphdr_daddr)) ^^^ ntohl blk.addr_v4)
            >>> (32 - blk.prefix_len) = 0
        then blk.addr_v4 else 0 := by
  have h := masked_eq_iff wide (ntohl (rd32 m (pkt_ipv4_hdr + iphdr_daddr)))
    (ntohl blk.addr_v4) 32 blk.prefix_len (ntohl_lt _) (ntohl_lt _) (by omega) hp2 (by decide)
  rw [← xor_shift_eq_zero_iff] at h
  unfold find_matching_ipv4_block find_matching_ipv4_block
  simp only [haf, ne_eq, not_true_eq_false, if_false]
  by_cases hm : (ntohl (rd32 m (pkt_ipv4_hdr + iphdr_daddr)) ^^^ ntohl blk.addr_v4)
            >>> (32 - blk.prefix_len) = 0
  · rw [if_pos hm, if_neg (not_not.mpr (h.mpr hm))]
  · rw [if_neg hm, if_pos (fun hc => hm (h.mp hc))]

/-- C11 at a concrete input: the block `10.0.0.5/8` and the destination `10.0.0.20`; the
lookup returns the stored base with its low bits. -/
theorem C11_v4_prefix_match_witness :
    find_matching_ipv4_block wideZero [blk_10_5] (recv zeroMem udp_hop3)
        = (if (ntohl (rd32 (recv zeroMem udp_hop3) (pkt_ipv4_hdr + iphdr_daddr))
              ^^^ ntohl blk_10_5.addr_v4) >>> (32 - blk_10_5.prefix_len) = 0
          then blk_10_5.addr_v4 else 0)
      ∧ find_matching_ipv4_block wideZero [blk_10_5] (recv zeroMem udp_hop3) = 0x0500000a :=
  ⟨C11_v4_prefix_match wideZero blk_10_5 (recv zeroMem udp_hop3) (by decide) (by decide)
    (by decide), by decide⟩

/-- C12: for a table of one IPv6 block with prefix length `1 ≤ p ≤ 128`,
`find_matching_ipv6_block` returns `true` exactly when the leading `p` bits of the
destination, read as a 128-bit number in network order, equal the leading `p` bits of
the base, and the address it then outputs is the 16 stored bytes of the base. -/
theorem C12_v6_prefix_match (wide : Nat → Nat → Nat) (blk : ip_blk) (m : Mem)
    (haf : blk.af = AF_INET6) (hp1 : 1 ≤ blk.prefix_len) (hp2 : blk.prefix_len ≤ 128) :
    ((find_matching_ipv6_block wide [blk] m).isSome = true
        ↔ leadingBits 128 blk.prefix_len (addr128 m (pkt_ipv6_hdr + ip6_dst))
          = leadingBits 128 blk.prefix_len (addr128 blk.addr 0))
      ∧ ∀ out, find_matching_ipv6_block wide [blk] m = some out →
          bytesAt out 0 16 = bytesAt blk.addr 0 16 := by
  have h := ipv6_blk_matches_iff wide blk m hp1 hp2
  rw [find_v6_cons]
  constructor
  · cases hm : ipv6_blk_matches wide blk m
    · rw [hm] at h
      simp only [Bool.false_eq_true, if_false, find_matching_ipv6_block, Option.isSome_none,
        false_iff]
      intro hc
      exact absurd (h.mpr ⟨haf, hc⟩) (by simp)
    · rw [hm] at h
      simp only [if_true, Option.isSome_some, true_iff]
      exact (h.mp rfl).2
  · intro out hout
    cases hm : ipv6_blk_matches wide blk m
    · rw [hm] at hout
      simp [find_matching_ipv6_block] at hout
    · rw [hm] at hout
      simp only [if_true, Option.some.injEq] at hout
      rw [← hout]
      exact bytesAt_congr _ blk.addr 16 0 (fun i _ h2 => by
        rw [memcpy_in _ _ _ _ _ _ ⟨Nat.zero_le i, by simpa using h2⟩]
        simp)

/-- C12 at a concrete input: the block `2001:db8::/32` and the destination
`2001:db8::100`. -/
theorem C12_v6_prefix_match_witness :
    ((find_matching_ipv6_block wideZero [blk_db8] (recv zeroMem udp6_hop2)).isSome = true
        ↔ leadingBits 128 blk_db8.prefix_len
            (addr128 (recv zeroMem udp6_hop2) (pkt_ipv6_hdr + ip6_dst))
          = leadingBits 128 blk_db8.prefix_len (addr128 blk_db8.addr 0))
      ∧ ∀ out, find_matching_ipv6_block wideZero [blk_db8] (recv zeroMem udp6_hop2) = some out →
          bytesAt out 0 16 = bytesAt blk_db8.addr 0 16 :=
  C12_v6_prefix_match wideZero blk_db8 (recv zeroMem udp6_hop2) (by decide) (by decide)
    (by decide)

/-! ## The shift of the mask is in range for a prefix length of at least one -/

theorem shl32_in_range (wide wide2 : Nat → Nat → Nat) (x a p : Nat) (h1 : a < p + 32)
    (h2 : p ≤ a) (ha : a < U32) :
    shl32 wide x (sub32 a p) = shl32 wide2 x (sub32 a p) := by
  rw [sub32_eq a p h2 ha]
  unfold shl32
  rw [if_pos (by omega), if_pos (by omega)]

theorem ipv4_blk_matches_wide (wide wide2 : Nat → Nat → Nat) (blk : ip_blk) (m : Mem)
    (h : blk.af = AF_INET → 1 ≤ blk.prefix_len ∧ blk.prefix_len ≤ 32) :
    ipv4_blk_matches wide blk m = ipv4_blk_matches wide2 blk m := by
  unfold ipv4_blk_matches
  by_cases haf : blk.af = AF_INET
  · rw [shl32_in_range wide wide2 _ 32 blk.prefix_len (by have := h haf; omega) (h haf).2
      (by norm_num)]
  · simp [haf]

theorem ipv6_blk_matches_wide (wide wide2 : Nat → Nat → Nat) (blk : ip_blk) (m : Mem)
    (h : blk.af = AF_INET6 → 1 ≤ blk.prefix_len ∧ blk.prefix_len ≤ 128) :
    ipv6_blk_matches wide blk m = ipv6_blk_matches wide2 blk m := by
  unfold ipv6_blk_matches
  by_cases haf : blk.af = AF_INET6
  · obtain ⟨h1, h2⟩ := h haf
    have e0 : ipv6_seg0_ok wide blk m = ipv6_seg0_ok wide2 blk m := by
      unfold ipv6_seg0_ok
      by_cases c : blk.prefix_len ≤ 32
      · rw [if_pos c, if_pos c, shl32_in_range wide wide2 _ 32 blk.prefix_len (by omega) c
          (by norm_num)]
      · rw [if_neg c, if_neg c]
    have e1 : ipv6_seg1_ok wide blk m = ipv6_seg1_ok wide2 blk m := by
      unfold ipv6_seg1_ok
      by_cases c : blk.prefix_len > 32
      · by_cases c2 : blk.prefix_len ≤ 64
        · rw [if_pos c, if_pos c, if_pos c2, if_pos c2,
            shl32_in_range wide wide2 _ 64 blk.prefix_len (by omega) c2 (by norm_num)]
        · rw [if_pos c, if_pos c, if_neg c2, if_neg c2]
      · rw [if_neg c, if_neg c]
    have e2 : ipv6_seg23_ok wide blk m = ipv6_seg23_ok wide2 blk m := by
      unfold ipv6_seg23_ok
      by_cases c : blk.prefix_len > 64
      · by_cases c2 : blk.prefix_len ≤ 96
        · rw [if_pos c, if_pos c, if_pos c2, if_pos c2,
            shl32_in_range wide wide2 _ 96 blk.prefix_len (by omega) c2 (by norm_num)]
        · rw [if_pos c, if_pos c, if_neg c2, if_neg c2,
            shl32_in_range wide wide2 _ 128 blk.prefix_len (by omega) h2 (by norm_num)]
      · rw [if_neg c, if_neg c]
    rw [e0, e1, e2]
  · simp [haf]

/-- The IPv4 lookup does not depend on the platform when every IPv4 block has a prefix
length between 1 and 32. -/
theorem find_v4_wide (wide wide2 : Nat → Nat → Nat) (blks : List ip_blk) (m : Mem)
    (h : ∀ blk ∈ blks, blk.af = AF_INET → 1 ≤ blk.prefix_len ∧ blk.prefix_len ≤ 32) :
    find_matching_ipv4_block wide blks m = find_matching_ipv4_block wide2 blks m := by
  induction blks with
  | nil => rfl
  | cons blk rest ih =>
    rw [find_v4_cons, find_v4_cons,
      ipv4_blk_matches_wide wide wide2 blk m (h blk (List.mem_cons_self _ _)),
      ih (fun b hb => h b (List.mem_cons_of_mem _ hb))]

/-- The IPv6 lookup does not depend on the platform when every IPv6 block has a prefix
length between 1 and 128. -/
theorem find_v6_wide (wide wide2 : Nat → Nat → Nat) (blks : List ip_blk) (m : Mem)
    (h : ∀ blk ∈ blks, blk.af = AF_INET6 → 1 ≤ blk.prefix_len ∧ blk.prefix_len ≤ 128) :
    find_matching_ipv6_block wide blks m = find_matching_ipv6_block wide2 blks m := by
  induction blks with
  | nil => rfl
  | cons blk rest ih =>
    rw [find_v6_cons, find_v6_cons,
      ipv6_blk_matches_wide wide wide2 blk m (h blk (List.mem_cons_self _ _)),
      ih (fun b hb => h b (List.mem_cons_of_mem _ hb))]

/-- The handler depends on the platform through the two lookups only. -/
theorem handle_pkt_wide (wide wide2 : Nat → Nat → Nat) (blks : List ip_blk) (m : Mem) (n : Nat)
    (h4 : find_matching_ipv4_block wide blks m = find_matching_ipv4_block wide2 blks m)
    (h6 : find_matching_ipv6_block wide blks m = find_matching_ipv6_block wide2 blks m) :
    handle_pkt wide blks m n = handle_pkt wide2 blks m n := by
  unfold handle_pkt reply_icmp6_ttl_exceeded
  rw [h4, h6]

/-! ## First match -/

theorem find_v4_first (wide : Nat → Nat → Nat) (blks : List ip_blk) (m : Mem) :
    find_matching_ipv4_block wide blks m
      = match blks.find? (fun blk => ipv4_blk_matches wide blk m) with
        | some blk => blk.addr_v4
        | none => 0 := by
  induction blks with
  | nil => rfl
  | cons blk rest ih =>
    rw [find_v4_cons, List.find?_cons]
    cases hm : ipv4_blk_matches wide blk m
    · simpa using ih
    · simp

theorem find_v6_first (wide : Nat → Nat → Nat) (blks : List ip_blk) (m : Mem) :
    find_matching_ipv6_block wide blks m
      = (blks.find? (fun blk => ipv6_blk_matches wide blk m)).map
          (fun blk => memcpy (fun _ => 0) 0 blk.addr 0 IPV6_ADDR_LEN) := by
  induction blks with
  | nil => rfl
  | cons blk rest ih =>
    rw [find_v6_cons, List.find?_cons]
    cases hm : ipv6_blk_matches wide blk m
    · simpa using ih
    · simp

theorem find_v4_none (wide : Nat → Nat → Nat) (blks : List ip_blk) (m : Mem)
    (h : ∀ blk ∈ blks, ipv4_blk_matches wide blk m = false) :
    find_matching_ipv4_block wide blks m = 0 := by
  rw [find_v4_first, List.find?_eq_none.mpr (fun blk hb => by simp [h blk hb])]

theorem find_v6_none (wide : Nat → Nat → Nat) (blks : List ip_blk) (m : Mem)
    (h : ∀ blk ∈ blks, ipv6_blk_matches wide blk m = false) :
    find_matching_ipv6_block wide blks m = none := by
  rw [find_v6_first, List.find?_eq_none.mpr (fun blk hb => by simp [h blk hb])]
  rfl

theorem find_v6_none_iff (wide : Nat → Nat → Nat) (blks : List ip_blk) (m : Mem) :
    find_matching_ipv6_block wide blks m = none
      ↔ ∀ blk ∈ blks, ipv6_blk_matches wide blk m = false := by
  rw [find_v6_first, Option.map_eq_none', List.find?_eq_none]
  simp

/-! ## Dispatch on the version nibble -/

/-- The IPv6 test of `handle_pkt` reads the high nibble of the first byte. -/
theorem flow_nibble (m : Mem) (a : Nat) : (rd32 m a &&& 0xf0) >>> 4 = rd_version m a := by
  have e : (rd32 m a &&& 0xf0) >>> 4 = rd32 m a / 16 % 16 := by
    apply Nat.eq_of_testBit_eq
    intro i
    rw [Nat.testBit_shiftRight, Nat.testBit_and, Nat.testBit_mod_two_pow _ 4,
      ← Nat.shiftRight_eq_div_pow _ 4, Nat.testBit_shiftRight]
    have e2 : (0xf0 : Nat) = (2 ^ 4 - 1) <<< 4 := by decide
    rw [e2, Nat.testBit_shiftLeft, Nat.testBit_two_pow_sub_one]
    by_cases h : i < 4 <;> simp [h]
  rw [e]
  unfold rd_version rd32 rd16
  have := rd8_lt m a
  omega

/-! ## Dispatch of `handle_pkt` -/

theorem handle_pkt_not_v4_v6 (wide : Nat → Nat → Nat) (blks : List ip_blk) (m : Mem) (n : Nat)
    (h4 : ¬ (rd_version m pkt_ipv4_hdr = 4 ∧ rd_ihl m pkt_ipv4_hdr = 5))
    (h6 : rd_version m pkt_ipv4_hdr ≠ 6) :
    handle_pkt wide blks m n = (m, none) := by
  unfold handle_pkt
  rw [if_neg h4, if_neg (by rw [flow_nibble]; exact h6)]

theorem handle_pkt_v6 (wide : Nat → Nat → Nat) (blks : List ip_blk) (m : Mem) (n : Nat)
    (h6 : rd_version m pkt_ipv4_hdr = 6) :
    handle_pkt wide blks m n
      = if rd8 m (pkt_ipv6_hdr + ip6_nxt) = IPPROTO_ICMPV6
            ∧ rd8 m (pkt_icmp6_hdr + icmp_type) = ICMP6_ECHO_REQUEST then
          reply_icmp6_ping m n
        else if rd8 m (pkt_ipv6_hdr + ip6_nxt) = IPPROTO_TCP then (m, none)
        else reply_icmp6_ttl_exceeded wide blks m n := by
  unfold handle_pkt
  rw [if_neg (by rw [h6]; simp), if_pos (by rw [flow_nibble]; exact h6)]

/-- C15: `handle_pkt` writes nothing when (a) the first nibble of the packet is neither 4
nor 6, (b) the first nibble is 4 and IHL is not 5, (c) the packet is IPv4 with IHL 5 and
protocol TCP, or IPv6 with next header TCP, (d) the packet is IPv4 with IHL 5 or IPv6, is
neither an echo request nor TCP, and no block of the table passes the tests of its family
(as for the empty table). -/
theorem C15_silent_drops (wide : Nat → Nat → Nat) (blks : List ip_blk) (m : Mem) (n : Nat) :
    (rd_version m pkt_ipv4_hdr ≠ 4 → rd_version m pkt_ipv4_hdr ≠ 6 →
        (handle_pkt wide blks m n).2 = none)
      ∧ (rd_version m pkt_ipv4_hdr = 4 → rd_ihl m pkt_ipv4_hdr ≠ 5 →
        (handle_pkt wide blks m n).2 = none)
      ∧ (rd_version m pkt_ipv4_hdr = 4 → rd_ihl m pkt_ipv4_hdr = 5 →
        rd8 m (pkt_ipv4_hdr + iphdr_protocol) = IPPROTO_TCP →
        (handle_pkt wide blks m n).2 = none)
      ∧ (rd_version m pkt_ipv4_hdr = 6 → rd8 m (pkt_ipv6_hdr + ip6_nxt) = IPPROTO_TCP →
        (handle_pkt wide blks m n).2 = none)
      ∧ (rd_version m pkt_ipv4_hdr = 4 → rd_ihl m pkt_ipv4_hdr = 5 →
        ¬ (rd8 m (pkt_ipv4_hdr + iphdr_protocol) = IPPROTO_ICMP
          ∧ rd8 m (pkt_icmp_hdr + icmp_type) = ICMP_ECHO) →
        rd8 m (pkt_ipv4_hdr + iphdr_protocol) ≠ IPPROTO_TCP →
        (∀ blk ∈ blks, ipv4_blk_matches wide blk m = false) →
        (handle_pkt wide blks m n).2 = none)
      ∧ (rd_version m pkt_ipv4_hdr = 6 →
        ¬ (rd8 m (pkt_ipv6_hdr + ip6_nxt) = IPPROTO_ICMPV6
          ∧ rd8 m (pkt_icmp6_hdr + icmp_type) = ICMP6_ECHO_REQUEST) →
        rd8 m (pkt_ipv6_hdr + ip6_nxt) ≠ IPPROTO_TCP →
        (∀ blk ∈ blks, ipv6_blk_matches wide blk m = false) →
        (handle_pkt wide blks m n).2 = none) := by
  refine ⟨?_, ?_, ?_, ?_, ?_, ?_⟩
  · intro h4 h6
    rw [handle_pkt_not_v4_v6 wide blks m n (fun h => h4 h.1) h6]
  · intro h4 h5
    rw [handle_pkt_not_v4_v6 wide blks m n (fun h => h5 h.2) (by rw [h4]; decide)]
  · intro h4 h5 ht
    unfold handle_pkt
    rw [if_pos ⟨h4, h5⟩, if_neg (by rw [ht]; simp), if_pos ht]
  · intro h6 ht
    rw [handle_pkt_v6 wide blks m n h6, if_neg (by rw [ht]; simp), if_pos ht]
  · intro h4 h5 he ht hn
    rw [handle_pkt_v4_other wide blks m n h4 h5 he ht, find_v4_none wide blks m hn, if_pos rfl]
  · intro h6 he ht hn
    rw [handle_pkt_v6 wide blks m n h6, if_neg he, if_neg ht,
      ttl6_none wide blks m n (find_v6_none wide blks m hn)]

/-- C15 at a concrete input: no block configured, a UDP packet to `10.0.0.5`; nothing is
written. -/
theorem C15_silent_drops_witness :
    (handle_pkt wideZero [] (recv zeroMem udp_below) 28).2 = none :=
  (C15_silent_drops wideZero [] (recv zeroMem udp_below) 28).2.2.2.2.1 (by decide) (by decide)
    (by decide) (by decide) (fun _ hb => absurd hb (List.not_mem_nil _))

/-- C13: each lookup returns the base of the first block of the table that passes the
tests of its family, blocks of the other family and later blocks being passed over, and
the IPv6 lookup reports no match exactly when no block passes.  The IPv4 lookup reports no
match by the value 0: for the table `0.0.0.0/8` and the destination `0.0.0.5` the block
matches and the lookup returns 0, on every platform. -/
theorem C13_first_match :
    (∀ (wide : Nat → Nat → Nat) (blks : List ip_blk) (m : Mem),
        find_matching_ipv4_block wide blks m
          = match blks.find? (fun blk => ipv4_blk_matches wide blk m) with
            | some blk => blk.addr_v4
            | none => 0)
      ∧ (∀ (wide : Nat → Nat → Nat) (blks : List ip_blk) (m : Mem),
        find_matching_ipv6_block wide blks m
          = (blks.find? (fun blk => ipv6_blk_matches wide blk m)).map
              (fun blk => memcpy (fun _ => 0) 0 blk.addr 0 IPV6_ADDR_LEN))
      ∧ (∀ (wide : Nat → Nat → Nat) (blks : List ip_blk) (m : Mem),
        find_matching_ipv6_block wide blks m = none
          ↔ ∀ blk ∈ blks, ipv6_blk_matches wide blk m = false)
      ∧ (∀ wide : Nat → Nat → Nat,
        ipv4_blk_matches wide blk_zero8 (recv zeroMem udp_zero) = true
          ∧ find_matching_ipv4_block wide [blk_zero8] (recv zeroMem udp_zero) = 0) := by
  refine ⟨find_v4_first, find_v6_first, find_v6_none_iff, fun wide => ⟨?_, ?_⟩⟩
  · rw [ipv4_blk_matches_wide wide wideZero blk_zero8 _ (fun _ => by decide)]
    decide
  · rw [find_v4_wide wide wideZero [blk_zero8] _ (by decide)]
    decide

/-- The sample table `0.0.0.0/8` has a prefix length in range. -/
theorem zero8_in_range :
    ∀ blk ∈ [blk_zero8], blk.af = AF_INET → 1 ≤ blk.prefix_len ∧ blk.prefix_len ≤ 32 := by
  decide

/-- C14: for the table `0.0.0.0/8` and a UDP packet with IHL 5 to `0.0.0.5` the block
matches the destination and `handle_pkt` writes nothing, on every platform.  Whenever the
lookup result is not 0, `handle_pkt` writes 56 bytes for a packet with IHL 5 that is
neither an echo request nor TCP. -/
theorem C14_zero_base_dropped :
    (∀ wide : Nat → Nat → Nat,
        rd_version (recv zeroMem udp_zero) pkt_ipv4_hdr = 4
          ∧ rd_ihl (recv zeroMem udp_zero) pkt_ipv4_hdr = 5
          ∧ rd8 (recv zeroMem udp_zero) (pkt_ipv4_hdr + iphdr_protocol) = 17
          ∧ ipv4_blk_matches wide blk_zero8 (recv zeroMem udp_zero) = true
          ∧ (handle_pkt wide [blk_zero8] (recv zeroMem udp_zero) 28).2 = none)
      ∧ (∀ (wide : Nat → Nat → Nat) (blks : List ip_blk) (m : Mem) (n : Nat),
        rd_version m pkt_ipv4_hdr = 4 → rd_ihl m pkt_ipv4_hdr = 5 →
        ¬ (rd8 m (pkt_ipv4_hdr + iphdr_protocol) = IPPROTO_ICMP
          ∧ rd8 m (pkt_icmp_hdr + icmp_type) = ICMP_ECHO) →
        rd8 m (pkt_ipv4_hdr + iphdr_protocol) ≠ IPPROTO_TCP →
        find_matching_ipv4_block wide blks m ≠ 0 →
        ∃ out, (handle_pkt wide blks m n).2 = some out ∧ out.length = 56) := by
  refine ⟨fun wide => ⟨by decide, by decide, by decide, ?_, ?_⟩, ?_⟩
  · rw [ipv4_blk_matches_wide wide wideZero blk_zero8 _ (fun _ => by decide)]
    decide
  · rw [handle_pkt_wide wide wideZero [blk_zero8] _ 28
      (find_v4_wide wide wideZero [blk_zero8] _ zero8_in_range)
      (find_v6_wide wide wideZero [blk_zero8] _ (by decide))]
    decide
  · intro wide blks m n h4 h5 he ht hf
    rw [handle_pkt_v4_other wide blks m n h4 h5 he ht, if_neg (fun h => hf h.symm), ttl_written]
    exact ⟨_, rfl, length_bytesAt _ _ _⟩

/-- C16: an IPv6 packet whose next header is 0, 43, 44 or 60 is handed to
`reply_icmp6_ttl_exceeded` like any packet that is neither an echo request nor TCP.  For
the block `2001:db8::/32` and a packet to `2001:db8::100` that carries a hop-by-hop
header, `handle_pkt` writes 96 bytes, an ICMPv6 message of type 3. -/
theorem C16_extension_header_answered :
    (∀ (wide : Nat → Nat → Nat) (blks : List ip_blk) (m : Mem) (n : Nat),
        rd_version m pkt_ipv4_hdr = 6 →
        rd8 m (pkt_ipv6_hdr + ip6_nxt) ∈ [0, 43, 44, 60] →
        handle_pkt wide blks m n = reply_icmp6_ttl_exceeded wide blks m n)
      ∧ (∀ wide : Nat → Nat → Nat,
        rd_version (recv zeroMem hbh6) pkt_ipv4_hdr = 6
          ∧ rd8 (recv zeroMem hbh6) (pkt_ipv6_hdr + ip6_nxt) = 0
          ∧ ipv6_blk_matches wide blk_db8 (recv zeroMem hbh6) = true
          ∧ ∃ out, (handle_pkt wide [blk_db8] (recv zeroMem hbh6) 56).2 = some out
              ∧ out.length = 96 ∧ out.get? 40 = some 3) := by
  refine ⟨?_, fun wide => ⟨by decide, by decide, ?_, ?_⟩⟩
  · intro wide blks m n h6 hn
    rw [handle_pkt_v6 wide blks m n h6]
    have h1 : rd8 m (pkt_ipv6_hdr + ip6_nxt) ≠ IPPROTO_ICMPV6 := by
      intro h; rw [h] at hn; revert hn; decide
    have h2 : rd8 m (pkt_ipv6_hdr + ip6_nxt) ≠ IPPROTO_TCP := by
      intro h; rw [h] at hn; revert hn; decide
    rw [if_neg (fun h => h1 h.1), if_neg h2]
  · rw [ipv6_blk_matches_wide wide wideZero blk_db8 _ (fun _ => by decide)]
    decide
  · rw [handle_pkt_wide wide wideZero [blk_db8] _ 56
      (find_v4_wide wide wideZero [blk_db8] _ (by decide))
      (find_v6_wide wide wideZero [blk_db8] _ (by decide))]
    exact ⟨_, rfl, by decide, by decide⟩

/-- C17: the result of `read` is stored in an unsigned 32-bit length.  For the result -1
the length is 4294967295, the test `pkt_len <= 0` fails and the buffer is handed to
`handle_pkt`; for the result 0 the loop aborts, and it aborts exactly for the results
that are multiples of `2^32`. -/
theorem C17_read_error_dispatched (wide : Nat → Nat → Nat) (blks : List ip_blk) (m : Mem) :
    toU32 (-1) = 4294967295
      ∧ loop_body wide blks m (-1) = some (handle_pkt wide blks m 4294967295)
      ∧ loop_body wide blks m 0 = none
      ∧ ∀ r : Int, loop_body wide blks m r = none ↔ r % 4294967296 = 0 := by
  refine ⟨by decide, rfl, rfl, ?_⟩
  intro r
  unfold loop_body
  by_cases h : toU32 r ≤ 0
  · rw [if_pos h]
    refine ⟨(fun _ => ?_), (fun _ => rfl)⟩
    unfold toU32 at h
    omega
  · rw [if_neg h]
    refine ⟨(fun hc => by cases hc), (fun hc => ?_)⟩
    exfalso
    unfold toU32 at h
    omega

/-- C18: for a prefix length of 0 the mask is the result of a shift by 32, which a 32-bit
shift does not define: both lookups compare under whatever word the platform yields.
Where the shift count is taken modulo 32 that word is `0xffffffff`; there the block
`10.0.0.0/0` does not match the destination `10.0.0.20`, and the block `2001:db9::/0`
does not match `2001:db8::100`. -/
theorem C18_prefix_zero_shift :
    (∀ (wide : Nat → Nat → Nat) (blk : ip_blk) (m : Mem),
        blk.af = AF_INET → blk.prefix_len = 0 →
        (find_matching_ipv4_block wide [blk] m
          = if ntohl (rd32 m (pkt_ipv4_hdr + iphdr_daddr)) &&& (wide 0xffffffff 32 % U32)
                = ntohl blk.addr_v4 &&& (wide 0xffffffff 32 % U32)
            then blk.addr_v4 else 0))
      ∧ (∀ (wide : Nat → Nat → Nat) (blk : ip_blk) (m : Mem),
        blk.af = AF_INET6 → blk.prefix_len = 0 →
        ((find_matching_ipv6_block wide [blk] m).isSome
          = decide (ntohl (rd32 m (pkt_ipv6_hdr + ip6_dst)) &&& (wide 0xffffffff 32 % U32)
                = ntohl (rd32 blk.addr 0) &&& (wide 0xffffffff 32 % U32))))
      ∧ wideX86 0xffffffff 32 % U32 = 0xffffffff
      ∧ find_matching_ipv4_block wideX86 [blk_10_any] (recv zeroMem udp_hop3) = 0
      ∧ (find_matching_ipv6_block wideX86 [blk_db9_any] (recv zeroMem udp6_hop2)).isSome = false
      := by
  refine ⟨?_, ?_, by decide, by decide, by decide⟩
  · intro wide blk m haf hp
    rw [find_v4_cons]
    unfold ipv4_blk_matches
    rw [hp]
    have e : shl32 wide 0xffffffff (sub32 32 0) = wide 0xffffffff 32 % U32 := rfl
    rw [e]
    simp only [haf, decide_True, Bool.true_and, decide_eq_true_eq, find_matching_ipv4_block]
  · intro wide blk m haf hp
    rw [find_v6_cons]
    unfold ipv6_blk_matches ipv6_seg0_ok ipv6_seg1_ok ipv6_seg23_ok
    rw [hp]
    have e : shl32 wide 0xffffffff (sub32 32 0) = wide 0xffffffff 32 % U32 := rfl
    rw [e]
    simp only [haf, decide_True, Bool.true_and, Nat.zero_le, if_true, gt_iff_lt,
      Nat.not_lt_zero, if_false, Bool.and_true, find_matching_ipv6_block, s6_addr32,
      ip_blk.addr_v6, Nat.mul_zero, Nat.add_zero]
    by_cases c : ntohl (rd32 m 72) &&& (wide 0xffffffff 32 % U32)
                = ntohl (rd32 blk.addr 0) &&& (wide 0xffffffff 32 % U32)
    · simp [c]
    · simp [c]

/-- C19, as the code has it: for a table of one IPv4 block with base `B` and prefix length
`1 ≤ p ≤ 32`, and a packet with IHL 5, neither echo request nor TCP, whose destination `D`
lies in the block with `B ≤ D` and whose TTL `t` has `B + t < 2^32`: when `handle_pkt`
writes a time-exceeded reply (type 11), the leading `p` bits of its source equal those of
the base. -/
theorem C19_hops_inside_amended (wide : Nat → Nat → Nat) (blk : ip_blk) (m : Mem) (n : Nat)
    (out : List Byte)
    (haf : blk.af = AF_INET) (hp1 : 1 ≤ blk.prefix_len) (hp2 : blk.prefix_len ≤ 32)
    (hver : rd_version m pkt_ipv4_hdr = 4) (hihl : rd_ihl m pkt_ipv4_hdr = 5)
    (hecho : ¬ (rd8 m (pkt_ipv4_hdr + iphdr_protocol) = IPPROTO_ICMP
      ∧ rd8 m (pkt_icmp_hdr + icmp_type) = ICMP_ECHO))
    (htcp : rd8 m (pkt_ipv4_hdr + iphdr_protocol) ≠ IPPROTO_TCP)
    (hin : (ntohl (rd32 m (pkt_ipv4_hdr + iphdr_daddr)) ^^^ ntohl blk.addr_v4)
      >>> (32 - blk.prefix_len) = 0)
    (hle : ntohl blk.addr_v4 ≤ ntohl (rd32 m (pkt_ipv4_hdr + iphdr_daddr)))
    (hnw : ntohl blk.addr_v4 + rd8 m (pkt_ipv4_hdr + iphdr_ttl) < U32)
    (hout : (handle_pkt wide [blk] m n).2 = some out)
    (htype : rd8 (memOf out) (20 + icmp_type) = ICMP_TIME_EXCEEDED) :
    (ntohl (rd32 (memOf out) iphdr_saddr) ^^^ ntohl blk.addr_v4)
      >>> (32 - blk.prefix_len) = 0 := by
  have hf : find_matching_ipv4_block wide [blk] m = blk.addr_v4 :=
    find_v4_single wide blk m haf
      ((masked_eq_iff wide _ _ 32 blk.prefix_len (ntohl_lt _) (ntohl_lt _) (by omega) hp2
        (by norm_num)).mpr ((xor_shift_eq_zero_iff _ _ _).mp hin))
  have hh := handle_pkt_v4_other wide [blk] m n hver hihl hecho htcp
  rw [hf] at hh
  by_cases hz : 0 = blk.addr_v4
  · rw [if_pos hz] at hh
    rw [hh] at hout
    cases hout
  · rw [if_neg hz] at hh
    rw [hh, ttl_written] at hout
    have ho : out = bytesAt (reply_icmp_ttl_exceeded m n blk.addr_v4).1 pkt_ipv4_padding 56 :=
      (Option.some.inj hout).symm
    have hfl := (ttl_fields m n blk.addr_v4).2
    have hinv := bswap32_bswap32 ((ntohl blk.addr_v4 + rd8 m 56) % U32)
      (Nat.mod_lt _ (by decide))
    rw [ho] at htype ⊢
    simp only [pkt_ipv4_padding, pkt_ipv4_hdr, iphdr_daddr, iphdr_saddr, iphdr_ttl, icmp_type,
      Nat.reduceAdd, ICMP_TIME_EXCEEDED,
      rd32_memOf_bytesAt _ 20 56 12 (by decide),
      rd8_memOf_bytesAt _ 20 56 20 (by decide)] at htype hin hle hnw ⊢
    by_cases hc : ntohl blk.addr_v4 ≤ ntohl (rd32 m 64)
        ∧ ntohl (rd32 m 64) ≤ (ntohl blk.addr_v4 + rd8 m 56) % U32
    · rw [if_pos hc] at hfl
      rw [hfl.2.1] at htype
      exact absurd htype (by decide)
    · rw [if_neg hc] at hfl
      rw [hfl.1]
      have e1 : ntohl (htonl ((ntohl blk.addr_v4 + rd8 m 56) % U32))
          = ntohl blk.addr_v4 + rd8 m 56 := by
        rw [Nat.mod_eq_of_lt hnw] at hinv ⊢
        exact hinv
      rw [e1, xor_shift_eq_zero_iff]
      rw [xor_shift_eq_zero_iff] at hin
      rw [Nat.mod_eq_of_lt hnw] at hc
      have h1 : ntohl blk.addr_v4 + rd8 m 56 ≤ ntohl (rd32 m 64) := by omega
      have a1 := Nat.div_le_div_right (c := 2 ^ (32 - blk.prefix_len)) h1
      have a2 := Nat.div_le_div_right (c := 2 ^ (32 - blk.prefix_len))
        (Nat.le_add_right (ntohl blk.addr_v4) (rd8 m 56))
      omega

/-- C19 at a concrete input: block `10.0.0.0/8` and a probe to `10.0.0.20` with TTL 3; the
reply is a time-exceeded from inside the block. -/
theorem C19_hops_inside_amended_witness :
    (ntohl (rd32 (memOf ((handle_pkt wideZero [blk_10] (recv zeroMem udp_hop3) 28).2.getD []))
        iphdr_saddr) ^^^ ntohl blk_10.addr_v4) >>> (32 - blk_10.prefix_len) = 0
      ∧ rd8 (memOf ((handle_pkt wideZero [blk_10] (recv zeroMem udp_hop3) 28).2.getD []))
        (20 + icmp_type) = ICMP_TIME_EXCEEDED :=
  ⟨C19_hops_inside_amended wideZero blk_10 (recv zeroMem udp_hop3) 28
    ((handle_pkt wideZero [blk_10] (recv zeroMem udp_hop3) 28).2.getD [])
    (by decide) (by decide) (by decide) (by decide) (by decide) (by decide) (by decide)
    (by decide) (by decide) (by decide) (by decide) (by decide), by decide⟩

/-- C19 fails as stated: with the block `10.0.0.250/24` a probe to `10.0.0.5` (inside the
block, below its base) with TTL 10 is answered by a time-exceeded from `10.0.1.4`, outside
the block; with the block `255.255.255.250/24` a probe to `255.255.255.255` with TTL 10
is answered from `0.0.0.4`, the sum having wrapped. -/
theorem C19_hops_inside_counterexample :
    (ntohl (rd32 (recv zeroMem udp_below) (pkt_ipv4_hdr + iphdr_daddr))
        ^^^ ntohl blk_10_250.addr_v4) >>> (32 - blk_10_250.prefix_len) = 0
    ∧ rd8 (recv zeroMem udp_below) (pkt_ipv4_hdr + iphdr_protocol) = 17
    ∧ (∃ out, (handle_pkt wideZero [blk_10_250] (recv zeroMem udp_below) 28).2 = some out
      ∧ rd8 (memOf out) (20 + icmp_type) = ICMP_TIME_EXCEEDED
      ∧ ntohl (rd32 (memOf out) iphdr_saddr) = 0x0a000104
      ∧ (ntohl (rd32 (memOf out) iphdr_saddr) ^^^ ntohl blk_10_250.addr_v4)
          >>> (32 - blk_10_250.prefix_len) ≠ 0)
    ∧ (ntohl (rd32 (recv zeroMem udp_top) (pkt_ipv4_hdr + iphdr_daddr))
        ^^^ ntohl blk_top.addr_v4) >>> (32 - blk_top.prefix_len) = 0
    ∧ ntohl blk_top.addr_v4 ≤ ntohl (rd32 (recv zeroMem udp_top) (pkt_ipv4_hdr + iphdr_daddr))
    ∧ (∃ out, (handle_pkt wideZero [blk_top] (recv zeroMem udp_top) 28).2 = some out
      ∧ rd8 (memOf out) (20 + icmp_type) = ICMP_TIME_EXCEEDED
      ∧ ntohl (rd32 (memOf out) iphdr_saddr) = 0x00000004
      ∧ (ntohl (rd32 (memOf out) iphdr_saddr) ^^^ ntohl blk_top.addr_v4)
          >>> (32 - blk_top.prefix_len) ≠ 0) :=
  ⟨by decide, by decide, ⟨_, rfl, by decide, by decide, by decide⟩,
    by decide, by decide, ⟨_, rfl, by decide, by decide, by decide⟩⟩

/-! ## Buffers that agree on a range -/

theorem agreeOn_rd8 (lo hi : Nat) (m1 m2 : Mem) (a : Nat) (h : agreeOn lo hi m1 m2)
    (h1 : lo ≤ a) (h2 : a < hi) : rd8 m1 a = rd8 m2 a := by
  unfold rd8
  rw [h a h1 h2]

theorem agreeOn_rd16 (lo hi : Nat) (m1 m2 : Mem) (a : Nat) (h : agreeOn lo hi m1 m2)
    (h1 : lo ≤ a) (h2 : a + 2 ≤ hi) : rd16 m1 a = rd16 m2 a := by
  unfold rd16
  rw [agreeOn_rd8 lo hi m1 m2 a h h1 (by omega),
    agreeOn_rd8 lo hi m1 m2 (a + 1) h (by omega) (by omega)]

theorem agreeOn_rd32 (lo hi : Nat) (m1 m2 : Mem) (a : Nat) (h : agreeOn lo hi m1 m2)
    (h1 : lo ≤ a) (h2 : a + 4 ≤ hi) : rd32 m1 a = rd32 m2 a := by
  unfold rd32
  rw [agreeOn_rd16 lo hi m1 m2 a h h1 (by omega),
    agreeOn_rd16 lo hi m1 m2 (a + 2) h (by omega) (by omega)]

theorem agreeOn_wr8 (lo hi : Nat) (m1 m2 : Mem) (a v : Nat) (h : agreeOn lo hi m1 m2) :
    agreeOn lo hi (wr8 m1 a v) (wr8 m2 a v) := by
  intro i h1 h2
  rw [wr8_apply, wr8_apply, h i h1 h2]

theorem agreeOn_wr16 (lo hi : Nat) (m1 m2 : Mem) (a v : Nat) (h : agreeOn lo hi m1 m2) :
    agreeOn lo hi (wr16 m1 a v) (wr16 m2 a v) :=
  agreeOn_wr8 lo hi _ _ _ _ (agreeOn_wr8 lo hi _ _ _ _ h)

theorem agreeOn_wr32 (lo hi : Nat) (m1 m2 : Mem) (a v : Nat) (h : agreeOn lo hi m1 m2) :
    agreeOn lo hi (wr32 m1 a v) (wr32 m2 a v) :=
  agreeOn_wr16 lo hi _ _ _ _ (agreeOn_wr16 lo hi _ _ _ _ h)

/-- Clearing a stretch in front of the range extends the range over it. -/
theorem agreeOn_memset (lo hi : Nat) (m1 m2 : Mem) (a c k : Nat) (h : agreeOn lo hi m1 m2)
    (h2 : lo ≤ a + k) :
    agreeOn a hi (memset m1 a c k) (memset m2 a c k) := by
  intro i hi1 hi2
  rw [memset_apply, memset_apply]
  by_cases c1 : a ≤ i ∧ i < a + k
  · rw [if_pos c1, if_pos c1]
  · rw [if_neg c1, if_neg c1]
    exact h i (by omega) hi2

theorem agreeOn_memcpy (lo hi : Nat) (m1 m2 s1 s2 : Mem) (d s k : Nat)
    (h : agreeOn lo hi m1 m2) (hs : ∀ j, j < k → s1 (s + j) = s2 (s + j)) :
    agreeOn lo hi (memcpy m1 d s1 s k) (memcpy m2 d s2 s k) := by
  intro i h1 h2
  rw [memcpy_apply, memcpy_apply]
  by_cases c1 : d ≤ i ∧ i < d + k
  · rw [if_pos c1, if_pos c1]
    exact hs (i - d) (by omega)
  · rw [if_neg c1, if_neg c1]
    exact h i h1 h2

theorem agreeOn_src (lo hi : Nat) (m1 m2 : Mem) (s k : Nat) (h : agreeOn lo hi m1 m2)
    (h1 : lo ≤ s) (h2 : s + k ≤ hi) : ∀ j, j < k → m1 (s + j) = m2 (s + j) :=
  fun j hj => h (s + j) (by omega) (by omega)

theorem agreeOn_checksum_diff (lo hi : Nat) (m1 m2 : Mem) (f d : Nat)
    (h : agreeOn lo hi m1 m2) (h1 : lo ≤ f) (h2 : f + 2 ≤ hi) :
    agreeOn lo hi (checksum_diff m1 f d) (checksum_diff m2 f d) := by
  unfold checksum_diff
  rw [agreeOn_rd16 lo hi m1 m2 f h h1 h2]
  exact agreeOn_wr16 lo hi _ _ _ _ h

theorem agreeOn_checksum_loop (lo hi : Nat) (m1 m2 : Mem) (b k i c : Nat)
    (h : agreeOn lo hi m1 m2) (h1 : lo ≤ b + 2 * i) (h2 : b + 2 * (i + k) ≤ hi) :
    checksum_loop m1 b k i c = checksum_loop m2 b k i c := by
  induction k generalizing i c with
  | zero => rfl
  | succ k ih =>
    simp only [checksum_loop]
    rw [agreeOn_rd16 lo hi m1 m2 (b + 2 * i) h h1 (by omega)]
    exact ih (i + 1) _ (by omega) (by omega)

theorem agreeOn_checksum_calc (lo hi : Nat) (m1 m2 : Mem) (buf size : Nat)
    (h : agreeOn lo hi m1 m2) (h1 : lo ≤ buf) (h2 : buf + size ≤ hi) :
    checksum_calc m1 buf size = checksum_calc m2 buf size := by
  unfold checksum_calc
  rw [agreeOn_checksum_loop lo hi m1 m2 buf (size / 2) 0 0 h (by omega) (by omega)]

theorem agreeOn_phdr_loop (lo hi : Nat) (m1 m2 : Mem) (ip6 k i c : Nat)
    (h : agreeOn lo hi m1 m2) (h1 : lo ≤ ip6 + 8 + 2 * i) (h2 : ip6 + 24 + 2 * (i + k) ≤ hi) :
    phdr_loop m1 ip6 k i c = phdr_loop m2 ip6 k i c := by
  induction k generalizing i c with
  | zero => rfl
  | succ k ih =>
    simp only [phdr_loop, s6_addr16, ip6_src, ip6_dst]
    rw [agreeOn_rd16 lo hi m1 m2 (ip6 + 8 + 2 * i) h h1 (by omega),
      agreeOn_rd16 lo hi m1 m2 (ip6 + 24 + 2 * i) h (by omega) (by omega)]
    exact ih (i + 1) _ (by omega) (by omega)

theorem agreeOn_checksum_calc_ipv6_phdr (lo hi : Nat) (m1 m2 : Mem) (ip6 buf size : Nat)
    (h : agreeOn lo hi m1 m2) (h1 : lo ≤ ip6) (h2 : ip6 + 40 ≤ hi) (h3 : lo ≤ buf)
    (h4 : buf + size ≤ hi) :
    checksum_calc_ipv6_phdr m1 ip6 buf size = checksum_calc_ipv6_phdr m2 ip6 buf size := by
  unfold checksum_calc_ipv6_phdr
  simp only [ip6_plen, ip6_nxt]
  rw [agreeOn_phdr_loop lo hi m1 m2 ip6 8 0 0 h (by omega) (by omega),
    agreeOn_rd16 lo hi m1 m2 (ip6 + 4) h (by omega) (by omega),
    agreeOn_rd8 lo hi m1 m2 (ip6 + 6) h (by omega) (by omega),
    agreeOn_checksum_loop lo hi m1 m2 buf (size / 2) 0 _ h (by omega) (by omega)]

theorem agreeOn_bytesAt (lo hi : Nat) (m1 m2 : Mem) (a n : Nat) (h : agreeOn lo hi m1 m2)
    (h1 : lo ≤ a) (h2 : a + n ≤ hi) : bytesAt m1 a n = bytesAt m2 a n :=
  bytesAt_congr m1 m2 n a (fun i hi1 hi2 => h i (by omega) (by omega))

theorem agreeOn_recv (old1 old2 : Mem) (p : List Byte) :
    agreeOn 48 (48 + p.length) (recv old1 p) (recv old2 p) := by
  intro i h1 h2
  unfold recv
  simp only [pkt_ipv4_hdr]
  rw [if_pos ⟨h1, h2⟩, if_pos ⟨h1, h2⟩]

/-! ## The replies read the received bytes only -/

theorem reply_icmp_ping_agree (m1 m2 : Mem) (n : Nat) (hn : 24 ≤ n)
    (h : agreeOn 48 (48 + n) m1 m2) :
    (reply_icmp_ping m1 n).2 = (reply_icmp_ping m2 n).2 := by
  have s2 := fun a b : Nat => agreeOn_wr32 48 (48 + n) _ _ 60 b
    (agreeOn_wr32 48 (48 + n) _ _ 64 a h)
  have s3 := fun a b d : Nat => agreeOn_checksum_diff 48 (48 + n) _ _ 58 d (s2 a b)
    (by omega) (by omega)
  have s5 := fun a b d : Nat => agreeOn_wr8 48 (48 + n) _ _ 68 ICMP_ECHOREPLY
    (agreeOn_wr8 48 (48 + n) _ _ 56 REPLY_TTL (s3 a b d))
  have s6 := fun a b d e : Nat => agreeOn_checksum_diff 48 (48 + n) _ _ 70 e (s5 a b d)
    (by omega) (by omega)
  unfold reply_icmp_ping
  simp only [pkt_ipv4_hdr, pkt_icmp_hdr, iphdr_daddr, iphdr_saddr, iphdr_check, iphdr_ttl,
    icmp_type, icmp_checksum, Nat.reduceAdd]
  refine congrArg some (agreeOn_bytesAt 48 (48 + n) _ _ 48 n ?_ (by omega) (by omega))
  rw [agreeOn_rd32 48 (48 + n) m1 m2 60 h (by omega) (by omega),
    agreeOn_rd32 48 (48 + n) m1 m2 64 h (by omega) (by omega),
    agreeOn_rd8 48 (48 + n) _ _ 56 (s2 _ _) (by omega) (by omega)]
  exact s6 _ _ _ _

theorem reply_icmp6_ping_agree (m1 m2 : Mem) (n : Nat) (hn : 44 ≤ n)
    (h : agreeOn 48 (48 + n) m1 m2) :
    (reply_icmp6_ping m1 n).2 = (reply_icmp6_ping m2 n).2 := by
  have t : ∀ j, j < 16 → memcpy (fun _ => 0) 0 m1 72 16 (0 + j)
      = memcpy (fun _ => 0) 0 m2 72 16 (0 + j) := by
    intro j hj
    rw [memcpy_apply, memcpy_apply, if_pos (by omega), if_pos (by omega)]
    exact h _ (by omega) (by omega)
  have s1 := agreeOn_memcpy 48 (48 + n) m1 m2 m1 m2 72 56 16 h
    (agreeOn_src 48 (48 + n) m1 m2 56 16 h (by omega) (by omega))
  have s2 := agreeOn_memcpy 48 (48 + n) _ _ _ _ 56 0 16 s1 t
  have s4 := agreeOn_wr8 48 (48 + n) _ _ 88 ICMP6_ECHO_REPLY
    (agreeOn_wr8 48 (48 + n) _ _ 55 REPLY_TTL s2)
  have s5 := fun e : Nat => agreeOn_checksum_diff 48 (48 + n) _ _ 90 e s4
    (by omega) (by omega)
  unfold reply_icmp6_ping
  simp only [pkt_ipv6_hdr, pkt_icmp6_hdr, ip6_dst, ip6_src, ip6_hlim, icmp_type,
    icmp_checksum, IPV6_ADDR_LEN, Nat.reduceAdd]
  refine congrArg some (agreeOn_bytesAt 48 (48 + n) _ _ 48 n ?_ (by omega) (by omega))
  exact s5 _


theorem agreeOn_wr_version (lo hi : Nat) (m1 m2 : Mem) (a v : Nat) (h : agreeOn lo hi m1 m2)
    (h1 : lo ≤ a) (h2 : a < hi) : agreeOn lo hi (wr_version m1 a v) (wr_version m2 a v) := by
  unfold wr_version
  rw [agreeOn_rd8 lo hi m1 m2 a h h1 h2]
  exact agreeOn_wr8 lo hi _ _ _ _ h

theorem agreeOn_wr_ihl (lo hi : Nat) (m1 m2 : Mem) (a v : Nat) (h : agreeOn lo hi m1 m2)
    (h1 : lo ≤ a) (h2 : a < hi) : agreeOn lo hi (wr_ihl m1 a v) (wr_ihl m2 a v) := by
  unfold wr_ihl
  rw [agreeOn_rd8 lo hi m1 m2 a h h1 h2]
  exact agreeOn_wr8 lo hi _ _ _ _ h

theorem agreeOn_ite (lo hi : Nat) (c : Prop) (inst : Decidable c) (a1 a2 b1 b2 : Mem)
    (ha : agreeOn lo hi a1 a2) (hb : agreeOn lo hi b1 b2) :
    agreeOn lo hi (@ite Mem c inst a1 b1) (@ite Mem c inst a2 b2) := by
  by_cases hc : c
  · rw [if_pos hc, if_pos hc]
    exact ha
  · rw [if_neg hc, if_neg hc]
    exact hb

theorem reply_icmp_ttl_exceeded_agree (m1 m2 : Mem) (n b : Nat) (hn : 28 ≤ n)
    (h : agreeOn 48 (48 + n) m1 m2) :
    (reply_icmp_ttl_exceeded m1 n b).2 = (reply_icmp_ttl_exceeded m2 n b).2 := by
  have s0 := agreeOn_memset 48 (48 + n) m1 m2 20 0 28 h (by omega)
  have s2 := agreeOn_wr_ihl 20 (48 + n) _ _ 20 5
    (agreeOn_wr_version 20 (48 + n) _ _ 20 4 s0 (by omega) (by omega)) (by omega) (by omega)
  have s5 := agreeOn_wr8 20 (48 + n) _ _ 29 IPPROTO_ICMP
    (agreeOn_wr8 20 (48 + n) _ _ 28 REPLY_TTL
      (agreeOn_wr16 20 (48 + n) _ _ 22 (htons 56) s2))
  have s7 := fun v : Nat => agreeOn_wr32 20 (48 + n) _ _ 36 v s5
  have sT := fun v a : Nat => agreeOn_wr8 20 (48 + n) _ _ 41 ICMP_PORT_UNREACH
    (agreeOn_wr8 20 (48 + n) _ _ 40 ICMP_DEST_UNREACH
      (agreeOn_wr32 20 (48 + n) _ _ 32 a (s7 v)))
  have sE := fun v a : Nat => agreeOn_wr8 20 (48 + n) _ _ 41 0
    (agreeOn_wr8 20 (48 + n) _ _ 40 ICMP_TIME_EXCEEDED
      (agreeOn_wr32 20 (48 + n) _ _ 32 a (s7 v)))
  have s9 := fun (c : Prop) (inst : Decidable c) (v a1 a2 : Nat) =>
    agreeOn_wr16 20 (48 + n) _ _ 30 0
      (agreeOn_ite 20 (48 + n) c inst _ _ _ _ (sT v a1) (sE v a2))
  have s11 := fun (c : Prop) (inst : Decidable c) (v a1 a2 c1 : Nat) =>
    agreeOn_wr16 20 (48 + n) _ _ 42 0
      (agreeOn_wr16 20 (48 + n) _ _ 30 c1 (s9 c inst v a1 a2))
  have s12 := fun (c : Prop) (inst : Decidable c) (v a1 a2 c1 c2 : Nat) =>
    agreeOn_wr16 20 (48 + n) _ _ 42 c2 (s11 c inst v a1 a2 c1)
  unfold reply_icmp_ttl_exceeded
  simp only [pkt_ipv4_hdr, pkt_ipv4_padding, pkt_icmp_padding, iphdr_daddr, iphdr_saddr,
    iphdr_check, iphdr_ttl, iphdr_tot_len, iphdr_protocol, icmp_type, icmp_code,
    icmp_checksum, Nat.reduceAdd]
  refine congrArg some (agreeOn_bytesAt 20 (48 + n) _ _ 20 56 ?_ (by omega) (by omega))
  rw [agreeOn_rd32 20 (48 + n) _ _ 60 s5 (by omega) (by omega),
    agreeOn_rd32 20 (48 + n) _ _ 64 (s7 _) (by omega) (by omega),
    agreeOn_rd8 20 (48 + n) _ _ 56 (s7 _) (by omega) (by omega),
    agreeOn_checksum_calc 20 (48 + n) _ _ 20 20 (s9 _ _ _ _ _) (by omega) (by omega),
    agreeOn_checksum_calc 20 (48 + n) _ _ 40 36 (s11 _ _ _ _ _ _) (by omega) (by omega)]
  exact s12 _ _ _ _ _ _ _


theorem find_v4_agree (wide : Nat → Nat → Nat) (blks : List ip_blk) (m1 m2 : Mem)
    (h : rd32 m1 (pkt_ipv4_hdr + iphdr_daddr) = rd32 m2 (pkt_ipv4_hdr + iphdr_daddr)) :
    find_matching_ipv4_block wide blks m1 = find_matching_ipv4_block wide blks m2 := by
  induction blks with
  | nil => rfl
  | cons blk rest ih =>
    rw [find_v4_cons, find_v4_cons, ih]
    unfold ipv4_blk_matches
    rw [h]

theorem find_v6_agree (wide : Nat → Nat → Nat) (blks : List ip_blk) (m1 m2 : Mem)
    (h : ∀ k, k < 4 → s6_addr32 m1 (pkt_ipv6_hdr + ip6_dst) k
      = s6_addr32 m2 (pkt_ipv6_hdr + ip6_dst) k) :
    find_matching_ipv6_block wide blks m1 = find_matching_ipv6_block wide blks m2 := by
  induction blks with
  | nil => rfl
  | cons blk rest ih =>
    rw [find_v6_cons, find_v6_cons, ih]
    unfold ipv6_blk_matches ipv6_seg0_ok ipv6_seg1_ok ipv6_seg23_ok
    rw [h 0 (by decide), h 1 (by decide), h 2 (by decide), h 3 (by decide)]

theorem reply_icmp6_ttl_exceeded_agree (wide : Nat → Nat → Nat) (blks : List ip_blk)
    (m1 m2 : Mem) (n : Nat) (hn : 48 ≤ n) (h : agreeOn 48 (48 + n) m1 m2) :
    (reply_icmp6_ttl_exceeded wide blks m1 n).2 = (reply_icmp6_ttl_exceeded wide blks m2 n).2 := by
  have hf : find_matching_ipv6_block wide blks m1 = find_matching_ipv6_block wide blks m2 :=
    find_v6_agree wide blks m1 m2 (fun k hk => by
      unfold s6_addr32
      exact agreeOn_rd32 48 (48 + n) m1 m2 _ h (by simp only [pkt_ipv6_hdr, ip6_dst]; omega)
        (by simp only [pkt_ipv6_hdr, ip6_dst]; omega))
  unfold reply_icmp6_ttl_exceeded
  rw [hf]
  cases find_matching_ipv6_block wide blks m2 with
  | none => rfl
  | some B =>
    have s0 := agreeOn_memset 48 (48 + n) m1 m2 0 0 48 h (by omega)
    have s4 := agreeOn_wr8 0 (48 + n) _ _ 7 REPLY_TTL
      (agreeOn_wr8 0 (48 + n) _ _ 6 IPPROTO_ICMPV6
        (agreeOn_wr16 0 (48 + n) _ _ 4 (htons 56)
          (agreeOn_wr32 0 (48 + n) _ _ 0 0x60 s0)))
    have s5 := agreeOn_memcpy 0 (48 + n) _ _ _ _ 24 56 16 s4
      (agreeOn_src 0 (48 + n) _ _ 56 16 s4 (by omega) (by omega))
    have sT := agreeOn_wr8 0 (48 + n) _ _ 41 ICMP6_DST_UNREACH_NOPORT
      (agreeOn_wr8 0 (48 + n) _ _ 40 ICMP6_DST_UNREACH
        (agreeOn_memcpy 0 (48 + n) _ _ _ _ 8 72 16 s5
          (agreeOn_src 0 (48 + n) _ _ 72 16 s5 (by omega) (by omega))))
    have sZ := agreeOn_memcpy 0 (48 + n) _ _ B B 8 0 16 s5 (fun _ _ => rfl)
    have sE := fun v : Nat => agreeOn_wr8 0 (48 + n) _ _ 41 0
      (agreeOn_wr8 0 (48 + n) _ _ 40 ICMP6_TIME_EXCEEDED
        (agreeOn_wr32 0 (48 + n) _ _ 20 v sZ))
    have s9 := fun (c : Prop) (inst : Decidable c) (v : Nat) =>
      agreeOn_wr16 0 (48 + n) _ _ 42 0
        (agreeOn_ite 0 (48 + n) c inst _ _ _ _ sT (sE v))
    have s10 := fun (c : Prop) (inst : Decidable c) (v ck : Nat) =>
      agreeOn_wr16 0 (48 + n) _ _ 42 ck (s9 c inst v)
    simp only [pkt_ipv6_hdr, pkt_ipv6_padding, pkt_icmp_padding, ip6_flow, ip6_plen, ip6_nxt,
      ip6_hlim, ip6_src, ip6_dst, icmp_type, icmp_code, icmp_checksum, IPV6_ADDR_LEN,
      s6_addr32, Nat.reduceAdd, Nat.reduceMul]
    refine congrArg some (agreeOn_bytesAt 0 (48 + n) _ _ 0 96 ?_ (by omega) (by omega))
    rw [agreeOn_rd32 0 (48 + n) _ _ 84 s5 (by omega) (by omega),
      agreeOn_rd8 0 (48 + n) _ _ 55 s5 (by omega) (by omega),
      agreeOn_rd32 0 (48 + n) _ _ 20 sZ (by omega) (by omega),
      agreeOn_rd8 0 (48 + n) _ _ 55 sZ (by omega) (by omega),
      agreeOn_checksum_calc_ipv6_phdr 0 (48 + n) _ _ 0 40 56 (s9 _ _ _) (by omega) (by omega)
        (by omega) (by omega)]
    exact s10 _ _ _ _

/-- The bytes `handle_pkt` writes are determined by the received bytes, for a packet of
at least 48 bytes, or of at least 28 bytes when its first nibble is 4. -/
theorem handle_pkt_agree (wide : Nat → Nat → Nat) (blks : List ip_blk) (m1 m2 : Mem) (n : Nat)
    (h : agreeOn 48 (48 + n) m1 m2)
    (hn : 48 ≤ n ∨ (28 ≤ n ∧ rd_version m1 pkt_ipv4_hdr = 4)) :
    (handle_pkt wide blks m1 n).2 = (handle_pkt wide blks m2 n).2 := by
  have hn28 : 28 ≤ n := by omega
  have r8 : ∀ a, 48 ≤ a → a < 76 → rd8 m1 a = rd8 m2 a :=
    fun a h1 h2 => agreeOn_rd8 48 (48 + n) m1 m2 a h h1 (by omega)
  have hv : rd_version m1 pkt_ipv4_hdr = rd_version m2 pkt_ipv4_hdr := by
    unfold rd_version
    rw [r8 _ (by decide) (by decide)]
  have hi : rd_ihl m1 pkt_ipv4_hdr = rd_ihl m2 pkt_ipv4_hdr := by
    unfold rd_ihl
    rw [r8 _ (by decide) (by decide)]
  by_cases c4 : rd_version m1 pkt_ipv4_hdr = 4 ∧ rd_ihl m1 pkt_ipv4_hdr = 5
  · have c4b : rd_version m2 pkt_ipv4_hdr = 4 ∧ rd_ihl m2 pkt_ipv4_hdr = 5 := by
      rw [← hv, ← hi]; exact c4
    unfold handle_pkt
    rw [if_pos c4, if_pos c4b, r8 (pkt_ipv4_hdr + iphdr_protocol) (by decide) (by decide),
      r8 (pkt_icmp_hdr + icmp_type) (by decide) (by decide),
      find_v4_agree wide blks m1 m2
        (agreeOn_rd32 48 (48 + n) m1 m2 _ h (by decide)
          (by simp only [pkt_ipv4_hdr, iphdr_daddr]; omega))]
    split
    · exact reply_icmp_ping_agree m1 m2 n (by omega) h
    · split
      · rfl
      · dsimp only
        split
        · rfl
        · exact reply_icmp_ttl_exceeded_agree m1 m2 n _ hn28 h
  · have c4b : ¬ (rd_version m2 pkt_ipv4_hdr = 4 ∧ rd_ihl m2 pkt_ipv4_hdr = 5) := by
      rw [← hv, ← hi]; exact c4
    by_cases c6 : rd_version m1 pkt_ipv4_hdr = 6
    · have hn48 : 48 ≤ n := by
        rcases hn with h1 | h1
        · exact h1
        · rw [h1.2] at c6
          exact absurd c6 (by decide)
      have r8b : ∀ a, 48 ≤ a → a < 96 → rd8 m1 a = rd8 m2 a :=
        fun a h1 h2 => agreeOn_rd8 48 (48 + n) m1 m2 a h h1 (by omega)
      rw [handle_pkt_v6 wide blks m1 n c6, handle_pkt_v6 wide blks m2 n (by rw [← hv]; exact c6),
        r8b (pkt_ipv6_hdr + ip6_nxt) (by decide) (by decide),
        r8b (pkt_icmp6_hdr + icmp_type) (by decide) (by decide)]
      split
      · exact reply_icmp6_ping_agree m1 m2 n (by omega) h
      · split
        · rfl
        · exact reply_icmp6_ttl_exceeded_agree wide blks m1 m2 n hn48 h
    · rw [handle_pkt_not_v4_v6 wide blks m1 n c4 c6,
        handle_pkt_not_v4_v6 wide blks m2 n c4b (by rw [← hv]; exact c6)]


/-- C20, as the code has it: for a received packet of at least 48 bytes, or of at least
28 bytes when its first nibble is 4, the decision of `handle_pkt` and the bytes it writes
are the same whatever the buffer held before the packet was received. -/
theorem C20_reply_from_packet_amended (wide : Nat → Nat → Nat) (blks : List ip_blk)
    (old1 old2 : Mem) (p : List Byte)
    (hn : 48 ≤ p.length ∨ (28 ≤ p.length ∧ rd_version (memOf p) 0 = 4)) :
    (handle_pkt wide blks (recv old1 p) p.length).2
      = (handle_pkt wide blks (recv old2 p) p.length).2 := by
  have hv : rd_version (recv old1 p) pkt_ipv4_hdr = rd_version (memOf p) 0 := by
    unfold rd_version rd8 recv memOf
    simp only [pkt_ipv4_hdr]
    rw [if_pos ⟨Nat.le_refl 48, by omega⟩]
  exact handle_pkt_agree wide blks _ _ p.length (agreeOn_recv old1 old2 p)
    (hn.imp id (fun h => ⟨h.1, hv.trans h.2⟩))

/-- C20 at a concrete input: the probe `udp_hop3` of 28 bytes received into a fresh
buffer and into one that held an earlier packet gives the same reply. -/
theorem C20_reply_from_packet_amended_witness :
    (handle_pkt wideZero [blk_10] (recv zeroMem udp_hop3) udp_hop3.length).2
        = (handle_pkt wideZero [blk_10] (recv staleMem udp_hop3) udp_hop3.length).2
      ∧ (handle_pkt wideZero [blk_10] (recv zeroMem udp_hop3) udp_hop3.length).2.isSome = true :=
  ⟨C20_reply_from_packet_amended wideZero [blk_10] zeroMem staleMem udp_hop3
    (Or.inr ⟨by decide, by decide⟩), by decide⟩

/-- C20 fails as stated: after a bare IPv4 header of 20 bytes the 56-byte reply quotes 8
bytes behind the packet, zeros from a fresh buffer and the ICMP header of the earlier
packet `echo4` from a used one; after a packet of the single byte `0x45` the earlier
packet decides between reply and drop. -/
theorem C20_reply_from_packet_counterexample :
    hdr_only.length = 20
      ∧ (handle_pkt wideZero [blk_10] (recv zeroMem hdr_only) hdr_only.length).2.map
          (List.drop 48) = some [0, 0, 0, 0, 0, 0, 0, 0]
      ∧ (handle_pkt wideZero [blk_10] (recv staleMem hdr_only) hdr_only.length).2.map
          (List.drop 48) = some [8, 0, 51, 55, 0, 1, 0, 1]
      ∧ (echo4.drop 20).take 8 = [8, 0, 51, 55, 0, 1, 0, 1]
      ∧ (handle_pkt wideZero [blk_10] (recv zeroMem one_byte) one_byte.length).2 = none
      ∧ (handle_pkt wideZero [blk_10] (recv (recv zeroMem udp_hop3) one_byte)
          one_byte.length).2.isSome = true := by
  decide

end RouteChain
